import Mathlib

/-! # Client registries of `php_phongo.c`

A shallow embedding of the client lifecycle code of `src/php_phongo.c`:
the persistent and request-scoped client registries, PID tracking
(`created_by_pid`, `last_reset_by_pid`), the client hash,
`phongo_manager_init`, and the module life-cycle hooks that create and drain
the registries.

Conventions of the embedding.

* Pointers are natural numbers and `0` is `NULL`.
* `getpid()` is an explicit argument `pid` of every function that calls it.
* Calls into libmongoc that create, reset or destroy a client are appended to
  the `calls` field of the state, in program order.
* The Zend `HashTable` is an insertion ordered list of key/value pairs; the
  element destructor of the two client registries is
  `php_phongo_pclient_destroy`.
* A function that dereferences a registry pointer without a `NULL` check
  returns `none` when the pointer is `NULL`.
* The PHP serializer is an argument of the functions that use it, and the
  results of the other callees of `phongo_manager_init` whose bodies are not
  embedded are collected in `InitSteps`; theorems hold for all their values.
-/

namespace Phongo

/-! ## libmongoc calls -/

/-- The libmongoc calls on client handles that the embedding records. -/
inductive DriverCall where
  /-- Records `mongoc_client_new_from_uri` returning the handle. -/
  | client_new (client : Nat)
  /-- Records `mongoc_client_reset`. -/
  | client_reset (client : Nat)
  /-- Records `mongoc_client_destroy`. -/
  | client_destroy (client : Nat)
  deriving DecidableEq, Repr

/-! ## Records and Zend hash tables -/

/-- The struct `php_phongo_pclient_t`: one registry record. -/
structure php_phongo_pclient_t where
  client : Nat
  created_by_pid : Int
  last_reset_by_pid : Int
  is_persistent : Bool
  deriving DecidableEq, Repr

/-- A Zend `HashTable` with integer keys: buckets in insertion order and the
next free index. -/
structure HashTable (α : Type) where
  arData : List (Nat × α)
  nNextFreeElement : Nat
  deriving DecidableEq, Repr

/-- The largest `zend_long`. -/
def ZEND_LONG_MAX : Nat := 2 ^ 63 - 1

/-- Result of `zend_hash_init`: an empty table. -/
def zend_hash_init {α : Type} : HashTable α :=
  { arData := [], nNextFreeElement := 0 }

/-- Number of buckets, `zend_hash_num_elements`. -/
def zend_hash_num_elements {α : Type} (ht : HashTable α) : Nat :=
  ht.arData.length

/-- Appends at the next free index, `zend_hash_next_index_insert_ptr`; `none`
is the `NULL` result returned when that index is already occupied, which
happens once the index space is exhausted. -/
def zend_hash_next_index_insert_ptr {α : Type} (ht : HashTable α) (p : α) :
    Option (HashTable α) :=
  let h := ht.nNextFreeElement
  if ht.arData.any (fun e => e.1 == h) then none
  else some { arData := ht.arData ++ [(h, p)]
              nNextFreeElement := if h < ZEND_LONG_MAX then h + 1 else ZEND_LONG_MAX }

/-- Lookup in a string keyed table, `zend_hash_str_find_ptr`. -/
def zend_hash_str_find_ptr {α : Type} : List (String × α) → String → Option α
  | [], _ => none
  | (k, v) :: rest, key => if k = key then some v else zend_hash_str_find_ptr rest key

/-- Buckets after `zend_hash_str_update_ptr`: an existing key keeps its place
and has its value overwritten, a new key is appended. -/
def zend_hash_str_update_ptr {α : Type} : List (String × α) → String → α → List (String × α)
  | [], key, p => [(key, p)]
  | (k, v) :: rest, key, p =>
    if k = key then (k, p) :: rest else (k, v) :: zend_hash_str_update_ptr rest key p

/-- Buckets after `zend_hash_index_del`: the bucket stored under the index is
removed. -/
def zend_hash_index_del {α : Type} : List (Nat × α) → Nat → List (Nat × α)
  | [], _ => []
  | (k, v) :: rest, index =>
    if k = index then rest else (k, v) :: zend_hash_index_del rest index

/-- Lookup in an integer keyed table, `zend_hash_index_find_ptr`. -/
def zend_hash_index_find_ptr {α : Type} : List (Nat × α) → Nat → Option α
  | [], _ => none
  | (k, v) :: rest, index => if k = index then some v else zend_hash_index_find_ptr rest index

/-! ## Managers and zvals -/

/-- The fields of the struct `php_phongo_manager_t` used by the registries.
`client_hash` is the empty string while the C pointer is `NULL` (its length is
then `0`); `key_vault_client_manager` is `none` while the zval is undefined. -/
inductive php_phongo_manager_t where
  | mk (client : Nat) (client_hash : String) (use_persistent_client : Bool)
      (key_vault_client_manager : Option php_phongo_manager_t)
  deriving Repr

namespace php_phongo_manager_t

/-- Field `client`. -/
def client : php_phongo_manager_t → Nat
  | mk c _ _ _ => c

/-- Field `client_hash`. -/
def client_hash : php_phongo_manager_t → String
  | mk _ h _ _ => h

/-- Field `use_persistent_client`. -/
def use_persistent_client : php_phongo_manager_t → Bool
  | mk _ _ p _ => p

/-- Field `key_vault_client_manager`. -/
def key_vault_client_manager : php_phongo_manager_t → Option php_phongo_manager_t
  | mk _ _ _ k => k

end php_phongo_manager_t

/-- Key of a PHP array element. -/
inductive array_key where
  | idx (n : Int)
  | str (s : String)
  deriving DecidableEq, Repr

/-- PHP values that reach `phongo_manager_init` as `options` and
`driverOptions`. Arrays keep insertion order. Floating point values are left
out. -/
inductive zval where
  | null
  | bool (b : Bool)
  | long (n : Int)
  | string (s : String)
  | array (elems : List (array_key × zval))
  /-- An object that is an instance of the Manager class. -/
  | manager (m : php_phongo_manager_t)
  /-- Any other object, with its class name and object handle; its properties
  are left out. -/
  | object (cls : String) (handle : Nat)
  deriving Repr

/-! ## Extension globals -/

/-- The registries of `zend_mongodb_globals` (`MONGODB_G`) together with the
record of libmongoc calls made so far. `persistent_clients` is embedded in the
globals; the other three tables are pointers that are `NULL` outside a
request. The `subscribers` and `managers` tables hold object pointers. -/
structure State where
  persistent_clients : List (String × php_phongo_pclient_t)
  request_clients : Option (HashTable php_phongo_pclient_t)
  subscribers : Option (HashTable Nat)
  managers : Option (HashTable Nat)
  calls : List DriverCall
  deriving Repr

/-- Destroys a record, `php_phongo_pclient_destroy`: the handle is destroyed
only when the record was created by the calling process. Returns the extended
record of libmongoc calls. -/
def php_phongo_pclient_destroy (pid : Int) (pclient : php_phongo_pclient_t)
    (calls : List DriverCall) : List DriverCall :=
  if pclient.created_by_pid = pid then
    calls ++ [DriverCall.client_destroy pclient.client]
  else
    calls

/-- Runs the element destructor over buckets in the order given. -/
def destroy_buckets {κ : Type} (pid : Int) :
    List (κ × php_phongo_pclient_t) → List DriverCall → List DriverCall
  | [], calls => calls
  | (_, pclient) :: rest, calls =>
    destroy_buckets pid rest (php_phongo_pclient_destroy pid pclient calls)

/-- Destructor calls of `zend_hash_destroy`: first bucket to last. -/
def zend_hash_destroy {κ : Type} (pid : Int) (arData : List (κ × php_phongo_pclient_t))
    (calls : List DriverCall) : List DriverCall :=
  destroy_buckets pid arData calls

/-- Destructor calls of `zend_hash_graceful_reverse_destroy`: last bucket to
first. -/
def zend_hash_graceful_reverse_destroy {κ : Type} (pid : Int)
    (arData : List (κ × php_phongo_pclient_t)) (calls : List DriverCall) : List DriverCall :=
  destroy_buckets pid arData.reverse calls

/-! ## Registering and unregistering clients -/

/-- Adds the Manager's client to the persistent or the request registry,
`php_phongo_client_register`. The record comes from `pecalloc`, so
`last_reset_by_pid` starts at `0`. Overwriting a persistent bucket runs the
table's destructor on the record it held. The result is `none` when the
request registry is dereferenced while `NULL`. -/
def php_phongo_client_register (pid : Int) (manager : php_phongo_manager_t) (s : State) :
    Option (Bool × State) :=
  let is_persistent := manager.use_persistent_client
  let pclient : php_phongo_pclient_t :=
    { client := manager.client, created_by_pid := pid, last_reset_by_pid := 0,
      is_persistent := is_persistent }
  if is_persistent then
    let calls :=
      match zend_hash_str_find_ptr s.persistent_clients manager.client_hash with
      | some old => php_phongo_pclient_destroy pid old s.calls
      | none => s.calls
    some (true, { s with
      persistent_clients :=
        zend_hash_str_update_ptr s.persistent_clients manager.client_hash pclient
      calls := calls })
  else
    match s.request_clients with
    | none => none
    | some ht =>
      match zend_hash_next_index_insert_ptr ht pclient with
      | some ht1 => some (true, { s with request_clients := some ht1 })
      | none => some (false, s)

/-- The loop of `php_phongo_client_unregister` and of
`php_phongo_client_reset_once`: the first bucket whose record holds the
client. -/
def foreach_client : List (Nat × php_phongo_pclient_t) → Nat → Option (Nat × php_phongo_pclient_t)
  | [], _ => none
  | (index, pclient) :: rest, client =>
    if pclient.client = client then some (index, pclient) else foreach_client rest client

/-- Removes the Manager's client from the request registry,
`php_phongo_client_unregister`; deleting the bucket runs the table's
destructor on it. -/
def php_phongo_client_unregister (pid : Int) (manager : php_phongo_manager_t) (s : State) :
    Bool × State :=
  if manager.use_persistent_client then
    (false, s)
  else
    match s.request_clients with
    | none => (false, s)
    | some ht =>
      match foreach_client ht.arData manager.client with
      | none => (false, s)
      | some (index, _) =>
        match zend_hash_index_find_ptr ht.arData index with
        | none => (false, s)
        | some victim =>
          (true, { s with
            request_clients := some { ht with arData := zend_hash_index_del ht.arData index }
            calls := php_phongo_pclient_destroy pid victim s.calls })

/-- Looks up a persistent client by hash, `php_phongo_find_persistent_client`;
`0` is `NULL`. -/
def php_phongo_find_persistent_client (s : State) (hash : String) : Nat :=
  match zend_hash_str_find_ptr s.persistent_clients hash with
  | some pclient => pclient.client
  | none => 0

/-! ## Reset after fork -/

/-- Resets a record once per pid, `phongo_pclient_reset_once`. Returns the
updated record and the extended record of libmongoc calls. -/
def phongo_pclient_reset_once (pclient : php_phongo_pclient_t) (pid : Int)
    (calls : List DriverCall) : php_phongo_pclient_t × List DriverCall :=
  if pclient.last_reset_by_pid ≠ pid then
    ({ pclient with last_reset_by_pid := pid },
      calls ++ [DriverCall.client_reset pclient.client])
  else
    (pclient, calls)

/-- Applies `phongo_pclient_reset_once` in place to the first bucket selected
by `sel`, as the C code does through the record pointer. -/
def reset_first {κ : Type} (sel : κ → php_phongo_pclient_t → Bool) (pid : Int) :
    List (κ × php_phongo_pclient_t) → List DriverCall →
      List (κ × php_phongo_pclient_t) × List DriverCall
  | [], calls => ([], calls)
  | (k, pclient) :: rest, calls =>
    if sel k pclient then
      let r := phongo_pclient_reset_once pclient pid calls
      ((k, r.1) :: rest, r.2)
    else
      let r := reset_first sel pid rest calls
      ((k, pclient) :: r.1, r.2)

/-- Resets the Manager's client if it has not been reset for the pid, after
doing the same for its key vault client, `php_phongo_client_reset_once`. The
result is `none` when the request registry is dereferenced while `NULL`. -/
def php_phongo_client_reset_once : php_phongo_manager_t → Int → State → Option State
  | php_phongo_manager_t.mk client client_hash use_persistent_client kv, pid, s =>
    let s1 : Option State :=
      match kv with
      | some key_vault => php_phongo_client_reset_once key_vault pid s
      | none => some s
    match s1 with
    | none => none
    | some s1 =>
      if use_persistent_client then
        let r := reset_first (fun k _ => k = client_hash) pid s1.persistent_clients s1.calls
        some { s1 with persistent_clients := r.1, calls := r.2 }
      else
        match s1.request_clients with
        | none => none
        | some ht =>
          let r := reset_first (fun _ pclient => pclient.client = client) pid ht.arData s1.calls
          some { s1 with request_clients := some { ht with arData := r.1 }, calls := r.2 }

/-! ## Module life cycle -/

/-- State after `PHP_GINIT_FUNCTION`: the globals are cleared and the
persistent registry is initialised. -/
def GINIT : State :=
  { persistent_clients := [], request_clients := none, subscribers := none,
    managers := none, calls := [] }

/-- Allocates the three request-scoped tables that are `NULL`,
`PHP_RINIT_FUNCTION`. -/
def RINIT (s : State) : State :=
  let s1 :=
    match s.request_clients with
    | none => { s with request_clients := some zend_hash_init }
    | some _ => s
  let s2 :=
    match s1.subscribers with
    | none => { s1 with subscribers := some zend_hash_init }
    | some _ => s1
  match s2.managers with
  | none => { s2 with managers := some zend_hash_init }
  | some _ => s2

/-- Destroys the three request-scoped tables and resets them to `NULL`,
`PHP_RSHUTDOWN_FUNCTION`. Only the request registry has a destructor that
reaches libmongoc. -/
def RSHUTDOWN (pid : Int) (s : State) : State :=
  let s1 := { s with subscribers := none }
  let s2 :=
    match s1.request_clients with
    | some ht => { s1 with request_clients := none, calls := zend_hash_destroy pid ht.arData s1.calls }
    | none => s1
  { s2 with managers := none }

/-- Destroys the persistent registry in reverse order,
`PHP_GSHUTDOWN_FUNCTION`. -/
def GSHUTDOWN (pid : Int) (s : State) : State :=
  { s with
    persistent_clients := []
    calls := zend_hash_graceful_reverse_destroy pid s.persistent_clients s.calls }

/-! ## PHP arrays -/

/-- A `zval*` argument that is `NULL` or points to an array, as `options` and
`driverOptions` are. -/
abbrev zarray := List (array_key × zval)

/-- Element stored under a string key, `php_array_fetchc`; `none` is `NULL`. -/
def php_array_fetchc : zarray → String → Option zval
  | [], _ => none
  | (k, v) :: rest, key =>
    if k = array_key.str key then some v else php_array_fetchc rest key

/-- Tests whether a string key is present, `php_array_existsc`. -/
def php_array_existsc (zarr : zarray) (key : String) : Bool :=
  (php_array_fetchc zarr key).isSome

/-- Truth value of a zval, `zend_is_true`. -/
def zend_is_true : zval → Bool
  | zval.null => false
  | zval.bool b => b
  | zval.long n => n != 0
  | zval.string s => s != "" && s != "0"
  | zval.array elems => !elems.isEmpty
  | zval.manager _ => true
  | zval.object _ _ => true

/-- Element under a string key converted to a boolean,
`php_array_fetchc_bool`; a missing element is false. -/
def php_array_fetchc_bool (zarr : zarray) (key : String) : Bool :=
  match php_array_fetchc zarr key with
  | some v => zend_is_true v
  | none => false

/-- Stores a value under a string key, as the `ADD_ASSOC_*` macros do: an
existing key keeps its place, a new key is appended. -/
def add_assoc : zarray → String → zval → zarray
  | [], key, v => [(array_key.str key, v)]
  | (k, old) :: rest, key, v =>
    if k = array_key.str key then (k, v) :: rest else (k, old) :: add_assoc rest key v

/-! ## Client hash -/

/-- Builds the driver options that are serialized into the hash,
`php_phongo_manager_prepare_manager_for_hash`: a Manager given as
`autoEncryption.keyVaultClient` is replaced by its `client_hash` in a copy of
the options. -/
def php_phongo_manager_prepare_manager_for_hash (driverOptions : zarray) : zarray :=
  match php_array_fetchc driverOptions "autoEncryption" with
  | some (zval.array autoEncryptionOpts) =>
    match php_array_fetchc autoEncryptionOpts "keyVaultClient" with
    | some (zval.manager manager) =>
      let autoEncryptionOptsClone :=
        add_assoc autoEncryptionOpts "keyVaultClient" (zval.string manager.client_hash)
      add_assoc driverOptions "autoEncryption" (zval.array autoEncryptionOptsClone)
    | _ => driverOptions
  | _ => driverOptions

/-- The array that `php_phongo_manager_make_client_hash` serializes. -/
def client_hash_args (pid : Int) (uri_string : String) (options driverOptions : Option zarray) :
    zarray :=
  let args : zarray := []
  let args := add_assoc args "pid" (zval.long pid)
  let args := add_assoc args "uri" (zval.string uri_string)
  let args :=
    match options with
    | some o => add_assoc args "options" (zval.array o)
    | none => add_assoc args "options" zval.null
  match driverOptions with
  | some d =>
    add_assoc args "driverOptions" (zval.array (php_phongo_manager_prepare_manager_for_hash d))
  | none => add_assoc args "driverOptions" zval.null

/-- Computes the client hash, `php_phongo_manager_make_client_hash`. The PHP
serializer `php_var_serialize` is the argument `serialize`; it yields `none`
when it raises an exception, and the hash is then `NULL`. -/
def php_phongo_manager_make_client_hash (serialize : zval → Option String) (pid : Int)
    (uri_string : String) (options driverOptions : Option zarray) : Option String :=
  serialize (zval.array (client_hash_args pid uri_string options driverOptions))

/-! ## Exceptions -/

/-- The enum `php_phongo_error_domain_t`. -/
inductive php_phongo_error_domain_t where
  | PHONGO_ERROR_INVALID_ARGUMENT
  | PHONGO_ERROR_LOGIC
  | PHONGO_ERROR_RUNTIME
  | PHONGO_ERROR_UNEXPECTED_VALUE
  | PHONGO_ERROR_MONGOC_FAILED
  | PHONGO_ERROR_CONNECTION_FAILED
  /-- Any integer that is not one of the enumerators. -/
  | unknown (domain : Int)
  deriving DecidableEq, Repr

/-- The exception classes of the extension that the embedding refers to. -/
inductive zend_class_entry where
  | php_phongo_invalidargumentexception_ce
  | php_phongo_logicexception_ce
  | php_phongo_runtimeexception_ce
  | php_phongo_unexpectedvalueexception_ce
  | php_phongo_connectionexception_ce
  deriving DecidableEq, Repr

open php_phongo_error_domain_t zend_class_entry in
/-- Maps an error domain to its exception class,
`phongo_exception_from_phongo_domain`. -/
def phongo_exception_from_phongo_domain : php_phongo_error_domain_t → zend_class_entry
  | PHONGO_ERROR_INVALID_ARGUMENT => php_phongo_invalidargumentexception_ce
  | PHONGO_ERROR_LOGIC => php_phongo_logicexception_ce
  | PHONGO_ERROR_RUNTIME => php_phongo_runtimeexception_ce
  | PHONGO_ERROR_UNEXPECTED_VALUE => php_phongo_unexpectedvalueexception_ce
  | PHONGO_ERROR_MONGOC_FAILED => php_phongo_runtimeexception_ce
  | PHONGO_ERROR_CONNECTION_FAILED => php_phongo_connectionexception_ce
  | unknown _ => php_phongo_runtimeexception_ce

/-- The callees of `phongo_manager_init` whose bodies are not embedded. -/
inductive Callee where
  | php_var_serialize
  | php_phongo_zval_to_bson
  | php_phongo_make_uri
  | php_phongo_apply_options_to_uri
  | php_phongo_apply_rc_options_to_uri
  | php_phongo_apply_rp_options_to_uri
  | php_phongo_apply_wc_options_to_uri
  | php_phongo_apply_driver_options_to_uri
  | php_phongo_make_ssl_opt
  | php_phongo_uri_finalize_tls
  | auto_encryption_options
  deriving DecidableEq, Repr

/-- An exception raised during `phongo_manager_init`: either by
`phongo_throw_exception` in embedded code, with its domain, or inside a callee
that is not embedded. -/
inductive Thrown where
  | domain (d : php_phongo_error_domain_t)
  | callee (c : Callee)
  deriving DecidableEq, Repr

/-! ## Creating a Manager's client -/

open php_phongo_error_domain_t in
/-- Checks one handshake option, `php_phongo_extract_handshake_data`: a value
that is present must be a string. Returns the exceptions raised. -/
def php_phongo_extract_handshake_data (driver : zarray) (key : String) : List Thrown :=
  match php_array_fetchc driver key with
  | none => []
  | some (zval.string _) => []
  | some _ => [Thrown.domain PHONGO_ERROR_INVALID_ARGUMENT]

open php_phongo_error_domain_t in
/-- Validates the `driver` option before the handshake data is appended,
`php_phongo_set_handshake_data`. Returns the exceptions raised; the caller
goes on to create the client in either case. -/
def php_phongo_set_handshake_data (driverOptions : Option zarray) : List Thrown :=
  match driverOptions with
  | none => []
  | some d =>
    match php_array_fetchc d "driver" with
    | none => []
    | some (zval.array driver) =>
      match php_phongo_extract_handshake_data driver "name" with
      | [] =>
        match php_phongo_extract_handshake_data driver "version" with
        | [] => php_phongo_extract_handshake_data driver "platform"
        | e => e
      | e => e
    | some _ => [Thrown.domain PHONGO_ERROR_INVALID_ARGUMENT]

/-- Build configuration of the extension. -/
structure Build where
  MONGOC_ENABLE_SSL : Bool
  MONGOC_ENABLE_CLIENT_SIDE_ENCRYPTION : Bool
  deriving DecidableEq, Repr

/-- Results of the callees of `phongo_manager_init` whose bodies are not
embedded. A `Bool` field is true when the callee succeeded (returned true or a
non `NULL` pointer and raised no exception); `mongoc_uri_get_tls` is the value
returned by that call; `mongoc_client_new_from_uri` is the handle returned,
`0` for `NULL`; `mongoc_client_set_error_api` is true when that call, which is
handed the handle before the handle is tested for `NULL`, returns for the
`NULL` handle (for a client handle it returns, and its value is ignored);
`mongoc_client_set_apm_callbacks` is the value returned when the monitoring
callbacks are set. `auto_encryption_options` stands for the part of
`phongo_manager_set_auto_encryption_opts` that follows the `keyVaultClient`
option, up to and including `mongoc_client_enable_auto_encryption`. -/
structure InitSteps where
  php_phongo_zval_to_bson : Bool
  php_phongo_make_uri : Bool
  php_phongo_apply_options_to_uri : Bool
  php_phongo_apply_rc_options_to_uri : Bool
  php_phongo_apply_rp_options_to_uri : Bool
  php_phongo_apply_wc_options_to_uri : Bool
  php_phongo_apply_driver_options_to_uri : Bool
  php_phongo_make_ssl_opt : Bool
  php_phongo_uri_finalize_tls : Bool
  mongoc_uri_get_tls : Bool
  mongoc_client_new_from_uri : Nat
  mongoc_client_set_error_api : Bool
  auto_encryption_options : Bool
  mongoc_client_set_apm_callbacks : Bool
  deriving DecidableEq, Repr

namespace php_phongo_manager_t

/-- Assigns field `client`. -/
def set_client : php_phongo_manager_t → Nat → php_phongo_manager_t
  | mk _ h p k, c => mk c h p k

/-- Assigns field `client_hash`. -/
def set_client_hash : php_phongo_manager_t → String → php_phongo_manager_t
  | mk c _ p k, h => mk c h p k

/-- Assigns field `use_persistent_client`. -/
def set_use_persistent_client : php_phongo_manager_t → Bool → php_phongo_manager_t
  | mk c h _ k, p => mk c h p k

/-- Assigns field `key_vault_client_manager`. -/
def set_key_vault_client_manager :
    php_phongo_manager_t → Option php_phongo_manager_t → php_phongo_manager_t
  | mk c h p _, k => mk c h p k

/-- A Manager object as allocated, before `phongo_manager_init`. -/
def zero : php_phongo_manager_t := mk 0 "" false none

end php_phongo_manager_t

open php_phongo_error_domain_t in
/-- Applies the `autoEncryption` driver option,
`phongo_manager_set_auto_encryption_opts`, in both build configurations.
Returns the return value, the Manager and the exceptions raised. -/
def phongo_manager_set_auto_encryption_opts (build : Build) (steps : InitSteps)
    (manager : php_phongo_manager_t) (driverOptions : Option zarray) :
    Bool × php_phongo_manager_t × List Thrown :=
  match driverOptions with
  | none => (true, manager, [])
  | some d =>
    match php_array_fetchc d "autoEncryption" with
    | none => (true, manager, [])
    | some zAutoEncryptionOpts =>
      if build.MONGOC_ENABLE_CLIENT_SIDE_ENCRYPTION then
        match zAutoEncryptionOpts with
        | zval.array opts =>
          let rest (manager : php_phongo_manager_t) : Bool × php_phongo_manager_t × List Thrown :=
            if steps.auto_encryption_options then (true, manager, [])
            else (false, manager, [Thrown.callee Callee.auto_encryption_options])
          match php_array_fetchc opts "keyVaultClient" with
          | none => rest manager
          | some (zval.manager key_vault_client) =>
            if manager.use_persistent_client != key_vault_client.use_persistent_client then
              (false, manager, [Thrown.domain PHONGO_ERROR_INVALID_ARGUMENT])
            else
              rest (manager.set_key_vault_client_manager (some key_vault_client))
          | some _ => (false, manager, [Thrown.domain PHONGO_ERROR_INVALID_ARGUMENT])
        | _ => (false, manager, [Thrown.domain PHONGO_ERROR_INVALID_ARGUMENT])
      else
        (false, manager, [Thrown.domain PHONGO_ERROR_INVALID_ARGUMENT])

open php_phongo_error_domain_t in
/-- Sets the monitoring callbacks of a new client,
`php_phongo_set_monitoring_callbacks`. Returns the exceptions raised; the
caller ignores the return value and goes on to register the client. -/
def php_phongo_set_monitoring_callbacks (steps : InitSteps) : List Thrown :=
  if steps.mongoc_client_set_apm_callbacks then []
  else [Thrown.domain PHONGO_ERROR_UNEXPECTED_VALUE]

/-- What `phongo_manager_init` leaves behind: the Manager, the state, and the
exceptions raised, in order (none on success). -/
structure InitResult where
  manager : php_phongo_manager_t
  state : State
  thrown : List Thrown
  deriving Repr

open php_phongo_error_domain_t in
/-- The steps of `phongo_manager_init` between the registry lookup and the
creation of the client, in source order: the exception of the first step that
fails and jumps to `cleanup`, if any. The TLS steps depend on the build. -/
def uri_failure (build : Build) (steps : InitSteps) (options : Option zarray) : Option Thrown :=
  if options.isSome && !steps.php_phongo_zval_to_bson then
    some (Thrown.callee Callee.php_phongo_zval_to_bson)
  else if !steps.php_phongo_make_uri then
    some (Thrown.callee Callee.php_phongo_make_uri)
  else if !steps.php_phongo_apply_options_to_uri then
    some (Thrown.callee Callee.php_phongo_apply_options_to_uri)
  else if !steps.php_phongo_apply_rc_options_to_uri then
    some (Thrown.callee Callee.php_phongo_apply_rc_options_to_uri)
  else if !steps.php_phongo_apply_rp_options_to_uri then
    some (Thrown.callee Callee.php_phongo_apply_rp_options_to_uri)
  else if !steps.php_phongo_apply_wc_options_to_uri then
    some (Thrown.callee Callee.php_phongo_apply_wc_options_to_uri)
  else if build.MONGOC_ENABLE_SSL then
    if !steps.php_phongo_apply_driver_options_to_uri then
      some (Thrown.callee Callee.php_phongo_apply_driver_options_to_uri)
    else if !steps.php_phongo_make_ssl_opt then
      some (Thrown.callee Callee.php_phongo_make_ssl_opt)
    else if !steps.php_phongo_uri_finalize_tls then
      some (Thrown.callee Callee.php_phongo_uri_finalize_tls)
    else none
  else if steps.mongoc_uri_get_tls then
    some (Thrown.domain PHONGO_ERROR_INVALID_ARGUMENT)
  else none

/-- The value given to `use_persistent_client` by `phongo_manager_init`. -/
def use_persistent_client_option (driverOptions : Option zarray) : Bool :=
  match driverOptions with
  | some d =>
    if php_array_existsc d "disableClientPersistence" then
      !php_array_fetchc_bool d "disableClientPersistence"
    else true
  | none => true

open php_phongo_error_domain_t in
/-- Initialises a Manager, `phongo_manager_init`: computes the client hash,
reuses the persistent client registered under it, or creates a client and
registers it. The result is `none` when the call does not return: when
`mongoc_client_set_error_api` does not return for the `NULL` handle it is
handed, or when registration dereferences a `NULL` request registry. -/
def phongo_manager_init (build : Build) (serialize : zval → Option String) (pid : Int)
    (steps : InitSteps) (manager : php_phongo_manager_t) (uri_string : String)
    (options driverOptions : Option zarray) (s : State) : Option InitResult :=
  match php_phongo_manager_make_client_hash serialize pid uri_string options driverOptions with
  | none =>
    some { manager := manager.set_client_hash "", state := s,
           thrown := [Thrown.callee Callee.php_var_serialize] }
  | some hash =>
    let manager := manager.set_client_hash hash
    let use_persistent_client := use_persistent_client_option driverOptions
    let manager := manager.set_use_persistent_client use_persistent_client
    let found := php_phongo_find_persistent_client s hash
    let manager := if use_persistent_client then manager.set_client found else manager
    if use_persistent_client && found != 0 then
      some { manager := manager, state := s, thrown := [] }
    else
      match uri_failure build steps options with
      | some exception => some { manager := manager, state := s, thrown := [exception] }
      | none =>
        -- php_phongo_make_mongo_client
        let handshake := php_phongo_set_handshake_data driverOptions
        let client := steps.mongoc_client_new_from_uri
        let manager := manager.set_client client
        if client = 0 then
          -- mongoc_client_set_error_api(manager->client, ...) comes before the NULL test
          if steps.mongoc_client_set_error_api then
            some { manager := manager, state := s,
                   thrown := handshake ++ [Thrown.domain PHONGO_ERROR_RUNTIME] }
          else none
        else
          let s := { s with calls := s.calls ++ [DriverCall.client_new client] }
          match phongo_manager_set_auto_encryption_opts build steps manager driverOptions with
          | (false, manager, thrown) =>
            some { manager := manager, state := s, thrown := handshake ++ thrown }
          | (true, manager, _) =>
            let monitoring := php_phongo_set_monitoring_callbacks steps
            match php_phongo_client_register pid manager s with
            | none => none
            | some (false, s) =>
              some { manager := manager, state := s,
                     thrown := handshake ++ monitoring ++
                       [Thrown.domain PHONGO_ERROR_UNEXPECTED_VALUE] }
            | some (true, s) =>
              some { manager := manager, state := s, thrown := handshake ++ monitoring }

/-! ## Manager registry and namespaces -/

/-- The loop of `php_phongo_manager_exists`: the index of the first bucket
that holds the Manager pointer. -/
def foreach_manager : List (Nat × Nat) → Nat → Option Nat
  | [], _ => none
  | (index, value) :: rest, manager =>
    if value = manager then some index else foreach_manager rest manager

/-- Tells whether a Manager is in the Manager registry,
`php_phongo_manager_exists`: `some index` stands for true with the index
assigned to the output parameter, `none` for false. -/
def php_phongo_manager_exists (s : State) (manager : Nat) : Option Nat :=
  match s.managers with
  | none => none
  | some ht =>
    if zend_hash_num_elements ht = 0 then none else foreach_manager ht.arData manager

/-- Adds a Manager pointer to the Manager registry,
`php_phongo_manager_register`. -/
def php_phongo_manager_register (manager : Nat) (s : State) : Bool × State :=
  match s.managers with
  | none => (false, s)
  | some ht =>
    if (php_phongo_manager_exists s manager).isSome then (false, s)
    else
      match zend_hash_next_index_insert_ptr ht manager with
      | some ht1 => (true, { s with managers := some ht1 })
      | none => (false, s)

/-- Removes a Manager pointer from the Manager registry,
`php_phongo_manager_unregister`; the table has no element destructor. -/
def php_phongo_manager_unregister (manager : Nat) (s : State) : Bool × State :=
  match s.managers with
  | none => (false, s)
  | some ht =>
    match php_phongo_manager_exists s manager with
    | none => (false, s)
    | some index =>
      match zend_hash_index_find_ptr ht.arData index with
      | none => (false, s)
      | some _ =>
        (true, { s with
          managers := some { ht with arData := zend_hash_index_del ht.arData index } })

/-- The search of `strchr(namespace, '.')` together with the two copies made
by `phongo_split_namespace`, on the characters of the namespace: the part
before the first dot and the part after it, or `none` without a dot. -/
def split_at_dot : List Char → Option (List Char × List Char)
  | [] => none
  | c :: rest =>
    if c = '.' then some ([], rest)
    else
      match split_at_dot rest with
      | some (db, coll) => some (c :: db, coll)
      | none => none

/-- The C string that starts at the beginning of a buffer: the characters
before the first NUL, where `strchr`, `estrdup` and `estrndup` stop. -/
def c_string (buffer : List Char) : List Char :=
  buffer.takeWhile (fun c => c != Char.ofNat 0)

/-- Splits a namespace into database and collection name,
`phongo_split_namespace`, with both output parameters requested; `none` is
the return value false. The argument holds the characters of the buffer that
the pointer `namespace` points to, such as the value of a PHP string, which
may contain NUL; the function works on the C string in it. -/
def phongo_split_namespace (ns : String) : Option (String × String) :=
  match split_at_dot (c_string ns.data) with
  | some (db, coll) => some (String.mk db, String.mk coll)
  | none => none

/-- The state of a record and of the libmongoc calls after consecutive calls
of `phongo_pclient_reset_once` with the pids of the list, in order. -/
def reset_once_seq :
    List Int → php_phongo_pclient_t → List DriverCall → php_phongo_pclient_t × List DriverCall
  | [], pclient, calls => (pclient, calls)
  | pid :: rest, pclient, calls =>
    let r := phongo_pclient_reset_once pclient pid calls
    reset_once_seq rest r.1 r.2

/-- The number of positions of a sequence of pids at which the pid differs
from the one before it, the first pid being compared with `last`. -/
def pid_transitions : Int → List Int → Nat
  | _, [] => 0
  | last, pid :: rest => (if pid ≠ last then 1 else 0) + pid_transitions pid rest

/-! ## A serializer -/

mutual

/-- A model of the output format of PHP's `serialize` on null, booleans,
integers, strings, arrays and objects. The Manager class is declared as not
serializable, so a Manager object makes the serializer raise an exception;
any other object is written as an instance of its class without properties,
as PHP does for a class that allows serialization, such as `stdClass`. -/
def php_serialize : zval → Option String
  | zval.null => some "N;"
  | zval.bool b => some (if b then "b:1;" else "b:0;")
  | zval.long n => some ("i:" ++ toString n ++ ";")
  | zval.string str => some ("s:" ++ toString str.utf8ByteSize ++ ":\"" ++ str ++ "\";")
  | zval.array elems =>
    match php_serialize_elems elems with
    | some body => some ("a:" ++ toString elems.length ++ ":\x7b" ++ body ++ "\x7d")
    | none => none
  | zval.manager _ => none
  | zval.object cls _ =>
    some ("O:" ++ toString cls.utf8ByteSize ++ ":\"" ++ cls ++ "\":0:\x7b\x7d")

/-- Serializes the elements of an array in their stored order. -/
def php_serialize_elems : List (array_key × zval) → Option String
  | [] => some ""
  | (k, v) :: rest =>
    let key :=
      match k with
      | array_key.idx n => "i:" ++ toString n ++ ";"
      | array_key.str str => "s:" ++ toString str.utf8ByteSize ++ ":\"" ++ str ++ "\";"
    match php_serialize v, php_serialize_elems rest with
    | some value, some tail => some (key ++ value ++ tail)
    | _, _ => none

end

/-! ## Notions used in the statements -/

/-- The state of a record and of the libmongoc calls after `n` consecutive
calls of `phongo_pclient_reset_once` with the same pid. -/
def reset_once_times :
    Nat → php_phongo_pclient_t → Int → List DriverCall → php_phongo_pclient_t × List DriverCall
  | 0, pclient, _, calls => (pclient, calls)
  | n + 1, pclient, pid, calls =>
    let r := phongo_pclient_reset_once pclient pid calls
    reset_once_times n r.1 pid r.2

/-- The `mongoc_client_destroy` calls that destroying the records in the
given order makes under the pid: one for each record created by that pid and
none for the others. -/
def destroy_calls (pid : Int) (records : List php_phongo_pclient_t) : List DriverCall :=
  (records.filter (fun r => decide (r.created_by_pid = pid))).map
    (fun r => DriverCall.client_destroy r.client)

/-- The records of the request registry, first to last; none while the
registry is `NULL`. -/
def request_records (s : State) : List php_phongo_pclient_t :=
  match s.request_clients with
  | some ht => ht.arData.map Prod.snd
  | none => []

/-- Registers the clients of the Managers one after the other with
`php_phongo_client_register`. -/
def register_all (pid : Int) : List php_phongo_manager_t → State → Option State
  | [], s => some s
  | manager :: rest, s =>
    match php_phongo_client_register pid manager s with
    | some (_, s1) => register_all pid rest s1
    | none => none

/-- The Manager followed by the Managers reached through
`key_vault_client_manager`. -/
def key_vault_chain : php_phongo_manager_t → List php_phongo_manager_t
  | php_phongo_manager_t.mk c h p none => [php_phongo_manager_t.mk c h p none]
  | php_phongo_manager_t.mk c h p (some kv) =>
    php_phongo_manager_t.mk c h p (some kv) :: key_vault_chain kv

/-- The record that `php_phongo_client_reset_once` looks up for a Manager: by
hash in the persistent registry, or the first record of the request registry
that holds the Manager's client. -/
def registered_record (manager : php_phongo_manager_t) (s : State) :
    Option php_phongo_pclient_t :=
  if manager.use_persistent_client then
    zend_hash_str_find_ptr s.persistent_clients manager.client_hash
  else
    match s.request_clients with
    | some ht =>
      match foreach_client ht.arData manager.client with
      | some e => some e.2
      | none => none
    | none => none

/-- The states reached from the state after `PHP_GINIT_FUNCTION`, where both
registries are empty, by any sequence of `phongo_manager_init`,
`php_phongo_client_unregister`, request init and request shutdown steps, with
any arguments and any pids. -/
inductive Reachable (build : Build) (serialize : zval → Option String) : State → Prop where
  | ginit : Reachable build serialize GINIT
  | rinit (s : State) : Reachable build serialize s → Reachable build serialize (RINIT s)
  | rshutdown (pid : Int) (s : State) :
    Reachable build serialize s → Reachable build serialize (RSHUTDOWN pid s)
  | init (pid : Int) (steps : InitSteps) (m : php_phongo_manager_t) (uri : String)
      (options driverOptions : Option zarray) (s : State) (r : InitResult) :
    Reachable build serialize s →
    phongo_manager_init build serialize pid steps m uri options driverOptions s = some r →
    Reachable build serialize r.state
  | unregister (pid : Int) (m : php_phongo_manager_t) (s : State) :
    Reachable build serialize s →
    Reachable build serialize (php_phongo_client_unregister pid m s).2

/-! ## Sample inputs -/

/-- A build with TLS and client-side encryption enabled. -/
def sample_build : Build :=
  { MONGOC_ENABLE_SSL := true, MONGOC_ENABLE_CLIENT_SIDE_ENCRYPTION := true }

/-- Callee results in which every step succeeds, libmongoc returns the given
client handle, and `mongoc_client_set_error_api` returns for `NULL`. -/
def sample_steps (client : Nat) : InitSteps :=
  { php_phongo_zval_to_bson := true, php_phongo_make_uri := true,
    php_phongo_apply_options_to_uri := true, php_phongo_apply_rc_options_to_uri := true,
    php_phongo_apply_rp_options_to_uri := true, php_phongo_apply_wc_options_to_uri := true,
    php_phongo_apply_driver_options_to_uri := true, php_phongo_make_ssl_opt := true,
    php_phongo_uri_finalize_tls := true, mongoc_uri_get_tls := false,
    mongoc_client_new_from_uri := client, mongoc_client_set_error_api := true,
    auto_encryption_options := true,
    mongoc_client_set_apm_callbacks := true }

/-- Callee results in which libmongoc returns `NULL` for the client and
`mongoc_client_set_error_api` does not return when it is handed `NULL`. -/
def sample_steps_no_return : InitSteps :=
  { sample_steps 0 with mongoc_client_set_error_api := false }

/-- The state at the start of the first request of a process. -/
def sample_request_start : State := RINIT GINIT

/-- A persistent Manager whose key vault client is another persistent
Manager. -/
def sample_encrypting_manager : php_phongo_manager_t :=
  php_phongo_manager_t.mk 1 "A" true (some (php_phongo_manager_t.mk 2 "K" true none))

/-- A request in which the clients of `sample_encrypting_manager` and of its
key vault Manager are registered and were never reset. -/
def sample_encrypting_state : State :=
  { persistent_clients := [("K", ⟨2, 42, 0, true⟩), ("A", ⟨1, 42, 0, true⟩)],
    request_clients := some zend_hash_init, subscribers := some zend_hash_init,
    managers := some zend_hash_init, calls := [] }

/-- A non-persistent Manager. -/
def sample_request_manager : php_phongo_manager_t :=
  php_phongo_manager_t.mk 8 "h" false none

/-- A request in which the client of `sample_request_manager` is registered
once, by pid `42`, next to another request client. -/
def sample_request_state : State :=
  { persistent_clients := [],
    request_clients := some ⟨[(0, ⟨7, 42, 0, false⟩), (1, ⟨8, 42, 0, false⟩)], 2⟩,
    subscribers := some zend_hash_init, managers := some zend_hash_init, calls := [] }

/-- The result of `phongo_manager_init` for a first persistent Manager of
process `42` created in `sample_request_start`, when libmongoc returns the
handle `7`. -/
def sample_first_init : InitResult :=
  match phongo_manager_init sample_build php_serialize 42 (sample_steps 7)
      php_phongo_manager_t.zero "mongodb://localhost" none none sample_request_start with
  | some r => r
  | none => { manager := php_phongo_manager_t.zero, state := sample_request_start, thrown := [] }

/-- Driver options that disable client persistence. -/
def sample_no_persistence : zarray :=
  [(array_key.str "disableClientPersistence", zval.bool true)]

/-- The result of `phongo_manager_init` for a first non-persistent Manager of
process `42` created in `sample_request_start`, when libmongoc returns the
handle `7`. -/
def sample_first_request_init : InitResult :=
  match phongo_manager_init sample_build php_serialize 42 (sample_steps 7)
      php_phongo_manager_t.zero "mongodb://localhost" none (some sample_no_persistence)
      sample_request_start with
  | some r => r
  | none => { manager := php_phongo_manager_t.zero, state := sample_request_start, thrown := [] }

/-- The result of `phongo_manager_init` for a second non-persistent Manager
with the same arguments, created after `sample_first_request_init`, when
libmongoc returns the handle `9`. -/
def sample_second_request_init : InitResult :=
  match phongo_manager_init sample_build php_serialize 42 (sample_steps 9)
      php_phongo_manager_t.zero "mongodb://localhost" none (some sample_no_persistence)
      sample_first_request_init.state with
  | some r => r
  | none => { manager := php_phongo_manager_t.zero, state := sample_request_start, thrown := [] }

/-- The interleaving of two persistent `phongo_manager_init` calls in which
both calls miss in the persistent registry and create their client before
either registers: the two clients are created, then the first Manager is
registered, then the second. -/
def register_race (pid : Int) (first second : php_phongo_manager_t) (s : State) : Option State :=
  let s0 := { s with
    calls := s.calls ++
      [DriverCall.client_new first.client, DriverCall.client_new second.client] }
  match php_phongo_client_register pid first s0 with
  | none => none
  | some (_, s1) =>
    match php_phongo_client_register pid second s1 with
    | none => none
    | some (_, s2) => some s2

/-- The class of the exception object created for a `Thrown`, as
`phongo_throw_exception` does through `phongo_exception_from_phongo_domain`;
`none` when the exception was raised inside a callee that is not embedded. -/
def exception_class : Thrown → Option zend_class_entry
  | Thrown.domain d => some (phongo_exception_from_phongo_domain d)
  | Thrown.callee _ => none

/-- Driver options whose `driver` entry is not an array. -/
def sample_bad_driver_option : zarray :=
  [(array_key.str "driver", zval.string "x")]

/-- Reads one character of the text after `i:` in a serialized integer: the
semicolon ends the numeral, a minus sign sets the sign, any other character
is appended to the magnitude as a digit. The state is (ended, negative,
magnitude). -/
def read_decimal_char (acc : Bool × Bool × Nat) (c : Char) : Bool × Bool × Nat :=
  if acc.1 then acc
  else if c = ';' then (true, acc.2.1, acc.2.2)
  else if c = '-' then (false, true, acc.2.2)
  else (false, acc.2.1, acc.2.2 * 10 + (c.toNat - 48))

/-- Reads the decimal numeral that ends at the first semicolon back into an
integer. -/
def read_decimal (l : List Char) : Int :=
  let r := l.foldl read_decimal_char (false, false, 0)
  if r.2.1 then -(r.2.2 : Int) else (r.2.2 : Int)

/-- The result of a persistent `phongo_manager_init` with the arguments of
`sample_first_init` in a child process with pid `43` that inherited the
state of `sample_first_init`, when libmongoc returns the handle `9`. -/
def sample_child_init : InitResult :=
  match phongo_manager_init sample_build php_serialize 43 (sample_steps 9)
      php_phongo_manager_t.zero "mongodb://localhost" none none sample_first_init.state with
  | some r => r
  | none => { manager := php_phongo_manager_t.zero, state := sample_request_start, thrown := [] }

/-- The client handles held by the records of the persistent registry,
followed by those held by the records of the request registry. -/
def record_handles (s : State) : List Nat :=
  s.persistent_clients.map (fun e => e.2.client) ++
    (request_records s).map (fun r => r.client)

/-- Ownership of client handles: no handle is held by two records and no
record holds `NULL`; a handle held by a record was created and not
destroyed; only created handles were destroyed, each at most once. -/
def handles_owned (handles : List Nat) (calls : List DriverCall) : Prop :=
  handles.Nodup ∧ 0 ∉ handles ∧
    (∀ h ∈ handles, DriverCall.client_new h ∈ calls ∧ DriverCall.client_destroy h ∉ calls) ∧
    (∀ h, DriverCall.client_destroy h ∈ calls → DriverCall.client_new h ∈ calls) ∧
    ∀ h, calls.count (DriverCall.client_destroy h) ≤ 1

/-- The states one process with the given pid reaches from the state after
`PHP_GINIT_FUNCTION` by request init, `phongo_manager_init`,
`php_phongo_client_unregister`, request shutdown and process shutdown steps
with any arguments, when each handle libmongoc returns is `NULL` or one it
did not return before. -/
inductive Run (build : Build) (serialize : zval → Option String) (pid : Int) : State → Prop where
  | ginit : Run build serialize pid GINIT
  | rinit (s : State) : Run build serialize pid s → Run build serialize pid (RINIT s)
  | init (steps : InitSteps) (m : php_phongo_manager_t) (uri : String)
      (options driverOptions : Option zarray) (s : State) (r : InitResult) :
    Run build serialize pid s →
    (steps.mongoc_client_new_from_uri = 0 ∨
      DriverCall.client_new steps.mongoc_client_new_from_uri ∉ s.calls) →
    phongo_manager_init build serialize pid steps m uri options driverOptions s = some r →
    Run build serialize pid r.state
  | unregister (m : php_phongo_manager_t) (s : State) :
    Run build serialize pid s →
    Run build serialize pid (php_phongo_client_unregister pid m s).2
  | rshutdown (s : State) : Run build serialize pid s → Run build serialize pid (RSHUTDOWN pid s)
  | gshutdown (s : State) : Run build serialize pid s → Run build serialize pid (GSHUTDOWN pid s)

/-- A step of a request between request init and request shutdown: a
`phongo_manager_init` call with its arguments and callee results, or a
`php_phongo_client_unregister` call for a Manager. -/
inductive RequestStep where
  | init (steps : InitSteps) (manager : php_phongo_manager_t) (uri : String)
      (options driverOptions : Option zarray)
  | unregister (manager : php_phongo_manager_t)

/-- Runs the steps of a request in order under the pid; `none` when a step
dereferences a `NULL` request registry. -/
def run_request (build : Build) (serialize : zval → Option String) (pid : Int) :
    List RequestStep → State → Option State
  | [], s => some s
  | RequestStep.init steps m uri options driverOptions :: rest, s =>
    match phongo_manager_init build serialize pid steps m uri options driverOptions s with
    | some r => run_request build serialize pid rest r.state
    | none => none
  | RequestStep.unregister m :: rest, s =>
    run_request build serialize pid rest (php_phongo_client_unregister pid m s).2

/-- The condition on the steps of a request run from a state: libmongoc
returns `NULL` or a handle it did not return before for each connect,
`mongoc_client_set_error_api` returns when it is handed `NULL`, and each
`phongo_manager_init` that changes the request registry is followed later by
`php_phongo_client_unregister` for the Manager it initialised. -/
def released_later (build : Build) (serialize : zval → Option String) (pid : Int) :
    List RequestStep → State → Prop
  | [], _ => True
  | RequestStep.init steps m uri options driverOptions :: rest, s =>
    (steps.mongoc_client_new_from_uri = 0 ∨
      DriverCall.client_new steps.mongoc_client_new_from_uri ∉ s.calls) ∧
    (steps.mongoc_client_new_from_uri = 0 → steps.mongoc_client_set_error_api = true) ∧
    match phongo_manager_init build serialize pid steps m uri options driverOptions s with
    | some r =>
      (r.state.request_clients ≠ s.request_clients → RequestStep.unregister r.manager ∈ rest) ∧
        released_later build serialize pid rest r.state
    | none => True
  | RequestStep.unregister m :: rest, s =>
    released_later build serialize pid rest (php_phongo_client_unregister pid m s).2

/-- The steps of a request that creates a non-persistent Manager with the
arguments of `sample_first_request_init` and later frees it. -/
def sample_round_trip_steps : List RequestStep :=
  [RequestStep.init (sample_steps 7) php_phongo_manager_t.zero "mongodb://localhost" none
      (some sample_no_persistence),
    RequestStep.unregister sample_first_request_init.manager]

/-- The libmongoc calls of the reset-if-stale step on a record that was looked
up: one `mongoc_client_reset` on the record's handle when its
`last_reset_by_pid` differs from the pid, none otherwise and none without a
record. -/
def stale_reset_calls (record : Option php_phongo_pclient_t) (pid : Int) : List DriverCall :=
  match record with
  | some r => if r.last_reset_by_pid ≠ pid then [DriverCall.client_reset r.client] else []
  | none => []

/-! ## Theorems -/

theorem destroy_buckets_eq {κ : Type} (pid : Int) (arData : List (κ × php_phongo_pclient_t))
    (calls : List DriverCall) :
    destroy_buckets pid arData calls = calls ++ destroy_calls pid (arData.map Prod.snd) := by
  induction arData generalizing calls with
  | nil => simp [destroy_buckets, destroy_calls]
  | cons e rest ih =>
    obtain ⟨k, r⟩ := e
    by_cases h : r.created_by_pid = pid
    · simp [destroy_buckets, php_phongo_pclient_destroy, h, ih, destroy_calls]
    · simp [destroy_buckets, php_phongo_pclient_destroy, h, ih, destroy_calls]

theorem reset_once_times_eq (n : Nat) (pclient : php_phongo_pclient_t) (pid : Int)
    (calls : List DriverCall) :
    reset_once_times (n + 1) pclient pid calls = phongo_pclient_reset_once pclient pid calls := by
  induction n generalizing pclient calls with
  | zero => simp [reset_once_times]
  | succ n ih =>
    have step : reset_once_times (n + 1 + 1) pclient pid calls =
        reset_once_times (n + 1) (phongo_pclient_reset_once pclient pid calls).1 pid
          (phongo_pclient_reset_once pclient pid calls).2 := rfl
    rw [step, ih]
    by_cases h : pclient.last_reset_by_pid = pid
    · simp [phongo_pclient_reset_once, h]
    · simp [phongo_pclient_reset_once, h]

/-- C5: `N >= 1` consecutive calls of `phongo_pclient_reset_once` with one pid
add exactly one `mongoc_client_reset` on the record's handle when
`last_reset_by_pid` differed from the pid before the first call and none
otherwise, and a further call with the same pid adds no reset. -/
theorem reset_once_idempotent_per_pid (N : Nat) (hN : 1 ≤ N) (pclient : php_phongo_pclient_t)
    (pid : Int) (calls : List DriverCall) :
    (reset_once_times N pclient pid calls).2 =
        calls ++ (if pclient.last_reset_by_pid ≠ pid
                  then [DriverCall.client_reset pclient.client] else []) ∧
      (phongo_pclient_reset_once (reset_once_times N pclient pid calls).1 pid
          (reset_once_times N pclient pid calls).2).2 =
        (reset_once_times N pclient pid calls).2 := by
  obtain ⟨n, rfl⟩ : ∃ n, N = n + 1 := ⟨N - 1, by omega⟩
  rw [reset_once_times_eq]
  by_cases h : pclient.last_reset_by_pid = pid
  · simp [phongo_pclient_reset_once, h]
  · simp [phongo_pclient_reset_once, h]

theorem reset_once_idempotent_per_pid_witness :
    1 ≤ 3 ∧
      ((reset_once_times 3 ⟨7, 100, 100, true⟩ 200 []).2 =
          [] ++ (if (⟨7, 100, 100, true⟩ : php_phongo_pclient_t).last_reset_by_pid ≠ 200
                 then [DriverCall.client_reset (⟨7, 100, 100, true⟩ : php_phongo_pclient_t).client]
                 else []) ∧
        (phongo_pclient_reset_once (reset_once_times 3 ⟨7, 100, 100, true⟩ 200 []).1 200
            (reset_once_times 3 ⟨7, 100, 100, true⟩ 200 []).2).2 =
          (reset_once_times 3 ⟨7, 100, 100, true⟩ 200 []).2) :=
  ⟨by decide, reset_once_idempotent_per_pid 3 (by decide) ⟨7, 100, 100, true⟩ 200 []⟩

/-- C6: `phongo_pclient_reset_once` calls `mongoc_client_reset` on the
record's handle exactly when `last_reset_by_pid` differs from the pid, and
makes no call otherwise; afterwards `last_reset_by_pid` is the pid, it has
changed only if the reset was performed, and `client`, `created_by_pid` and
`is_persistent` are unchanged. -/
theorem reset_once_spec (pclient : php_phongo_pclient_t) (pid : Int) (calls : List DriverCall) :
    ((phongo_pclient_reset_once pclient pid calls).2 =
          calls ++ [DriverCall.client_reset pclient.client] ↔
        pclient.last_reset_by_pid ≠ pid) ∧
      ((phongo_pclient_reset_once pclient pid calls).2 = calls ↔
        pclient.last_reset_by_pid = pid) ∧
      (phongo_pclient_reset_once pclient pid calls).1.last_reset_by_pid = pid ∧
      ((phongo_pclient_reset_once pclient pid calls).1.last_reset_by_pid ≠
          pclient.last_reset_by_pid →
        (phongo_pclient_reset_once pclient pid calls).2 =
          calls ++ [DriverCall.client_reset pclient.client]) ∧
      (phongo_pclient_reset_once pclient pid calls).1.client = pclient.client ∧
      (phongo_pclient_reset_once pclient pid calls).1.created_by_pid = pclient.created_by_pid ∧
      (phongo_pclient_reset_once pclient pid calls).1.is_persistent = pclient.is_persistent := by
  by_cases h : pclient.last_reset_by_pid = pid
  · simp [phongo_pclient_reset_once, h]
  · simp [phongo_pclient_reset_once, h]

theorem mem_destroy_calls (pid : Int) (records : List php_phongo_pclient_t) (h : Nat) :
    DriverCall.client_destroy h ∈ destroy_calls pid records ↔
      ∃ r ∈ records, r.client = h ∧ r.created_by_pid = pid := by
  simp only [destroy_calls, List.mem_map, List.mem_filter, decide_eq_true_eq]
  constructor
  · rintro ⟨r, ⟨hr, hp⟩, hc⟩
    exact ⟨r, hr, by simpa using hc, hp⟩
  · rintro ⟨r, hr, hc, hp⟩
    exact ⟨r, ⟨hr, hp⟩, by simp [hc]⟩

theorem index_find_mem {α : Type} (l : List (Nat × α)) (index : Nat) (v : α)
    (h : zend_hash_index_find_ptr l index = some v) : v ∈ l.map Prod.snd := by
  induction l with
  | nil => simp [zend_hash_index_find_ptr] at h
  | cons e rest ih =>
    obtain ⟨k, w⟩ := e
    by_cases hk : k = index
    · simp [zend_hash_index_find_ptr, hk] at h
      simp [h]
    · simp [zend_hash_index_find_ptr, hk] at h
      simp only [List.map_cons, List.mem_cons]
      exact Or.inr (ih h)

theorem unregister_calls (pid : Int) (manager : php_phongo_manager_t) (s : State) :
    ∃ removed : List php_phongo_pclient_t, removed.Sublist (request_records s) ∧
      (php_phongo_client_unregister pid manager s).2.calls =
        s.calls ++ destroy_calls pid removed := by
  unfold php_phongo_client_unregister
  by_cases hp : manager.use_persistent_client = true
  · exact ⟨[], List.nil_sublist _, by simp [hp, destroy_calls]⟩
  · cases hr : s.request_clients with
    | none => exact ⟨[], List.nil_sublist _, by simp [hp, destroy_calls]⟩
    | some ht =>
      cases hf : foreach_client ht.arData manager.client with
      | none => exact ⟨[], List.nil_sublist _, by simp [hp, hf, destroy_calls]⟩
      | some e =>
        obtain ⟨index, p0⟩ := e
        cases hv : zend_hash_index_find_ptr ht.arData index with
        | none => exact ⟨[], List.nil_sublist _, by simp [hp, hf, hv, destroy_calls]⟩
        | some victim =>
          refine ⟨[victim], ?_, ?_⟩
          · rw [List.singleton_sublist]
            simpa [request_records, hr] using index_find_mem _ _ _ hv
          · by_cases hc : victim.created_by_pid = pid
            · simp [hp, hf, hv, destroy_calls, php_phongo_pclient_destroy, hc]
            · simp [hp, hf, hv, destroy_calls, php_phongo_pclient_destroy, hc]

/-- C3: `php_phongo_pclient_destroy` calls `mongoc_client_destroy` if and only
if the record's `created_by_pid` is the current pid, and the destroy calls
made by process shutdown, request shutdown and `php_phongo_client_unregister`
are exactly one per removed record that the current pid created; a record
created by another pid contributes no destroy call. -/
theorem foreign_records_not_destroyed (pid : Int) (s : State) :
    (∀ (pclient : php_phongo_pclient_t) (calls : List DriverCall),
        (php_phongo_pclient_destroy pid pclient calls =
            calls ++ [DriverCall.client_destroy pclient.client] ↔
          pclient.created_by_pid = pid) ∧
        (php_phongo_pclient_destroy pid pclient calls = calls ↔
          pclient.created_by_pid ≠ pid)) ∧
      (∀ (records : List php_phongo_pclient_t) (h : Nat),
        DriverCall.client_destroy h ∈ destroy_calls pid records ↔
          ∃ r ∈ records, r.client = h ∧ r.created_by_pid = pid) ∧
      (GSHUTDOWN pid s).calls =
        s.calls ++ destroy_calls pid (s.persistent_clients.reverse.map Prod.snd) ∧
      (RSHUTDOWN pid s).calls = s.calls ++ destroy_calls pid (request_records s) ∧
      (∀ manager : php_phongo_manager_t,
        ∃ removed : List php_phongo_pclient_t, removed.Sublist (request_records s) ∧
          (php_phongo_client_unregister pid manager s).2.calls =
            s.calls ++ destroy_calls pid removed) := by
  refine ⟨?_, mem_destroy_calls pid, ?_, ?_, fun manager => unregister_calls pid manager s⟩
  · intro pclient calls
    by_cases h : pclient.created_by_pid = pid
    · simp [php_phongo_pclient_destroy, h]
    · simp [php_phongo_pclient_destroy, h]
  · simp [GSHUTDOWN, zend_hash_graceful_reverse_destroy, destroy_buckets_eq]
  · cases hr : s.request_clients with
    | none => simp [RSHUTDOWN, hr, request_records, destroy_calls]
    | some ht => simp [RSHUTDOWN, hr, request_records, zend_hash_destroy, destroy_buckets_eq]

theorem str_find_not_mem {α : Type} (l : List (String × α)) (key : String)
    (h : key ∉ l.map Prod.fst) : zend_hash_str_find_ptr l key = none := by
  induction l with
  | nil => rfl
  | cons e rest ih =>
    obtain ⟨k, v⟩ := e
    simp only [List.map_cons, List.mem_cons, not_or] at h
    have hk : ¬ k = key := fun hk => h.1 hk.symm
    simp [zend_hash_str_find_ptr, hk, ih h.2]

theorem str_update_not_mem {α : Type} (l : List (String × α)) (key : String) (p : α)
    (h : key ∉ l.map Prod.fst) : zend_hash_str_update_ptr l key p = l ++ [(key, p)] := by
  induction l with
  | nil => rfl
  | cons e rest ih =>
    obtain ⟨k, v⟩ := e
    simp only [List.map_cons, List.mem_cons, not_or] at h
    have hk : ¬ k = key := fun hk => h.1 hk.symm
    simp [zend_hash_str_update_ptr, hk, ih h.2]

theorem register_all_persistent (pid : Int) (ms : List php_phongo_manager_t) (s : State)
    (hp : ∀ m ∈ ms, m.use_persistent_client = true)
    (hd : (ms.map php_phongo_manager_t.client_hash).Nodup)
    (hs : ∀ m ∈ ms, m.client_hash ∉ s.persistent_clients.map Prod.fst) :
    register_all pid ms s = some { s with
      persistent_clients := s.persistent_clients ++
        ms.map (fun m => (m.client_hash, ⟨m.client, pid, 0, true⟩)) } := by
  induction ms generalizing s with
  | nil => simp [register_all]
  | cons m rest ih =>
    have hm : m.use_persistent_client = true := hp m (List.mem_cons_self _ _)
    have hk : m.client_hash ∉ s.persistent_clients.map Prod.fst := hs m (List.mem_cons_self _ _)
    simp only [List.map_cons, List.nodup_cons] at hd
    simp only [register_all, php_phongo_client_register, hm, if_true, str_find_not_mem _ _ hk,
      str_update_not_mem _ _ _ hk]
    rw [ih]
    · simp
    · exact fun x hx => hp x (List.mem_cons_of_mem _ hx)
    · exact hd.2
    · intro x hx
      simp only [List.map_append, List.map_cons, List.map_nil, List.mem_append,
        List.mem_singleton, not_or]
      refine ⟨hs x (List.mem_cons_of_mem _ hx), ?_⟩
      intro he
      exact hd.1 (he ▸ List.mem_map_of_mem _ hx)

/-- C4: after persistent registrations under pairwise distinct hashes into an
empty persistent registry, process shutdown destroys the client handles in the
reverse of the order in which they were registered. -/
theorem gshutdown_reverse_insertion_order (pid : Int) (ms : List php_phongo_manager_t)
    (s : State) (hp : ∀ m ∈ ms, m.use_persistent_client = true)
    (hd : (ms.map php_phongo_manager_t.client_hash).Nodup) (he : s.persistent_clients = []) :
    ∃ s1, register_all pid ms s = some s1 ∧ s1.calls = s.calls ∧
      s1.persistent_clients.map (fun e => e.2.client) =
        ms.map php_phongo_manager_t.client ∧
      (GSHUTDOWN pid s1).calls =
        s.calls ++ (ms.map (fun m => DriverCall.client_destroy m.client)).reverse := by
  refine ⟨_, register_all_persistent pid ms s hp hd (by simp [he]), rfl, ?_, ?_⟩
  · simp [he, Function.comp_def]
  · simp only [GSHUTDOWN, zend_hash_graceful_reverse_destroy, destroy_buckets_eq, he,
      List.nil_append, destroy_calls, List.append_cancel_left_eq]
    rw [← List.map_reverse, ← List.map_reverse, List.map_map, List.filter_eq_self.2, List.map_map]
    · rfl
    · intro a ha
      simp only [List.map_reverse, List.mem_reverse, List.mem_map] at ha
      obtain ⟨b, _, rfl⟩ := ha
      simp

theorem gshutdown_reverse_insertion_order_witness :
    ∃ s1,
      register_all 42
          [php_phongo_manager_t.mk 11 "A" true none, php_phongo_manager_t.mk 12 "B" true none,
            php_phongo_manager_t.mk 13 "C" true none] GINIT = some s1 ∧
        s1.calls = GINIT.calls ∧
        s1.persistent_clients.map (fun e => e.2.client) =
          [php_phongo_manager_t.mk 11 "A" true none, php_phongo_manager_t.mk 12 "B" true none,
            php_phongo_manager_t.mk 13 "C" true none].map php_phongo_manager_t.client ∧
        (GSHUTDOWN 42 s1).calls =
          GINIT.calls ++
            ([php_phongo_manager_t.mk 11 "A" true none, php_phongo_manager_t.mk 12 "B" true none,
              php_phongo_manager_t.mk 13 "C" true none].map
                (fun m => DriverCall.client_destroy m.client)).reverse :=
  gshutdown_reverse_insertion_order 42
    [php_phongo_manager_t.mk 11 "A" true none, php_phongo_manager_t.mk 12 "B" true none,
      php_phongo_manager_t.mk 13 "C" true none] GINIT
    (by simp [php_phongo_manager_t.use_persistent_client])
    (by simp [php_phongo_manager_t.client_hash]) rfl

/-- C8: for a Manager that uses a persistent client,
`php_phongo_client_unregister` returns false and changes nothing: both
registries and the libmongoc calls are as before, so the record is still found
under its hash and is left to process shutdown. -/
theorem unregister_persistent_noop (pid : Int) (manager : php_phongo_manager_t) (s : State)
    (hp : manager.use_persistent_client = true) :
    php_phongo_client_unregister pid manager s = (false, s) ∧
      php_phongo_find_persistent_client (php_phongo_client_unregister pid manager s).2
          manager.client_hash =
        php_phongo_find_persistent_client s manager.client_hash ∧
      GSHUTDOWN pid (php_phongo_client_unregister pid manager s).2 = GSHUTDOWN pid s := by
  have h : php_phongo_client_unregister pid manager s = (false, s) := by
    simp [php_phongo_client_unregister, hp]
  simp [h]

theorem unregister_persistent_noop_witness :
    php_phongo_client_unregister 42 sample_first_init.manager sample_first_init.state =
        (false, sample_first_init.state) ∧
      php_phongo_find_persistent_client
          (php_phongo_client_unregister 42 sample_first_init.manager
            sample_first_init.state).2 sample_first_init.manager.client_hash =
        php_phongo_find_persistent_client sample_first_init.state
          sample_first_init.manager.client_hash ∧
      GSHUTDOWN 42
          (php_phongo_client_unregister 42 sample_first_init.manager
            sample_first_init.state).2 =
        GSHUTDOWN 42 sample_first_init.state :=
  unregister_persistent_noop 42 sample_first_init.manager sample_first_init.state rfl

theorem foreach_client_split (pre post : List (Nat × php_phongo_pclient_t)) (index : Nat)
    (pclient : php_phongo_pclient_t) (client : Nat) (hc : pclient.client = client)
    (hpre : ∀ e ∈ pre, e.2.client ≠ client) :
    foreach_client (pre ++ (index, pclient) :: post) client = some (index, pclient) := by
  induction pre with
  | nil => simp [foreach_client, hc]
  | cons e rest ih =>
    obtain ⟨k, r⟩ := e
    have hr : ¬ r.client = client := hpre (k, r) (List.mem_cons_self _ _)
    simp only [List.cons_append, foreach_client, hr, if_false]
    exact ih (fun e he => hpre e (List.mem_cons_of_mem _ he))

theorem foreach_client_none (l : List (Nat × php_phongo_pclient_t)) (client : Nat)
    (h : ∀ e ∈ l, e.2.client ≠ client) : foreach_client l client = none := by
  induction l with
  | nil => rfl
  | cons e rest ih =>
    obtain ⟨k, r⟩ := e
    have hr : ¬ r.client = client := h (k, r) (List.mem_cons_self _ _)
    simp only [foreach_client, hr, if_false]
    exact ih (fun e he => h e (List.mem_cons_of_mem _ he))

theorem index_find_split {α : Type} (pre post : List (Nat × α)) (index : Nat) (v : α)
    (hpre : index ∉ pre.map Prod.fst) :
    zend_hash_index_find_ptr (pre ++ (index, v) :: post) index = some v := by
  induction pre with
  | nil => simp [zend_hash_index_find_ptr]
  | cons e rest ih =>
    obtain ⟨k, w⟩ := e
    simp only [List.map_cons, List.mem_cons, not_or] at hpre
    have hk : ¬ k = index := fun hk => hpre.1 hk.symm
    simp only [List.cons_append, zend_hash_index_find_ptr, hk, if_false]
    exact ih hpre.2

theorem index_del_split {α : Type} (pre post : List (Nat × α)) (index : Nat) (v : α)
    (hpre : index ∉ pre.map Prod.fst) :
    zend_hash_index_del (pre ++ (index, v) :: post) index = pre ++ post := by
  induction pre with
  | nil => simp [zend_hash_index_del]
  | cons e rest ih =>
    obtain ⟨k, w⟩ := e
    simp only [List.map_cons, List.mem_cons, not_or] at hpre
    have hk : ¬ k = index := fun hk => hpre.1 hk.symm
    simp only [List.cons_append, zend_hash_index_del, hk, if_false]
    exact congrArg (List.cons (k, w)) (ih hpre.2)

theorem key_not_in_prefix {α : Type} (pre post : List (Nat × α)) (index : Nat) (v : α)
    (hk : ((pre ++ (index, v) :: post).map Prod.fst).Nodup) : index ∉ pre.map Prod.fst := by
  simp only [List.map_append, List.map_cons] at hk
  have h := (List.nodup_append.1 hk).2.2
  intro hmem
  exact h hmem (List.mem_cons_self _ _)

theorem unregister_split (pid : Int) (manager : php_phongo_manager_t) (s : State)
    (ht : HashTable php_phongo_pclient_t) (pre post : List (Nat × php_phongo_pclient_t))
    (index : Nat) (pclient : php_phongo_pclient_t)
    (hp : manager.use_persistent_client = false) (hr : s.request_clients = some ht)
    (hk : (ht.arData.map Prod.fst).Nodup)
    (hd : ht.arData = pre ++ (index, pclient) :: post)
    (hc : pclient.client = manager.client)
    (hpre : ∀ e ∈ pre, e.2.client ≠ manager.client) :
    php_phongo_client_unregister pid manager s =
      (true, { s with
        request_clients := some { ht with arData := pre ++ post }
        calls := if pclient.created_by_pid = pid
                 then s.calls ++ [DriverCall.client_destroy manager.client] else s.calls }) := by
  have hkey : index ∉ pre.map Prod.fst := key_not_in_prefix pre post index pclient (hd ▸ hk)
  simp only [php_phongo_client_unregister, hp, hr, hd,
    foreach_client_split pre post index pclient manager.client hc hpre,
    index_find_split pre post index pclient hkey, index_del_split pre post index pclient hkey,
    php_phongo_pclient_destroy, hc]
  simp

/-- C9: for a non-persistent Manager whose handle is held by a record of the
request registry, `php_phongo_client_unregister` returns true and removes the
first record that holds the handle, wherever it is stored; every other record,
the persistent registry and the other tables are unchanged, and
`mongoc_client_destroy` is called on the handle exactly when that record's
`created_by_pid` is the current pid. -/
theorem unregister_removes_record_by_handle (pid : Int) (manager : php_phongo_manager_t)
    (s : State) (ht : HashTable php_phongo_pclient_t)
    (pre post : List (Nat × php_phongo_pclient_t)) (index : Nat)
    (pclient : php_phongo_pclient_t)
    (hp : manager.use_persistent_client = false) (hr : s.request_clients = some ht)
    (hk : (ht.arData.map Prod.fst).Nodup)
    (hd : ht.arData = pre ++ (index, pclient) :: post)
    (hc : pclient.client = manager.client)
    (hpre : ∀ e ∈ pre, e.2.client ≠ manager.client) :
    php_phongo_client_unregister pid manager s =
        (true, { s with
          request_clients := some { ht with arData := pre ++ post }
          calls := if pclient.created_by_pid = pid
                   then s.calls ++ [DriverCall.client_destroy manager.client] else s.calls }) ∧
      (php_phongo_client_unregister pid manager s).2.persistent_clients =
        s.persistent_clients ∧
      ((php_phongo_client_unregister pid manager s).2.calls =
          s.calls ++ [DriverCall.client_destroy manager.client] ↔
        pclient.created_by_pid = pid) ∧
      ((php_phongo_client_unregister pid manager s).2.calls = s.calls ↔
        pclient.created_by_pid ≠ pid) := by
  rw [unregister_split pid manager s ht pre post index pclient hp hr hk hd hc hpre]
  by_cases h : pclient.created_by_pid = pid
  · simp [h]
  · simp [h]

theorem unregister_removes_record_by_handle_witness :
    php_phongo_client_unregister 42 (php_phongo_manager_t.mk 8 "h" false none)
        { persistent_clients := [("p", ⟨5, 42, 0, true⟩)],
          request_clients := some ⟨[(0, ⟨7, 42, 0, false⟩), (3, ⟨8, 41, 0, false⟩),
            (4, ⟨9, 42, 0, false⟩)], 5⟩,
          subscribers := none, managers := none, calls := [] } =
      (true,
        { persistent_clients := [("p", ⟨5, 42, 0, true⟩)],
          request_clients := some ⟨[(0, ⟨7, 42, 0, false⟩), (4, ⟨9, 42, 0, false⟩)], 5⟩,
          subscribers := none, managers := none, calls := [] }) :=
  (unregister_removes_record_by_handle 42 (php_phongo_manager_t.mk 8 "h" false none)
    { persistent_clients := [("p", ⟨5, 42, 0, true⟩)],
      request_clients := some ⟨[(0, ⟨7, 42, 0, false⟩), (3, ⟨8, 41, 0, false⟩),
        (4, ⟨9, 42, 0, false⟩)], 5⟩,
      subscribers := none, managers := none, calls := [] }
    ⟨[(0, ⟨7, 42, 0, false⟩), (3, ⟨8, 41, 0, false⟩), (4, ⟨9, 42, 0, false⟩)], 5⟩
    [(0, ⟨7, 42, 0, false⟩)] [(4, ⟨9, 42, 0, false⟩)] 3 ⟨8, 41, 0, false⟩
    rfl rfl (by decide) rfl rfl (by decide)).1

/-- C10: for a non-persistent Manager whose handle is held by exactly one
record of the request registry, created by the current pid, the first
`php_phongo_client_unregister` returns true and calls `mongoc_client_destroy`
on the handle once, and a second one returns false and changes neither
registry nor the libmongoc calls. -/
theorem unregister_twice (pid : Int) (manager : php_phongo_manager_t) (s : State)
    (ht : HashTable php_phongo_pclient_t) (pre post : List (Nat × php_phongo_pclient_t))
    (index : Nat) (pclient : php_phongo_pclient_t)
    (hp : manager.use_persistent_client = false) (hr : s.request_clients = some ht)
    (hk : (ht.arData.map Prod.fst).Nodup)
    (hd : ht.arData = pre ++ (index, pclient) :: post)
    (hc : pclient.client = manager.client) (hpid : pclient.created_by_pid = pid)
    (hpre : ∀ e ∈ pre, e.2.client ≠ manager.client)
    (hpost : ∀ e ∈ post, e.2.client ≠ manager.client) :
    (php_phongo_client_unregister pid manager s).1 = true ∧
      (php_phongo_client_unregister pid manager s).2.calls =
        s.calls ++ [DriverCall.client_destroy manager.client] ∧
      php_phongo_client_unregister pid manager (php_phongo_client_unregister pid manager s).2 =
        (false, (php_phongo_client_unregister pid manager s).2) := by
  rw [unregister_split pid manager s ht pre post index pclient hp hr hk hd hc hpre]
  refine ⟨rfl, by simp [hpid], ?_⟩
  have hnone : foreach_client (pre ++ post) manager.client = none := by
    apply foreach_client_none
    intro e he
    rcases List.mem_append.1 he with h | h
    · exact hpre e h
    · exact hpost e h
  simp [php_phongo_client_unregister, hp, hnone]

theorem reset_first_str_find (pid : Int) (hash : String)
    (l : List (String × php_phongo_pclient_t)) (calls : List DriverCall) (key : String)
    (r : php_phongo_pclient_t)
    (h : zend_hash_str_find_ptr (reset_first (fun k _ => decide (k = hash)) pid l calls).1 key
      = some r) :
    (key = hash → r.last_reset_by_pid = pid) ∧
      (key ≠ hash → zend_hash_str_find_ptr l key = some r) := by
  induction l generalizing calls with
  | nil => simp [reset_first, zend_hash_str_find_ptr] at h
  | cons e rest ih =>
    obtain ⟨k, p⟩ := e
    by_cases hk : k = hash
    · simp only [reset_first, hk, decide_True, if_true, zend_hash_str_find_ptr] at h
      by_cases hkey : hash = key
      · simp only [hkey, if_true, Option.some.injEq] at h
        subst h
        refine ⟨fun _ => ?_, fun hne => absurd hkey.symm hne⟩
        by_cases hl : p.last_reset_by_pid = pid
        · simp [phongo_pclient_reset_once, hl]
        · simp [phongo_pclient_reset_once, hl]
      · simp only [hkey, if_false] at h
        refine ⟨fun he => absurd he.symm hkey, fun _ => ?_⟩
        simp [zend_hash_str_find_ptr, hk, hkey, h]
    · simp only [reset_first, hk, decide_False, zend_hash_str_find_ptr] at h
      by_cases hkey : k = key
      · simp only [hkey, if_true, Option.some.injEq] at h
        refine ⟨fun he => absurd (hkey.trans he) hk, fun _ => ?_⟩
        simp [zend_hash_str_find_ptr, hkey, h]
      · simp only [hkey, if_false] at h
        have := ih calls h
        refine ⟨this.1, fun hne => ?_⟩
        simp [zend_hash_str_find_ptr, hkey, this.2 hne]

theorem reset_first_foreach (pid : Int) (client : Nat)
    (l : List (Nat × php_phongo_pclient_t)) (calls : List DriverCall) (c : Nat)
    (e : Nat × php_phongo_pclient_t)
    (h : foreach_client
      (reset_first (fun _ p => decide (p.client = client)) pid l calls).1 c = some e) :
    (c = client → e.2.last_reset_by_pid = pid) ∧
      (c ≠ client → foreach_client l c = some e) := by
  induction l generalizing calls with
  | nil => simp [reset_first, foreach_client] at h
  | cons b rest ih =>
    obtain ⟨k, p⟩ := b
    have hcl : (phongo_pclient_reset_once p pid calls).1.client = p.client := by
      by_cases hl : p.last_reset_by_pid = pid
      · simp [phongo_pclient_reset_once, hl]
      · simp [phongo_pclient_reset_once, hl]
    have hlast : (phongo_pclient_reset_once p pid calls).1.last_reset_by_pid = pid := by
      by_cases hl : p.last_reset_by_pid = pid
      · simp [phongo_pclient_reset_once, hl]
      · simp [phongo_pclient_reset_once, hl]
    by_cases hk : p.client = client
    · simp only [reset_first, hk, decide_True, if_true, foreach_client, hcl] at h
      by_cases hc : client = c
      · simp only [hc, if_true, Option.some.injEq] at h
        subst h
        exact ⟨fun _ => hlast, fun hne => absurd hc.symm hne⟩
      · simp only [hc, if_false] at h
        refine ⟨fun he => absurd he.symm hc, fun _ => ?_⟩
        have hpc : ¬ p.client = c := hk ▸ hc
        simp [foreach_client, hpc, h]
    · simp only [reset_first, hk, decide_False, foreach_client] at h
      by_cases hc : p.client = c
      · simp only [hc, if_true, Option.some.injEq] at h
        refine ⟨fun he => absurd (hc.trans he) hk, fun _ => ?_⟩
        simp [foreach_client, hc, h]
      · simp only [hc, if_false] at h
        have := ih calls h
        refine ⟨this.1, fun hne => ?_⟩
        simp [foreach_client, hc, this.2 hne]

theorem reset_once_unfold (c : Nat) (h : String) (p : Bool) (kv : php_phongo_manager_t)
    (pid : Int) (s : State) :
    php_phongo_client_reset_once (php_phongo_manager_t.mk c h p (some kv)) pid s =
      (php_phongo_client_reset_once kv pid s).bind
        (fun s1 => php_phongo_client_reset_once (php_phongo_manager_t.mk c h p none) pid s1) := by
  rw [php_phongo_client_reset_once]
  cases php_phongo_client_reset_once kv pid s with
  | none => simp
  | some s1 => simp [php_phongo_client_reset_once]

theorem reset_first_str_isSome (pid : Int) (hash : String)
    (l : List (String × php_phongo_pclient_t)) (calls : List DriverCall) (key : String) :
    (zend_hash_str_find_ptr (reset_first (fun k _ => decide (k = hash)) pid l calls).1
        key).isSome = (zend_hash_str_find_ptr l key).isSome := by
  induction l generalizing calls with
  | nil => rfl
  | cons e rest ih =>
    obtain ⟨k, p⟩ := e
    by_cases hk : k = hash
    · by_cases hkey : hash = key
      · simp [reset_first, zend_hash_str_find_ptr, hk, hkey]
      · simp [reset_first, zend_hash_str_find_ptr, hk, hkey]
    · by_cases hkey : k = key
      · subst hkey
        simp [reset_first, zend_hash_str_find_ptr, hk]
      · simp [reset_first, zend_hash_str_find_ptr, hk, hkey, ih]

theorem reset_once_client (p : php_phongo_pclient_t) (pid : Int) (calls : List DriverCall) :
    (phongo_pclient_reset_once p pid calls).1.client = p.client := by
  by_cases hl : p.last_reset_by_pid = pid
  · simp [phongo_pclient_reset_once, hl]
  · simp [phongo_pclient_reset_once, hl]

theorem reset_first_foreach_isSome (pid : Int) (client : Nat)
    (l : List (Nat × php_phongo_pclient_t)) (calls : List DriverCall) (c : Nat) :
    (foreach_client (reset_first (fun _ p => decide (p.client = client)) pid l calls).1
        c).isSome = (foreach_client l c).isSome := by
  induction l generalizing calls with
  | nil => rfl
  | cons e rest ih =>
    obtain ⟨k, p⟩ := e
    by_cases hk : p.client = client
    · by_cases hc : client = c
      · simp [reset_first, foreach_client, hk, hc, reset_once_client]
      · simp [reset_first, foreach_client, hk, hc, reset_once_client]
    · by_cases hc : p.client = c
      · subst hc
        simp [reset_first, foreach_client, hk]
      · simp [reset_first, foreach_client, hk, hc, ih]

theorem registered_record_isSome_request (m : php_phongo_manager_t) (s : State)
    (ht : HashTable php_phongo_pclient_t) (hm : m.use_persistent_client = false)
    (hs : s.request_clients = some ht) :
    (registered_record m s).isSome = (foreach_client ht.arData m.client).isSome := by
  simp only [registered_record, hm, hs, Bool.false_eq_true, if_false]
  cases foreach_client ht.arData m.client <;> rfl

theorem reset_once_own (c : Nat) (h : String) (p : Bool) (pid : Int) (s1 : State)
    (hreq : p = false → s1.request_clients.isSome = true) :
    ∃ s2, php_phongo_client_reset_once (php_phongo_manager_t.mk c h p none) pid s1 = some s2 ∧
      s2.request_clients.isSome = s1.request_clients.isSome ∧
      (∀ m r, registered_record m s2 = some r →
        r.last_reset_by_pid = pid ∨ registered_record m s1 = some r) ∧
      (∀ m, m.use_persistent_client = p → m.client_hash = h → m.client = c →
        ∀ r, registered_record m s2 = some r → r.last_reset_by_pid = pid) ∧
      (∀ m, (registered_record m s2).isSome = (registered_record m s1).isSome) := by
  cases p with
  | true =>
    refine ⟨{ s1 with
        persistent_clients :=
          (reset_first (fun k _ => decide (k = h)) pid s1.persistent_clients s1.calls).1
        calls := (reset_first (fun k _ => decide (k = h)) pid s1.persistent_clients s1.calls).2 },
      by simp [php_phongo_client_reset_once], rfl, ?_, ?_, ?_⟩
    · intro m r hr
      by_cases hm : m.use_persistent_client = true
      · simp only [registered_record, hm, if_true] at hr ⊢
        have := reset_first_str_find pid h _ _ _ _ hr
        by_cases hk : m.client_hash = h
        · exact Or.inl (this.1 hk)
        · exact Or.inr (this.2 hk)
      · simp only [registered_record, hm] at hr ⊢
        exact Or.inr hr
    · intro m hm hk _ r hr
      simp only [registered_record, hm, if_true] at hr
      exact (reset_first_str_find pid h _ _ _ _ hr).1 hk
    · intro m
      by_cases hm : m.use_persistent_client = true
      · simp only [registered_record, hm, if_true]
        exact reset_first_str_isSome pid h _ _ _
      · have hm1 : m.use_persistent_client = false := by simpa using hm
        simp only [registered_record, hm1, Bool.false_eq_true, if_false]
  | false =>
    obtain ⟨ht, hht⟩ := Option.isSome_iff_exists.1 (hreq rfl)
    refine ⟨{ s1 with
        request_clients := some { ht with
          arData :=
            (reset_first (fun _ q => decide (q.client = c)) pid ht.arData s1.calls).1 }
        calls := (reset_first (fun _ q => decide (q.client = c)) pid ht.arData s1.calls).2 },
      by simp [php_phongo_client_reset_once, hht], by simp [hht], ?_, ?_, ?_⟩
    · intro m r hr
      by_cases hm : m.use_persistent_client = true
      · simp only [registered_record, hm, if_true] at hr ⊢
        exact Or.inr hr
      · have hm1 : m.use_persistent_client = false := by simpa using hm
        simp only [registered_record, hm1, hht, Bool.false_eq_true, if_false] at hr ⊢
        cases he : foreach_client
            (reset_first (fun _ q => decide (q.client = c)) pid ht.arData s1.calls).1
            m.client with
        | none => simp [he] at hr
        | some e =>
          simp only [he, Option.some.injEq] at hr
          have := reset_first_foreach pid c _ _ _ _ he
          by_cases hk : m.client = c
          · exact Or.inl (hr ▸ this.1 hk)
          · exact Or.inr (by simp [this.2 hk, hr])
    · intro m hm _ hc r hr
      simp only [registered_record, hm, Bool.false_eq_true, if_false] at hr
      cases he : foreach_client
          (reset_first (fun _ q => decide (q.client = c)) pid ht.arData s1.calls).1
          m.client with
      | none => simp [he] at hr
      | some e =>
        simp only [he, Option.some.injEq] at hr
        exact hr ▸ (reset_first_foreach pid c _ _ _ _ he).1 hc
    · intro m
      by_cases hm : m.use_persistent_client = true
      · simp only [registered_record, hm, if_true]
      · have hm1 : m.use_persistent_client = false := by simpa using hm
        rw [registered_record_isSome_request m _ _ hm1 rfl,
          registered_record_isSome_request m s1 ht hm1 hht]
        exact reset_first_foreach_isSome pid c _ _ _

theorem reset_once_chain (pid : Int) :
    ∀ (m : php_phongo_manager_t) (s : State),
      (∀ m1 ∈ key_vault_chain m, m1.use_persistent_client = false →
        s.request_clients.isSome = true) →
      ∃ s2, php_phongo_client_reset_once m pid s = some s2 ∧
        s2.request_clients.isSome = s.request_clients.isSome ∧
        (∀ m1 ∈ key_vault_chain m, ∀ r, registered_record m1 s2 = some r →
          r.last_reset_by_pid = pid) ∧
        (∀ m1, (registered_record m1 s2).isSome = (registered_record m1 s).isSome)
  | php_phongo_manager_t.mk c h p none, s, hreq => by
    obtain ⟨s2, h2, hreq2, _, hown, hsome⟩ := reset_once_own c h p pid s
      (fun hp => hreq (php_phongo_manager_t.mk c h p none) (by simp [key_vault_chain])
        (by simpa [php_phongo_manager_t.use_persistent_client] using hp))
    refine ⟨s2, h2, hreq2, ?_, hsome⟩
    intro m1 hm1 r hr
    simp only [key_vault_chain, List.mem_singleton] at hm1
    subst hm1
    exact hown (php_phongo_manager_t.mk c h p none) rfl rfl rfl r hr
  | php_phongo_manager_t.mk c h p (some kv), s, hreq => by
    obtain ⟨s1, h1, hreq1, hchain, hsome1⟩ := reset_once_chain pid kv s
      (fun m1 hm1 => hreq m1 (by simp [key_vault_chain, hm1]))
    obtain ⟨s2, h2, hreq2, hpres, hown, hsome2⟩ := reset_once_own c h p pid s1
      (fun hp => by
        rw [hreq1]
        exact hreq (php_phongo_manager_t.mk c h p (some kv)) (by simp [key_vault_chain])
          (by simpa [php_phongo_manager_t.use_persistent_client] using hp))
    refine ⟨s2, by rw [reset_once_unfold, h1]; simpa using h2, hreq2.trans hreq1, ?_,
      fun m1 => (hsome2 m1).trans (hsome1 m1)⟩
    intro m1 hm1 r hr
    simp only [key_vault_chain, List.mem_cons] at hm1
    rcases hm1 with rfl | hm1
    · exact hown (php_phongo_manager_t.mk c h p (some kv)) rfl rfl rfl r hr
    · rcases hpres m1 r hr with h3 | h3
      · exact h3
      · exact hchain m1 hm1 r h3

theorem str_find_update_same {α : Type} (l : List (String × α)) (key : String) (p : α) :
    zend_hash_str_find_ptr (zend_hash_str_update_ptr l key p) key = some p := by
  induction l with
  | nil => simp [zend_hash_str_update_ptr, zend_hash_str_find_ptr]
  | cons e rest ih =>
    obtain ⟨k, v⟩ := e
    by_cases hk : k = key
    · simp [zend_hash_str_update_ptr, zend_hash_str_find_ptr, hk]
    · simp [zend_hash_str_update_ptr, zend_hash_str_find_ptr, hk, ih]

@[simp]
theorem client_set_client (m : php_phongo_manager_t) (c : Nat) :
    (m.set_client c).client = c := by
  cases m; rfl

@[simp]
theorem client_hash_set_client (m : php_phongo_manager_t) (c : Nat) :
    (m.set_client c).client_hash = m.client_hash := by
  cases m; rfl

@[simp]
theorem use_persistent_client_set_client (m : php_phongo_manager_t) (c : Nat) :
    (m.set_client c).use_persistent_client = m.use_persistent_client := by
  cases m; rfl

@[simp]
theorem key_vault_client_manager_set_client (m : php_phongo_manager_t) (c : Nat) :
    (m.set_client c).key_vault_client_manager = m.key_vault_client_manager := by
  cases m; rfl

@[simp]
theorem client_set_client_hash (m : php_phongo_manager_t) (h : String) :
    (m.set_client_hash h).client = m.client := by
  cases m; rfl

@[simp]
theorem client_hash_set_client_hash (m : php_phongo_manager_t) (h : String) :
    (m.set_client_hash h).client_hash = h := by
  cases m; rfl

@[simp]
theorem use_persistent_client_set_client_hash (m : php_phongo_manager_t) (h : String) :
    (m.set_client_hash h).use_persistent_client = m.use_persistent_client := by
  cases m; rfl

@[simp]
theorem key_vault_client_manager_set_client_hash (m : php_phongo_manager_t) (h : String) :
    (m.set_client_hash h).key_vault_client_manager = m.key_vault_client_manager := by
  cases m; rfl

@[simp]
theorem client_set_use_persistent_client (m : php_phongo_manager_t) (p : Bool) :
    (m.set_use_persistent_client p).client = m.client := by
  cases m; rfl

@[simp]
theorem client_hash_set_use_persistent_client (m : php_phongo_manager_t) (p : Bool) :
    (m.set_use_persistent_client p).client_hash = m.client_hash := by
  cases m; rfl

@[simp]
theorem use_persistent_client_set_use_persistent_client (m : php_phongo_manager_t) (p : Bool) :
    (m.set_use_persistent_client p).use_persistent_client = p := by
  cases m; rfl

@[simp]
theorem key_vault_client_manager_set_use_persistent_client (m : php_phongo_manager_t) (p : Bool) :
    (m.set_use_persistent_client p).key_vault_client_manager = m.key_vault_client_manager := by
  cases m; rfl

@[simp]
theorem client_set_key_vault_client_manager (m : php_phongo_manager_t) (k : Option php_phongo_manager_t) :
    (m.set_key_vault_client_manager k).client = m.client := by
  cases m; rfl

@[simp]
theorem client_hash_set_key_vault_client_manager (m : php_phongo_manager_t) (k : Option php_phongo_manager_t) :
    (m.set_key_vault_client_manager k).client_hash = m.client_hash := by
  cases m; rfl

@[simp]
theorem use_persistent_client_set_key_vault_client_manager (m : php_phongo_manager_t) (k : Option php_phongo_manager_t) :
    (m.set_key_vault_client_manager k).use_persistent_client = m.use_persistent_client := by
  cases m; rfl

@[simp]
theorem key_vault_client_manager_set_key_vault_client_manager (m : php_phongo_manager_t) (k : Option php_phongo_manager_t) :
    (m.set_key_vault_client_manager k).key_vault_client_manager = k := by
  cases m; rfl

theorem auto_encryption_fields (build : Build) (steps : InitSteps) (m : php_phongo_manager_t)
    (d : Option zarray) :
    (phongo_manager_set_auto_encryption_opts build steps m d).2.1.client = m.client ∧
      (phongo_manager_set_auto_encryption_opts build steps m d).2.1.client_hash =
        m.client_hash ∧
      (phongo_manager_set_auto_encryption_opts build steps m d).2.1.use_persistent_client =
        m.use_persistent_client := by
  unfold phongo_manager_set_auto_encryption_opts
  repeat' split
  all_goals simp

theorem auto_encryption_result (build : Build) (steps : InitSteps) (m : php_phongo_manager_t)
    (d : Option zarray) (b : Bool) (m1 : php_phongo_manager_t) (t1 : List Thrown)
    (h : phongo_manager_set_auto_encryption_opts build steps m d = (b, m1, t1)) :
    m1.client = m.client ∧ m1.client_hash = m.client_hash ∧
      m1.use_persistent_client = m.use_persistent_client ∧ (b = false → t1 ≠ []) := by
  have hf := auto_encryption_fields build steps m d
  rw [h] at hf
  refine ⟨hf.1, hf.2.1, hf.2.2, ?_⟩
  intro hb
  subst hb
  unfold phongo_manager_set_auto_encryption_opts at h
  revert h
  repeat' split
  all_goals simp
  all_goals (intro _ ht; subst ht; simp)

theorem init_success (build : Build) (serialize : zval → Option String) (pid : Int)
    (steps : InitSteps) (m : php_phongo_manager_t) (uri : String)
    (options driverOptions : Option zarray) (s : State) (r : InitResult)
    (h : phongo_manager_init build serialize pid steps m uri options driverOptions s = some r)
    (hok : r.thrown = []) :
    ∃ hash, php_phongo_manager_make_client_hash serialize pid uri options driverOptions
        = some hash ∧
      r.manager.client_hash = hash ∧ r.manager.client ≠ 0 ∧
      r.manager.use_persistent_client = use_persistent_client_option driverOptions ∧
      ((r.manager.use_persistent_client = true ∧
          php_phongo_find_persistent_client s hash = r.manager.client ∧ r.state = s) ∨
        (steps.mongoc_client_new_from_uri = r.manager.client ∧
          (r.manager.use_persistent_client = false ∨
            php_phongo_find_persistent_client s hash = 0) ∧
          php_phongo_client_register pid r.manager
            { s with calls := s.calls ++ [DriverCall.client_new r.manager.client] }
              = some (true, r.state))) := by
  cases hh : php_phongo_manager_make_client_hash serialize pid uri options driverOptions with
  | none =>
    simp only [phongo_manager_init, hh, Option.some.injEq] at h
    subst h
    simp at hok
  | some hash =>
    refine ⟨hash, rfl, ?_⟩
    by_cases hhit : use_persistent_client_option driverOptions = true ∧
        php_phongo_find_persistent_client s hash ≠ 0
    · simp [phongo_manager_init, hh, hhit.1, hhit.2] at h
      subst h
      simp [hhit.1, hhit.2]
    · have hmiss : (use_persistent_client_option driverOptions &&
          php_phongo_find_persistent_client s hash != 0) = false := by
        simpa [bne_iff_ne] using hhit
      have hor : use_persistent_client_option driverOptions = false ∨
          php_phongo_find_persistent_client s hash = 0 := by
        by_cases hu : use_persistent_client_option driverOptions = true
        · exact Or.inr (by_contra fun hf => hhit ⟨hu, hf⟩)
        · exact Or.inl (by simpa using hu)
      simp only [phongo_manager_init, hh] at h
      rw [if_neg (by simpa [bne_iff_ne] using hhit)] at h
      generalize hM0 : (if use_persistent_client_option driverOptions = true then
          ((m.set_client_hash hash).set_use_persistent_client
            (use_persistent_client_option driverOptions)).set_client
              (php_phongo_find_persistent_client s hash)
        else (m.set_client_hash hash).set_use_persistent_client
          (use_persistent_client_option driverOptions)) = M0 at h
      have hM0h : M0.client_hash = hash := by
        subst hM0
        split <;> simp
      have hM0p : M0.use_persistent_client = use_persistent_client_option driverOptions := by
        subst hM0
        split <;> simp
      cases hu : uri_failure build steps options with
      | some e =>
        simp only [hu, Option.some.injEq] at h
        subst h
        simp at hok
      | none =>
        simp only [hu] at h
        by_cases hc : steps.mongoc_client_new_from_uri = 0
        · simp only [hc, if_true] at h
          split at h
          · simp only [Option.some.injEq] at h
            subst h
            simp at hok
          · simp at h
        · simp only [hc, if_false] at h
          split at h
          · rename_i m1 t1 hae
            simp only [Option.some.injEq] at h
            subst h
            have hf := auto_encryption_result _ _ _ _ _ _ _ hae
            simp at hok
            exact absurd hok.2 (hf.2.2.2 rfl)
          · rename_i m1 t1 hae
            have hf := auto_encryption_result _ _ _ _ _ _ _ hae
            simp only [client_set_client, client_hash_set_client,
              use_persistent_client_set_client] at hf
            split at h
            · simp at h
            · simp only [Option.some.injEq] at h
              subst h
              simp at hok
            · rename_i s2 hreg
              simp only [Option.some.injEq] at h
              subst h
              rw [hM0h, hM0p] at hf
              refine ⟨hf.2.1, by rw [hf.1]; exact hc, hf.2.2.1, Or.inr ⟨hf.1.symm, ?_, ?_⟩⟩
              · rw [hf.2.2.1]
                exact hor
              · simp only [hf.1]
                exact hreg

theorem unregister_twice_witness :
    (php_phongo_client_unregister 42 sample_request_manager sample_request_state).1 = true ∧
      (php_phongo_client_unregister 42 sample_request_manager sample_request_state).2.calls =
        sample_request_state.calls ++
          [DriverCall.client_destroy sample_request_manager.client] ∧
      php_phongo_client_unregister 42 sample_request_manager
          (php_phongo_client_unregister 42 sample_request_manager sample_request_state).2 =
        (false, (php_phongo_client_unregister 42 sample_request_manager sample_request_state).2) :=
  unregister_twice 42 sample_request_manager sample_request_state
    ⟨[(0, ⟨7, 42, 0, false⟩), (1, ⟨8, 42, 0, false⟩)], 2⟩ [(0, ⟨7, 42, 0, false⟩)] [] 1
    ⟨8, 42, 0, false⟩ rfl rfl (by decide) rfl rfl rfl (by decide) (by simp)

theorem init_hit (build : Build) (serialize : zval → Option String) (pid : Int)
    (steps : InitSteps) (m : php_phongo_manager_t) (uri : String)
    (options driverOptions : Option zarray) (s : State) (hash : String)
    (hh : php_phongo_manager_make_client_hash serialize pid uri options driverOptions
      = some hash)
    (hu : use_persistent_client_option driverOptions = true)
    (hf : php_phongo_find_persistent_client s hash ≠ 0) :
    phongo_manager_init build serialize pid steps m uri options driverOptions s =
      some { manager := ((m.set_client_hash hash).set_use_persistent_client true).set_client
               (php_phongo_find_persistent_client s hash),
             state := s, thrown := [] } := by
  simp [phongo_manager_init, hh, hu, hf]

theorem find_after_persistent_register (pid : Int) (m : php_phongo_manager_t) (s s1 : State)
    (hp : m.use_persistent_client = true)
    (h : php_phongo_client_register pid m s = some (true, s1)) :
    zend_hash_str_find_ptr s1.persistent_clients m.client_hash =
      some ⟨m.client, pid, 0, true⟩ := by
  simp only [php_phongo_client_register, hp, if_true, Option.some.injEq, Prod.mk.injEq,
    true_and] at h
  subst h
  exact str_find_update_same _ _ _

/-- C1: with client persistence enabled, when a first `phongo_manager_init`
completes without an exception, a second one with the same arguments in the
same process finds the record stored under the hash, creates and registers
nothing, and gives its Manager the client handle of the first Manager. -/
theorem persistent_init_twice_same_client (build : Build) (serialize : zval → Option String)
    (pid : Int) (steps1 steps2 : InitSteps) (m1 m2 : php_phongo_manager_t) (uri : String)
    (options driverOptions : Option zarray) (s : State) (r1 : InitResult)
    (hp : use_persistent_client_option driverOptions = true)
    (h1 : phongo_manager_init build serialize pid steps1 m1 uri options driverOptions s
      = some r1)
    (hok : r1.thrown = []) :
    ∃ r2, phongo_manager_init build serialize pid steps2 m2 uri options driverOptions r1.state
        = some r2 ∧
      r2.manager.client = r1.manager.client ∧ r1.manager.client ≠ 0 ∧
      r2.thrown = [] ∧ r2.state = r1.state ∧
      ∃ pclient, zend_hash_str_find_ptr r1.state.persistent_clients r1.manager.client_hash
          = some pclient ∧ pclient.client = r1.manager.client := by
  obtain ⟨hash, hh, hhash, hc, hup, hcase⟩ :=
    init_success build serialize pid steps1 m1 uri options driverOptions s r1 h1 hok
  have hrec : ∃ pclient, zend_hash_str_find_ptr r1.state.persistent_clients hash
      = some pclient ∧ pclient.client = r1.manager.client := by
    rcases hcase with ⟨_, hfind, hs⟩ | ⟨_, _, hreg⟩
    · rw [hs]
      unfold php_phongo_find_persistent_client at hfind
      cases hl : zend_hash_str_find_ptr s.persistent_clients hash with
      | none =>
        rw [hl] at hfind
        exact absurd hfind.symm hc
      | some pclient =>
        rw [hl] at hfind
        exact ⟨pclient, rfl, hfind⟩
    · have := find_after_persistent_register pid r1.manager _ r1.state (hup.trans hp) hreg
      rw [hhash] at this
      exact ⟨_, this, rfl⟩
  obtain ⟨pclient, hfind, hpc⟩ := hrec
  have hfound : php_phongo_find_persistent_client r1.state hash = r1.manager.client := by
    simp [php_phongo_find_persistent_client, hfind, hpc]
  refine ⟨_, init_hit build serialize pid steps2 m2 uri options driverOptions r1.state hash hh
    hp (by rw [hfound]; exact hc), ?_, hc, rfl, rfl, ⟨pclient, by rw [hhash]; exact hfind, hpc⟩⟩
  simp [hfound]

theorem persistent_init_twice_same_client_witness :
    ∃ r2, phongo_manager_init sample_build php_serialize 42 (sample_steps 9)
          php_phongo_manager_t.zero "mongodb://localhost" none none sample_first_init.state
        = some r2 ∧
      r2.manager.client = sample_first_init.manager.client ∧
      sample_first_init.manager.client ≠ 0 ∧
      r2.thrown = [] ∧ r2.state = sample_first_init.state ∧
      ∃ pclient, zend_hash_str_find_ptr sample_first_init.state.persistent_clients
          sample_first_init.manager.client_hash = some pclient ∧
        pclient.client = sample_first_init.manager.client :=
  persistent_init_twice_same_client sample_build php_serialize 42 (sample_steps 7)
    (sample_steps 9) php_phongo_manager_t.zero php_phongo_manager_t.zero "mongodb://localhost"
    none none sample_request_start sample_first_init rfl rfl rfl

theorem register_request_result (pid : Int) (m : php_phongo_manager_t) (s s1 : State)
    (hp : m.use_persistent_client = false)
    (h : php_phongo_client_register pid m s = some (true, s1)) :
    ∃ ht ht1, s.request_clients = some ht ∧
      ht1.arData = ht.arData ++ [(ht.nNextFreeElement, ⟨m.client, pid, 0, false⟩)] ∧
      s1 = { s with request_clients := some ht1 } := by
  simp only [php_phongo_client_register, hp, Bool.false_eq_true, if_false] at h
  cases hr : s.request_clients with
  | none => simp [hr] at h
  | some ht =>
    simp only [hr] at h
    cases hi : zend_hash_next_index_insert_ptr ht
        ⟨m.client, pid, 0, false⟩ with
    | none => simp [hi] at h
    | some ht1 =>
      simp only [hi, Option.some.injEq, Prod.mk.injEq, true_and] at h
      refine ⟨ht, ht1, rfl, ?_, h.symm⟩
      simp only [zend_hash_next_index_insert_ptr] at hi
      split_ifs at hi
      all_goals
        simp only [Option.some.injEq] at hi
        rw [← hi]

theorem register_request_frame (pid : Int) (m : php_phongo_manager_t) (s : State)
    (P : List (String × php_phongo_pclient_t)) (hp : m.use_persistent_client = false) :
    php_phongo_client_register pid m { s with persistent_clients := P } =
      (php_phongo_client_register pid m s).map
        (fun r => (r.1, { r.2 with persistent_clients := P })) := by
  obtain ⟨pc, rc, sub, mg, calls⟩ := s
  simp only [php_phongo_client_register, hp, Bool.false_eq_true, if_false]
  cases rc with
  | none => rfl
  | some ht =>
    simp only
    cases zend_hash_next_index_insert_ptr ht ⟨m.client, pid, 0, false⟩ with
    | none => rfl
    | some ht1 => rfl

theorem init_request_frame (build : Build) (serialize : zval → Option String) (pid : Int)
    (steps : InitSteps) (m : php_phongo_manager_t) (uri : String)
    (options driverOptions : Option zarray) (s : State)
    (P : List (String × php_phongo_pclient_t))
    (hp : use_persistent_client_option driverOptions = false) :
    phongo_manager_init build serialize pid steps m uri options driverOptions
        { s with persistent_clients := P } =
      (phongo_manager_init build serialize pid steps m uri options driverOptions s).map
        (fun r => { r with state := { r.state with persistent_clients := P } }) := by
  cases hh : php_phongo_manager_make_client_hash serialize pid uri options driverOptions with
  | none => simp [phongo_manager_init, hh]
  | some hash =>
    simp only [phongo_manager_init, hh, hp, Bool.false_and, Bool.false_eq_true, if_false]
    cases hu : uri_failure build steps options with
    | some e => simp
    | none =>
      simp only
      by_cases hc : steps.mongoc_client_new_from_uri = 0
      · simp [hc]
      · simp only [hc, if_false]
        rcases hae : phongo_manager_set_auto_encryption_opts build steps
          (((m.set_client_hash hash).set_use_persistent_client false).set_client
            steps.mongoc_client_new_from_uri) driverOptions with ⟨b, m1, t1⟩
        have hf := auto_encryption_result _ _ _ _ _ _ _ hae
        simp only [use_persistent_client_set_client,
          use_persistent_client_set_use_persistent_client] at hf
        cases b with
        | false => simp
        | true =>
          simp only
          have := register_request_frame pid m1
            { s with calls := s.calls ++ [DriverCall.client_new steps.mongoc_client_new_from_uri] }
            P hf.2.2.1
          simp only at this
          rw [this]
          rcases php_phongo_client_register pid m1
            { s with calls := s.calls ++ [DriverCall.client_new steps.mongoc_client_new_from_uri] }
            with _ | ⟨b2, s2⟩
          · rfl
          · cases b2 <;> rfl

theorem init_request_success (build : Build) (serialize : zval → Option String) (pid : Int)
    (steps : InitSteps) (m : php_phongo_manager_t) (uri : String)
    (options driverOptions : Option zarray) (s : State) (r : InitResult)
    (hp : use_persistent_client_option driverOptions = false)
    (h : phongo_manager_init build serialize pid steps m uri options driverOptions s = some r)
    (hok : r.thrown = []) :
    r.manager.client = steps.mongoc_client_new_from_uri ∧
      ∃ ht ht1, s.request_clients = some ht ∧
        ht1.arData = ht.arData ++
          [(ht.nNextFreeElement, ⟨steps.mongoc_client_new_from_uri, pid, 0, false⟩)] ∧
        r.state = { s with
          request_clients := some ht1
          calls := s.calls ++ [DriverCall.client_new steps.mongoc_client_new_from_uri] } := by
  obtain ⟨hash, _, _, _, hup, hcase⟩ :=
    init_success build serialize pid steps m uri options driverOptions s r h hok
  rw [hp] at hup
  rcases hcase with ⟨hper, _, _⟩ | ⟨hc, _, hreg⟩
  · rw [hup] at hper
    exact absurd hper (by decide)
  · obtain ⟨ht, ht1, hr, hd, hs⟩ := register_request_result pid r.manager _ r.state hup hreg
    rw [← hc] at hd hs
    exact ⟨hc.symm, ht, ht1, hr, hd, hs⟩

/-- C2: with `disableClientPersistence` set, two consecutive
`phongo_manager_init` calls with the same arguments that both complete without
an exception each take the handle that libmongoc returned to them, so the two
Managers hold different handles when libmongoc returns a fresh handle to the
second call; the persistent registry is unchanged and has no influence on
either call, and the request registry gains one record for each handle. -/
theorem request_init_twice_distinct_clients (build : Build)
    (serialize : zval → Option String) (pid : Int) (steps1 steps2 : InitSteps)
    (m1 m2 : php_phongo_manager_t) (uri : String) (options driverOptions : Option zarray)
    (s : State) (r1 r2 : InitResult)
    (hp : use_persistent_client_option driverOptions = false)
    (h1 : phongo_manager_init build serialize pid steps1 m1 uri options driverOptions s
      = some r1)
    (hok1 : r1.thrown = [])
    (h2 : phongo_manager_init build serialize pid steps2 m2 uri options driverOptions r1.state
      = some r2)
    (hok2 : r2.thrown = [])
    (hfresh : steps2.mongoc_client_new_from_uri ≠ steps1.mongoc_client_new_from_uri) :
    r1.manager.client = steps1.mongoc_client_new_from_uri ∧
      r2.manager.client = steps2.mongoc_client_new_from_uri ∧
      r1.manager.client ≠ r2.manager.client ∧
      r2.state.persistent_clients = s.persistent_clients ∧
      r2.state.calls = s.calls ++ [DriverCall.client_new steps1.mongoc_client_new_from_uri,
        DriverCall.client_new steps2.mongoc_client_new_from_uri] ∧
      (∃ ht ht2 i1 i2, s.request_clients = some ht ∧ r2.state.request_clients = some ht2 ∧
        ht2.arData = ht.arData ++
          [(i1, ⟨steps1.mongoc_client_new_from_uri, pid, 0, false⟩),
            (i2, ⟨steps2.mongoc_client_new_from_uri, pid, 0, false⟩)]) ∧
      (∀ P : List (String × php_phongo_pclient_t),
        phongo_manager_init build serialize pid steps1 m1 uri options driverOptions
            { s with persistent_clients := P } =
          some { r1 with state := { r1.state with persistent_clients := P } }) ∧
      (∀ P : List (String × php_phongo_pclient_t),
        phongo_manager_init build serialize pid steps2 m2 uri options driverOptions
            { r1.state with persistent_clients := P } =
          some { r2 with state := { r2.state with persistent_clients := P } }) := by
  obtain ⟨hc1, ht, ht1, hr1, hd1, hs1⟩ :=
    init_request_success build serialize pid steps1 m1 uri options driverOptions s r1 hp h1 hok1
  obtain ⟨hc2, ht1b, ht2, hr2, hd2, hs2⟩ :=
    init_request_success build serialize pid steps2 m2 uri options driverOptions r1.state r2 hp
      h2 hok2
  have hb : ht1b = ht1 := by
    rw [hs1] at hr2
    exact (Option.some.inj hr2).symm
  subst hb
  refine ⟨hc1, hc2, ?_, ?_, ?_, ?_, ?_, ?_⟩
  · rw [hc1, hc2]
    exact fun h => hfresh h.symm
  · rw [hs2, hs1]
  · rw [hs2, hs1]
    simp
  · refine ⟨ht, ht2, ht.nNextFreeElement, ht1b.nNextFreeElement, hr1, by rw [hs2], ?_⟩
    rw [hd2, hd1]
    simp
  · intro P
    rw [init_request_frame build serialize pid steps1 m1 uri options driverOptions s P hp, h1]
    rfl
  · intro P
    rw [init_request_frame build serialize pid steps2 m2 uri options driverOptions r1.state P hp,
      h2]
    rfl

theorem request_init_twice_distinct_clients_witness :
    sample_first_request_init.manager.client = (sample_steps 7).mongoc_client_new_from_uri ∧
      sample_second_request_init.manager.client =
        (sample_steps 9).mongoc_client_new_from_uri ∧
      sample_first_request_init.manager.client ≠ sample_second_request_init.manager.client :=
  have h := request_init_twice_distinct_clients sample_build php_serialize 42 (sample_steps 7)
    (sample_steps 9) php_phongo_manager_t.zero php_phongo_manager_t.zero "mongodb://localhost"
    none (some sample_no_persistence) sample_request_start sample_first_request_init
    sample_second_request_init rfl rfl rfl rfl rfl (by decide)
  ⟨h.1, h.2.1, h.2.2.1⟩

theorem insert_keys_nodup {α : Type} (ht ht1 : HashTable α) (p : α)
    (hk : (ht.arData.map Prod.fst).Nodup)
    (h : zend_hash_next_index_insert_ptr ht p = some ht1) :
    (ht1.arData.map Prod.fst).Nodup := by
  simp only [zend_hash_next_index_insert_ptr] at h
  by_cases hany : (ht.arData.any fun e => e.1 == ht.nNextFreeElement) = true
  · simp [hany] at h
  · simp only [hany, Bool.false_eq_true, if_false, Option.some.injEq] at h
    subst h
    simp only [List.map_append, List.map_cons, List.map_nil]
    refine List.Nodup.append hk (List.nodup_singleton _) ?_
    intro a ha hb
    simp only [List.mem_singleton] at hb
    subst hb
    apply hany
    simp only [List.any_eq_true, beq_iff_eq]
    obtain ⟨e, he, hee⟩ := List.mem_map.1 ha
    exact ⟨e, he, hee⟩

theorem index_del_sublist {α : Type} (l : List (Nat × α)) (index : Nat) :
    (zend_hash_index_del l index).Sublist l := by
  induction l with
  | nil => exact List.Sublist.refl _
  | cons e rest ih =>
    obtain ⟨k, v⟩ := e
    by_cases hk : k = index
    · simp only [zend_hash_index_del, hk, if_true]
      exact List.sublist_cons_self _ _
    · simp only [zend_hash_index_del, hk, if_false]
      exact ih.cons₂ _

theorem index_del_keys_nodup {α : Type} (l : List (Nat × α)) (index : Nat)
    (hk : (l.map Prod.fst).Nodup) : ((zend_hash_index_del l index).map Prod.fst).Nodup :=
  hk.sublist ((index_del_sublist l index).map Prod.fst)

theorem register_keys_nodup (pid : Int) (manager : php_phongo_manager_t) (s s1 : State)
    (b : Bool) (hk : ∀ ht, s.request_clients = some ht → (ht.arData.map Prod.fst).Nodup)
    (h : php_phongo_client_register pid manager s = some (b, s1)) :
    ∀ ht, s1.request_clients = some ht → (ht.arData.map Prod.fst).Nodup := by
  unfold php_phongo_client_register at h
  by_cases hp : manager.use_persistent_client = true
  · simp only [hp, if_true, Option.some.injEq, Prod.mk.injEq] at h
    rw [← h.2]
    exact hk
  · have hp1 : manager.use_persistent_client = false := by simpa using hp
    simp only [hp1, Bool.false_eq_true, if_false] at h
    cases hr : s.request_clients with
    | none => simp [hr] at h
    | some ht0 =>
      simp only [hr] at h
      cases hi : zend_hash_next_index_insert_ptr ht0
          ⟨manager.client, pid, 0, false⟩ with
      | none =>
        simp only [hi, Option.some.injEq, Prod.mk.injEq] at h
        rw [← h.2]
        exact hk
      | some ht1 =>
        simp only [hi, Option.some.injEq, Prod.mk.injEq] at h
        rw [← h.2]
        intro ht hht
        simp only [Option.some.injEq] at hht
        subst hht
        exact insert_keys_nodup ht0 _ _ (hk ht0 hr) hi

theorem unregister_keys_nodup (pid : Int) (manager : php_phongo_manager_t) (s : State)
    (hk : ∀ ht, s.request_clients = some ht → (ht.arData.map Prod.fst).Nodup) :
    ∀ ht, (php_phongo_client_unregister pid manager s).2.request_clients = some ht →
      (ht.arData.map Prod.fst).Nodup := by
  unfold php_phongo_client_unregister
  by_cases hp : manager.use_persistent_client = true
  · simpa [hp] using hk
  · have hp1 : manager.use_persistent_client = false := by simpa using hp
    simp only [hp1, Bool.false_eq_true, if_false]
    cases hr : s.request_clients with
    | none => simp [hr]
    | some ht0 =>
      simp only
      cases hf : foreach_client ht0.arData manager.client with
      | none =>
        simp only [hr]
        intro ht hht
        exact hk ht (by rw [hr]; exact hht)
      | some e =>
        obtain ⟨index, p0⟩ := e
        simp only
        cases hv : zend_hash_index_find_ptr ht0.arData index with
        | none =>
          simp only [hr]
          intro ht hht
          exact hk ht (by rw [hr]; exact hht)
        | some victim =>
          intro ht hht
          simp only [Option.some.injEq] at hht
          subst hht
          exact index_del_keys_nodup _ _ (hk ht0 hr)

/-- Counterexample to C11: with PHP's serialization format the client hashes
computed under the pids `1` and `2` for the same arguments differ. -/
theorem client_hash_depends_on_pid :
    php_phongo_manager_make_client_hash php_serialize 1 "mongodb://localhost" none none ≠
      php_phongo_manager_make_client_hash php_serialize 2 "mongodb://localhost" none none := by
  decide

theorem client_hash_args_eq (pid : Int) (uri : String) (options driverOptions : Option zarray) :
    client_hash_args pid uri options driverOptions =
      [(array_key.str "pid", zval.long pid), (array_key.str "uri", zval.string uri),
        (array_key.str "options",
          match options with
          | some o => zval.array o
          | none => zval.null),
        (array_key.str "driverOptions",
          match driverOptions with
          | some d => zval.array (php_phongo_manager_prepare_manager_for_hash d)
          | none => zval.null)] := by
  cases options <;> cases driverOptions <;> simp [client_hash_args, add_assoc]

/-- C11 (amended): the client hash is the serialization of an array whose
first entry is `pid`, the process id, and whose other entries are the same
under every process id; it depends on the process only through that entry. -/
theorem client_hash_pid_entry (serialize : zval → Option String) (pid : Int) (uri : String)
    (options driverOptions : Option zarray) :
    (client_hash_args pid uri options driverOptions).head? =
        some (array_key.str "pid", zval.long pid) ∧
      (∀ p : Int, (client_hash_args p uri options driverOptions).tail =
        (client_hash_args pid uri options driverOptions).tail) ∧
      php_phongo_manager_make_client_hash serialize pid uri options driverOptions =
        serialize (zval.array ((array_key.str "pid", zval.long pid) ::
          (client_hash_args pid uri options driverOptions).tail)) := by
  simp [php_phongo_manager_make_client_hash, client_hash_args_eq]

/-- Counterexample to C12: two options arrays with the same entries in
different insertion orders get different client hashes with PHP's
serialization format. -/
theorem client_hash_depends_on_options_order :
    List.Perm [(array_key.str "w", zval.long 1), (array_key.str "ssl", zval.bool true)]
        [(array_key.str "ssl", zval.bool true), (array_key.str "w", zval.long 1)] ∧
      php_phongo_manager_make_client_hash php_serialize 42 "mongodb://localhost"
          (some [(array_key.str "w", zval.long 1), (array_key.str "ssl", zval.bool true)]) none ≠
        php_phongo_manager_make_client_hash php_serialize 42 "mongodb://localhost"
          (some [(array_key.str "ssl", zval.bool true), (array_key.str "w", zval.long 1)]) none :=
  ⟨List.Perm.swap _ _ _, by decide⟩

/-- C12 (amended): the options array is not normalized; it is serialized as
given, with its elements in insertion order, as the `options` entry of the
array that makes up the client hash. -/
theorem client_hash_options_as_given (serialize : zval → Option String) (pid : Int)
    (uri : String) (options : zarray) (driverOptions : Option zarray) :
    php_array_fetchc (client_hash_args pid uri (some options) driverOptions) "options" =
        some (zval.array options) ∧
      php_phongo_manager_make_client_hash serialize pid uri (some options) driverOptions =
        serialize (zval.array
          [(array_key.str "pid", zval.long pid), (array_key.str "uri", zval.string uri),
            (array_key.str "options", zval.array options),
            (array_key.str "driverOptions",
              match driverOptions with
              | some d => zval.array (php_phongo_manager_prepare_manager_for_hash d)
              | none => zval.null)]) := by
  constructor
  · rw [client_hash_args_eq]
    simp [php_array_fetchc]
  · simp [php_phongo_manager_make_client_hash, client_hash_args_eq]

/-- C14: when the client hash cannot be computed, `phongo_manager_init`
returns at once with the serializer's exception: the state, with both
registries and the libmongoc calls, is the one before the call, whatever the
registries hold and whatever the later steps would have returned. -/
theorem init_hash_failure (build : Build) (serialize : zval → Option String) (pid : Int)
    (steps : InitSteps) (m : php_phongo_manager_t) (uri : String)
    (options driverOptions : Option zarray) (s : State)
    (hh : php_phongo_manager_make_client_hash serialize pid uri options driverOptions = none) :
    phongo_manager_init build serialize pid steps m uri options driverOptions s =
      some { manager := m.set_client_hash "", state := s,
             thrown := [Thrown.callee Callee.php_var_serialize] } := by
  simp [phongo_manager_init, hh]

theorem init_hash_failure_witness :
    phongo_manager_init sample_build php_serialize 42 (sample_steps 7)
        php_phongo_manager_t.zero "mongodb://localhost"
        (some [(array_key.str "context", zval.manager sample_request_manager)]) none
        sample_first_init.state =
      some { manager := php_phongo_manager_t.zero.set_client_hash "",
             state := sample_first_init.state,
             thrown := [Thrown.callee Callee.php_var_serialize] } :=
  init_hash_failure sample_build php_serialize 42 (sample_steps 7) php_phongo_manager_t.zero
    "mongodb://localhost" (some [(array_key.str "context", zval.manager sample_request_manager)])
    none sample_first_init.state rfl

/-- Counterexample to C15: registering a persistent Manager under a hash that
is already a key returns true, overwrites the stored record and destroys the
handle of the record that was stored. -/
theorem register_existing_hash_overwrites :
    php_phongo_client_register 42 (php_phongo_manager_t.mk 9 "h" true none)
        { persistent_clients := [("g", ⟨5, 42, 0, true⟩), ("h", ⟨7, 42, 42, true⟩)],
          request_clients := none, subscribers := none, managers := none, calls := [] } =
      some (true,
        { persistent_clients := [("g", ⟨5, 42, 0, true⟩), ("h", ⟨9, 42, 0, true⟩)],
          request_clients := none, subscribers := none, managers := none,
          calls := [DriverCall.client_destroy 7] }) := by
  rfl

theorem str_find_mem_keys {α : Type} (l : List (String × α)) (key : String) (v : α)
    (h : zend_hash_str_find_ptr l key = some v) : key ∈ l.map Prod.fst := by
  by_contra hn
  rw [str_find_not_mem l key hn] at h
  exact Option.noConfusion h

theorem str_update_keys {α : Type} (l : List (String × α)) (key : String) (p : α)
    (h : key ∈ l.map Prod.fst) :
    (zend_hash_str_update_ptr l key p).map Prod.fst = l.map Prod.fst := by
  induction l with
  | nil => simp at h
  | cons e rest ih =>
    obtain ⟨k, v⟩ := e
    by_cases hk : k = key
    · simp [zend_hash_str_update_ptr, hk]
    · simp only [List.map_cons, List.mem_cons] at h
      have hrest : key ∈ rest.map Prod.fst := by
        rcases h with h | h
        · exact absurd h.symm hk
        · exact h
      simp [zend_hash_str_update_ptr, hk, ih hrest]

/-- C15 (amended): `php_phongo_client_register` for a persistent Manager whose
`client_hash` is already a key of the persistent registry returns true and
overwrites the record stored under that key, in place, with a new record for
the Manager's client; the registry's destructor runs on the record that was
stored there. -/
theorem register_persistent_existing (pid : Int) (manager : php_phongo_manager_t) (s : State)
    (old : php_phongo_pclient_t) (hp : manager.use_persistent_client = true)
    (hold : zend_hash_str_find_ptr s.persistent_clients manager.client_hash = some old) :
    php_phongo_client_register pid manager s =
        some (true, { s with
          persistent_clients :=
            zend_hash_str_update_ptr s.persistent_clients manager.client_hash
              ⟨manager.client, pid, 0, true⟩
          calls := php_phongo_pclient_destroy pid old s.calls }) ∧
      zend_hash_str_find_ptr
          (zend_hash_str_update_ptr s.persistent_clients manager.client_hash
            ⟨manager.client, pid, 0, true⟩) manager.client_hash =
        some ⟨manager.client, pid, 0, true⟩ ∧
      (zend_hash_str_update_ptr s.persistent_clients manager.client_hash
          (⟨manager.client, pid, 0, true⟩ : php_phongo_pclient_t)).map Prod.fst =
        s.persistent_clients.map Prod.fst := by
  refine ⟨by simp [php_phongo_client_register, hp, hold], str_find_update_same _ _ _,
    str_update_keys _ _ _ (str_find_mem_keys _ _ _ hold)⟩

theorem register_persistent_existing_witness :
    php_phongo_client_register 42 (php_phongo_manager_t.mk 9 "h" true none)
        { persistent_clients := [("g", ⟨5, 42, 0, true⟩), ("h", ⟨7, 41, 41, true⟩)],
          request_clients := none, subscribers := none, managers := none, calls := [] } =
      some (true,
        { persistent_clients :=
            zend_hash_str_update_ptr [("g", ⟨5, 42, 0, true⟩), ("h", ⟨7, 41, 41, true⟩)]
              (php_phongo_manager_t.mk 9 "h" true none).client_hash
              ⟨(php_phongo_manager_t.mk 9 "h" true none).client, 42, 0, true⟩,
          request_clients := none, subscribers := none, managers := none,
          calls := php_phongo_pclient_destroy 42 ⟨7, 41, 41, true⟩ [] }) :=
  (register_persistent_existing 42 (php_phongo_manager_t.mk 9 "h" true none)
    { persistent_clients := [("g", ⟨5, 42, 0, true⟩), ("h", ⟨7, 41, 41, true⟩)],
      request_clients := none, subscribers := none, managers := none, calls := [] }
    ⟨7, 41, 41, true⟩ rfl rfl).1

/-- Counterexample to C16: in the interleaving the handle destroyed is the one
of the Manager that registered first, and the surviving record holds the
handle of the Manager that registered second. -/
theorem register_race_destroys_first :
    register_race 42 (php_phongo_manager_t.mk 7 "h" true none)
        (php_phongo_manager_t.mk 9 "h" true none) sample_request_start =
      some { sample_request_start with
        persistent_clients := [("h", ⟨9, 42, 0, true⟩)]
        calls := [DriverCall.client_new 7, DriverCall.client_new 9,
          DriverCall.client_destroy 7] } := by
  rfl

theorem str_find_none_not_mem {α : Type} (l : List (String × α)) (key : String)
    (h : zend_hash_str_find_ptr l key = none) : key ∉ l.map Prod.fst := by
  induction l with
  | nil => simp
  | cons e rest ih =>
    obtain ⟨k, v⟩ := e
    by_cases hk : k = key
    · simp [zend_hash_str_find_ptr, hk] at h
    · simp only [zend_hash_str_find_ptr, hk, if_false] at h
      simp only [List.map_cons, List.mem_cons, not_or]
      exact ⟨fun he => hk he.symm, ih h⟩

theorem str_find_append_new {α : Type} (l : List (String × α)) (key : String) (v : α)
    (h : key ∉ l.map Prod.fst) : zend_hash_str_find_ptr (l ++ [(key, v)]) key = some v := by
  induction l with
  | nil => simp [zend_hash_str_find_ptr]
  | cons e rest ih =>
    obtain ⟨k, w⟩ := e
    simp only [List.map_cons, List.mem_cons, not_or] at h
    have hk : ¬ k = key := fun hk => h.1 hk.symm
    simp only [List.cons_append, zend_hash_str_find_ptr, hk, if_false]
    exact ih h.2

theorem str_update_append_new {α : Type} (l : List (String × α)) (key : String) (v w : α)
    (h : key ∉ l.map Prod.fst) :
    zend_hash_str_update_ptr (l ++ [(key, v)]) key w = l ++ [(key, w)] := by
  induction l with
  | nil => simp [zend_hash_str_update_ptr]
  | cons e rest ih =>
    obtain ⟨k, u⟩ := e
    simp only [List.map_cons, List.mem_cons, not_or] at h
    have hk : ¬ k = key := fun hk => h.1 hk.symm
    simp only [List.cons_append, zend_hash_str_update_ptr, hk, if_false]
    exact congrArg (List.cons (k, u)) (ih h.2)

/-- C16 (amended): when two persistent Managers with the same hash both miss
in the registry and both create a client before either registers, after both
have registered the registry holds one record under the hash and one handle
has been destroyed: the record and the handle of the Manager that registered
first are overwritten and destroyed by the second registration, and the
record that survives holds the handle of the Manager that registered
second. -/
theorem register_race_outcome (pid : Int) (first second : php_phongo_manager_t) (s : State)
    (hp1 : first.use_persistent_client = true) (hp2 : second.use_persistent_client = true)
    (hh : second.client_hash = first.client_hash)
    (hmiss : zend_hash_str_find_ptr s.persistent_clients first.client_hash = none) :
    register_race pid first second s =
      some { s with
        persistent_clients :=
          s.persistent_clients ++ [(first.client_hash, ⟨second.client, pid, 0, true⟩)]
        calls := s.calls ++
          [DriverCall.client_new first.client, DriverCall.client_new second.client,
            DriverCall.client_destroy first.client] } := by
  have hk : first.client_hash ∉ s.persistent_clients.map Prod.fst :=
    str_find_none_not_mem _ _ hmiss
  simp only [register_race, php_phongo_client_register, hp1, hp2, hh, if_true, hmiss,
    str_update_not_mem _ _ _ hk, str_find_append_new _ _ _ hk,
    str_update_append_new _ _ _ _ hk, php_phongo_pclient_destroy]
  simp

theorem register_race_outcome_witness :
    register_race 43 (php_phongo_manager_t.mk 11 "A" true none)
        (php_phongo_manager_t.mk 12 "A" true none) GINIT =
      some { GINIT with
        persistent_clients :=
          GINIT.persistent_clients ++
            [((php_phongo_manager_t.mk 11 "A" true none).client_hash,
              ⟨(php_phongo_manager_t.mk 12 "A" true none).client, 43, 0, true⟩)]
        calls := GINIT.calls ++
          [DriverCall.client_new (php_phongo_manager_t.mk 11 "A" true none).client,
            DriverCall.client_new (php_phongo_manager_t.mk 12 "A" true none).client,
            DriverCall.client_destroy (php_phongo_manager_t.mk 11 "A" true none).client] } :=
  register_race_outcome 43 (php_phongo_manager_t.mk 11 "A" true none)
    (php_phongo_manager_t.mk 12 "A" true none) GINIT rfl rfl rfl rfl

/-- Counterexample to C17: when libmongoc returns `NULL` and
`mongoc_client_set_error_api` returns for it, the one exception raised is of
the runtime exception class, which is not the class of the connection-failed
domain; when `mongoc_client_set_error_api` does not return for `NULL`,
`phongo_manager_init` does not return and raises no exception. -/
theorem client_creation_failure_not_connection_exception :
    (∃ r, phongo_manager_init sample_build php_serialize 42 (sample_steps 0)
          php_phongo_manager_t.zero "mongodb://localhost" none none sample_request_start
        = some r ∧
      r.thrown.map exception_class = [some zend_class_entry.php_phongo_runtimeexception_ce] ∧
      some zend_class_entry.php_phongo_runtimeexception_ce ≠
        some (phongo_exception_from_phongo_domain
          php_phongo_error_domain_t.PHONGO_ERROR_CONNECTION_FAILED)) ∧
      phongo_manager_init sample_build php_serialize 42 sample_steps_no_return
          php_phongo_manager_t.zero "mongodb://localhost" none none sample_request_start
        = none :=
  ⟨⟨_, rfl, rfl, by decide⟩, rfl⟩

/-- C17 (amended): when libmongoc returns no client handle,
`phongo_manager_init` hands the `NULL` handle to `mongoc_client_set_error_api`
before it tests the handle. When that call returns, `phongo_manager_init`
registers nothing and raises, as its last exception, an exception of the
class that `phongo_exception_from_phongo_domain` gives for the runtime domain,
which is the runtime exception class and not the connection exception class.
When that call does not return, `phongo_manager_init` does not return
either. -/
theorem client_creation_failure_is_runtime (build : Build) (serialize : zval → Option String)
    (pid : Int) (steps : InitSteps) (m : php_phongo_manager_t) (uri : String)
    (options driverOptions : Option zarray) (s : State) (hash : String)
    (hh : php_phongo_manager_make_client_hash serialize pid uri options driverOptions
      = some hash)
    (hmiss : use_persistent_client_option driverOptions = false ∨
      php_phongo_find_persistent_client s hash = 0)
    (hu : uri_failure build steps options = none)
    (hc : steps.mongoc_client_new_from_uri = 0) :
    (steps.mongoc_client_set_error_api = false →
        phongo_manager_init build serialize pid steps m uri options driverOptions s = none) ∧
      (steps.mongoc_client_set_error_api = true →
        ∃ r, phongo_manager_init build serialize pid steps m uri options driverOptions s
            = some r ∧
          r.state = s ∧ r.manager.client = 0 ∧
          r.thrown = php_phongo_set_handshake_data driverOptions ++
            [Thrown.domain php_phongo_error_domain_t.PHONGO_ERROR_RUNTIME] ∧
          (r.thrown.map exception_class).getLast? =
            some (some zend_class_entry.php_phongo_runtimeexception_ce)) ∧
      phongo_exception_from_phongo_domain php_phongo_error_domain_t.PHONGO_ERROR_RUNTIME ≠
        phongo_exception_from_phongo_domain
          php_phongo_error_domain_t.PHONGO_ERROR_CONNECTION_FAILED := by
  have hmiss2 : (use_persistent_client_option driverOptions &&
      php_phongo_find_persistent_client s hash != 0) = false := by
    rcases hmiss with h | h
    · simp [h]
    · simp [h]
  refine ⟨?_, ?_, by decide⟩
  · intro hapi
    simp [phongo_manager_init, hh, hmiss2, hu, hc, hapi]
  · intro hapi
    refine ⟨_, by simp only [phongo_manager_init, hh, hmiss2, hu, hc, hapi]; rfl, rfl, by simp,
      rfl, ?_⟩
    simp [exception_class, phongo_exception_from_phongo_domain]

theorem client_creation_failure_is_runtime_witness :
    (∃ r, phongo_manager_init sample_build php_serialize 42 (sample_steps 0)
          php_phongo_manager_t.zero "mongodb://localhost" none (some sample_no_persistence)
          sample_request_start = some r ∧
      r.state = sample_request_start ∧ r.manager.client = 0 ∧
      r.thrown = php_phongo_set_handshake_data (some sample_no_persistence) ++
        [Thrown.domain php_phongo_error_domain_t.PHONGO_ERROR_RUNTIME] ∧
      (r.thrown.map exception_class).getLast? =
        some (some zend_class_entry.php_phongo_runtimeexception_ce)) ∧
      phongo_manager_init sample_build php_serialize 42 sample_steps_no_return
          php_phongo_manager_t.zero "mongodb://localhost" none (some sample_no_persistence)
          sample_request_start = none :=
  ⟨(client_creation_failure_is_runtime sample_build php_serialize 42 (sample_steps 0)
      php_phongo_manager_t.zero "mongodb://localhost" none (some sample_no_persistence)
      sample_request_start _ rfl (Or.inl rfl) rfl rfl).2.1 rfl,
    (client_creation_failure_is_runtime sample_build php_serialize 42 sample_steps_no_return
      php_phongo_manager_t.zero "mongodb://localhost" none (some sample_no_persistence)
      sample_request_start _ rfl (Or.inl rfl) rfl rfl).1 rfl⟩

/-- C18 at a failing input: with a `driver` option that is not an array,
`phongo_manager_init` raises an invalid-argument exception and still creates
the client and registers it in the persistent registry, which was empty. -/
theorem init_registers_despite_handshake_exception :
    ∃ r, phongo_manager_init sample_build php_serialize 42 (sample_steps 7)
          php_phongo_manager_t.zero "mongodb://localhost" none (some sample_bad_driver_option)
          sample_request_start = some r ∧
      r.thrown = [Thrown.domain php_phongo_error_domain_t.PHONGO_ERROR_INVALID_ARGUMENT] ∧
      sample_request_start.persistent_clients = [] ∧
      r.state.persistent_clients.map (fun e => e.2) = [⟨7, 42, 0, true⟩] ∧
      r.state.calls = [DriverCall.client_new 7] :=
  ⟨_, rfl, rfl, rfl, rfl, rfl⟩

theorem register_false_state (pid : Int) (manager : php_phongo_manager_t) (s s1 : State)
    (h : php_phongo_client_register pid manager s = some (false, s1)) : s1 = s := by
  unfold php_phongo_client_register at h
  by_cases hp : manager.use_persistent_client = true
  · simp [hp] at h
  · have hp1 : manager.use_persistent_client = false := by simpa using hp
    simp only [hp1, Bool.false_eq_true, if_false] at h
    cases hr : s.request_clients with
    | none => simp [hr] at h
    | some ht =>
      simp only [hr] at h
      cases hi : zend_hash_next_index_insert_ptr ht ⟨manager.client, pid, 0, false⟩ with
      | none =>
        simp only [hi, Option.some.injEq, Prod.mk.injEq, true_and] at h
        exact h.symm
      | some ht1 => simp [hi] at h

theorem init_cleanup_keeps_registries (build : Build) (serialize : zval → Option String)
    (pid : Int) (steps : InitSteps) (m : php_phongo_manager_t) (uri : String)
    (options driverOptions : Option zarray) (s : State) (r : InitResult)
    (h : phongo_manager_init build serialize pid steps m uri options driverOptions s = some r) :
    (r.state.persistent_clients = s.persistent_clients ∧
        r.state.request_clients = s.request_clients) ∨
      ((php_phongo_manager_make_client_hash serialize pid uri options driverOptions).isSome ∧
        uri_failure build steps options = none ∧
        steps.mongoc_client_new_from_uri ≠ 0 ∧
        (∃ m0 t, phongo_manager_set_auto_encryption_opts build steps m0 driverOptions =
          (true, r.manager, t)) ∧
        php_phongo_client_register pid r.manager
          { s with calls := s.calls ++ [DriverCall.client_new r.manager.client] }
            = some (true, r.state)) := by
  cases hh : php_phongo_manager_make_client_hash serialize pid uri options driverOptions with
  | none =>
    simp only [phongo_manager_init, hh, Option.some.injEq] at h
    subst h
    exact Or.inl ⟨rfl, rfl⟩
  | some hash =>
    by_cases hhit : (use_persistent_client_option driverOptions &&
        php_phongo_find_persistent_client s hash != 0) = true
    · simp only [phongo_manager_init, hh, hhit, if_true, Option.some.injEq] at h
      subst h
      exact Or.inl ⟨rfl, rfl⟩
    · simp only [phongo_manager_init, hh, hhit, Bool.false_eq_true, if_false] at h
      generalize hM0 : (if use_persistent_client_option driverOptions = true then
          ((m.set_client_hash hash).set_use_persistent_client
            (use_persistent_client_option driverOptions)).set_client
              (php_phongo_find_persistent_client s hash)
        else (m.set_client_hash hash).set_use_persistent_client
          (use_persistent_client_option driverOptions)) = M0 at h
      cases hu : uri_failure build steps options with
      | some e =>
        simp only [hu, Option.some.injEq] at h
        subst h
        exact Or.inl ⟨rfl, rfl⟩
      | none =>
        simp only [hu] at h
        by_cases hc : steps.mongoc_client_new_from_uri = 0
        · simp only [hc, if_true] at h
          split at h
          · simp only [Option.some.injEq] at h
            subst h
            exact Or.inl ⟨rfl, rfl⟩
          · simp at h
        · simp only [hc, if_false] at h
          split at h
          · simp only [Option.some.injEq] at h
            subst h
            exact Or.inl ⟨rfl, rfl⟩
          · rename_i m1 t1 hae
            have hf := auto_encryption_result _ _ _ _ _ _ _ hae
            simp only [client_set_client] at hf
            split at h
            · simp at h
            · rename_i s2 hreg
              simp only [Option.some.injEq] at h
              subst h
              have := register_false_state _ _ _ _ hreg
              subst this
              exact Or.inl ⟨rfl, rfl⟩
            · rename_i s2 hreg
              simp only [Option.some.injEq] at h
              subst h
              refine Or.inr ⟨by simp [hh], rfl, hc, ⟨_, _, hae⟩, ?_⟩
              simp only [hf.1]
              exact hreg

theorem destroy_calls_count (pid : Int) (records : List php_phongo_pclient_t) (h : Nat) :
    (destroy_calls pid records).count (DriverCall.client_destroy h) =
      (records.filter
        (fun r => decide (r.created_by_pid = pid) && decide (r.client = h))).length := by
  induction records with
  | nil => simp [destroy_calls]
  | cons r rest ih =>
    simp only [destroy_calls] at ih
    by_cases hp : r.created_by_pid = pid
    · by_cases hc : r.client = h
      · simp [destroy_calls, hp, hc, ih]
      · have hne : DriverCall.client_destroy r.client ≠ DriverCall.client_destroy h := by
          intro he
          exact hc (DriverCall.client_destroy.inj he)
        simp only [destroy_calls, List.filter_cons, hp, decide_True, if_true, List.map_cons, hc,
          decide_False, Bool.and_false, Bool.false_eq_true, if_false]
        rw [List.count_cons_of_ne hne.symm]
        exact ih
    · simp [destroy_calls, hp, ih]

/-- C19: process shutdown empties the persistent registry whatever the pids of
its records, and the libmongoc calls it adds are the destroy calls of the
records created by the current pid, last record first: for every handle, the
number of destroy calls equals the number of records of the current pid that
held it, so records of other pids are removed without a destroy call and do
not stop the drain. -/
theorem gshutdown_drains_all (pid : Int) (s : State) :
    (GSHUTDOWN pid s).persistent_clients = [] ∧
      (GSHUTDOWN pid s).request_clients = s.request_clients ∧
      (GSHUTDOWN pid s).calls =
        s.calls ++ destroy_calls pid (s.persistent_clients.reverse.map Prod.snd) ∧
      (∀ h : Nat,
        (destroy_calls pid (s.persistent_clients.reverse.map Prod.snd)).count
            (DriverCall.client_destroy h) =
          ((s.persistent_clients.map Prod.snd).filter
            (fun r => decide (r.created_by_pid = pid) && decide (r.client = h))).length) ∧
      (∀ c ∈ destroy_calls pid (s.persistent_clients.reverse.map Prod.snd),
        ∃ r ∈ s.persistent_clients.map Prod.snd,
          r.created_by_pid = pid ∧ c = DriverCall.client_destroy r.client) := by
  refine ⟨rfl, rfl, ?_, ?_, ?_⟩
  · simp [GSHUTDOWN, zend_hash_graceful_reverse_destroy, destroy_buckets_eq]
  · intro h
    rw [destroy_calls_count, List.map_reverse, List.filter_reverse, List.length_reverse]
  · intro c hc
    simp only [destroy_calls, List.mem_map, List.mem_filter, decide_eq_true_eq] at hc
    obtain ⟨r, ⟨hr, hp⟩, rfl⟩ := hc
    refine ⟨r, ?_, hp, rfl⟩
    simpa using hr

/-- C20: on a hit in the persistent registry `phongo_manager_init` gives the
Manager the handle of the record stored under the hash, raises nothing, and
returns the state it was given: no client is created, nothing is registered,
and the found record and both registries are as before. -/
theorem persistent_hit_changes_nothing (build : Build) (serialize : zval → Option String)
    (pid : Int) (steps : InitSteps) (m : php_phongo_manager_t) (uri : String)
    (options driverOptions : Option zarray) (s : State) (hash : String)
    (pclient : php_phongo_pclient_t)
    (hh : php_phongo_manager_make_client_hash serialize pid uri options driverOptions
      = some hash)
    (hu : use_persistent_client_option driverOptions = true)
    (hrec : zend_hash_str_find_ptr s.persistent_clients hash = some pclient)
    (hc : pclient.client ≠ 0) :
    ∃ r, phongo_manager_init build serialize pid steps m uri options driverOptions s = some r ∧
      r.manager.client = pclient.client ∧ r.manager.client_hash = hash ∧
      r.manager.use_persistent_client = true ∧ r.thrown = [] ∧ r.state = s ∧
      zend_hash_str_find_ptr r.state.persistent_clients hash = some pclient := by
  have hf : php_phongo_find_persistent_client s hash = pclient.client := by
    simp [php_phongo_find_persistent_client, hrec]
  refine ⟨_, init_hit build serialize pid steps m uri options driverOptions s hash hh hu
    (by rw [hf]; exact hc), ?_, ?_, ?_, rfl, rfl, hrec⟩
  · simp [hf]
  · simp
  · simp

theorem persistent_hit_changes_nothing_witness :
    ∃ r, phongo_manager_init sample_build php_serialize 42 (sample_steps 9)
          php_phongo_manager_t.zero "mongodb://localhost" none none sample_first_init.state
        = some r ∧
      r.manager.client = (⟨7, 42, 0, true⟩ : php_phongo_pclient_t).client ∧
      r.manager.client_hash = sample_first_init.manager.client_hash ∧
      r.manager.use_persistent_client = true ∧ r.thrown = [] ∧
      r.state = sample_first_init.state ∧
      zend_hash_str_find_ptr r.state.persistent_clients sample_first_init.manager.client_hash =
        some ⟨7, 42, 0, true⟩ :=
  persistent_hit_changes_nothing sample_build php_serialize 42 (sample_steps 9)
    php_phongo_manager_t.zero "mongodb://localhost" none none sample_first_init.state
    sample_first_init.manager.client_hash ⟨7, 42, 0, true⟩ rfl rfl rfl (by decide)

theorem getLast_getD_cons (last pid : Int) (rest : List Int) :
    (pid :: rest).getLast?.getD last = rest.getLast?.getD pid := by
  cases rest with
  | nil => rfl
  | cons a t =>
    rw [List.getLast?_cons_cons]
    cases h : (a :: t).getLast? with
    | none => simp at h
    | some v => rfl

/-- C25: a sequence of `phongo_pclient_reset_once` calls with pids `p1..pn`
adds exactly as many `mongoc_client_reset` calls, all on the record's handle,
as there are positions at which the pid differs from the record's
`last_reset_by_pid` just before the call (the previous pid, or the initial
value for the first call). -/
theorem reset_once_seq_counts (pids : List Int) (pclient : php_phongo_pclient_t)
    (calls : List DriverCall) :
    (reset_once_seq pids pclient calls).2 =
        calls ++ List.replicate (pid_transitions pclient.last_reset_by_pid pids)
          (DriverCall.client_reset pclient.client) ∧
      (reset_once_seq pids pclient calls).1.last_reset_by_pid =
        pids.getLast?.getD pclient.last_reset_by_pid ∧
      (reset_once_seq pids pclient calls).1.client = pclient.client := by
  induction pids generalizing pclient calls with
  | nil => simp [reset_once_seq, pid_transitions]
  | cons pid rest ih =>
    have h := ih (phongo_pclient_reset_once pclient pid calls).1
      (phongo_pclient_reset_once pclient pid calls).2
    simp only [reset_once_seq]
    by_cases hl : pclient.last_reset_by_pid = pid
    · simp only [phongo_pclient_reset_once, hl, ne_eq, not_true_eq_false, if_false] at h ⊢
      refine ⟨?_, ?_, h.2.2⟩
      · rw [h.1, ← hl]
        simp [pid_transitions]
      · rw [h.2.1, getLast_getD_cons]
    · have hl2 : ¬ pid = pclient.last_reset_by_pid := fun e => hl e.symm
      simp only [phongo_pclient_reset_once, hl, ne_eq, not_false_eq_true, if_true] at h ⊢
      refine ⟨?_, ?_, h.2.2⟩
      · rw [h.1]
        simp only [pid_transitions, ne_eq, hl2, not_false_eq_true, if_true, Nat.add_comm 1,
          List.replicate_succ, List.append_assoc, List.singleton_append]
      · rw [h.2.1, getLast_getD_cons]

theorem split_at_dot_none (l : List Char) : split_at_dot l = none ↔ '.' ∉ l := by
  induction l with
  | nil => simp [split_at_dot]
  | cons c rest ih =>
    by_cases hc : c = '.'
    · simp [split_at_dot, hc]
    · have hc2 : ¬ '.' = c := fun e => hc e.symm
      cases hr : split_at_dot rest with
      | none =>
        simp only [split_at_dot, hc, if_false, hr, List.mem_cons, hc2, false_or, true_iff]
        exact ih.1 hr
      | some p =>
        have hmem : ¬ '.' ∉ rest := fun hn => by
          rw [ih.2 hn] at hr
          exact Option.noConfusion hr
        simp only [split_at_dot, hc, if_false, hr, List.mem_cons, hc2, false_or]
        constructor
        · intro h
          exact Option.noConfusion h
        · intro h
          exact absurd h hmem

theorem split_at_dot_some (l db coll : List Char) (h : split_at_dot l = some (db, coll)) :
    '.' ∉ db ∧ l = db ++ '.' :: coll := by
  induction l generalizing db with
  | nil => simp [split_at_dot] at h
  | cons c rest ih =>
    by_cases hc : c = '.'
    · simp only [split_at_dot, hc, if_true, Option.some.injEq, Prod.mk.injEq] at h
      obtain ⟨h1, h2⟩ := h
      subst h1 h2
      simp [hc]
    · have hc2 : ¬ '.' = c := fun e => hc e.symm
      cases hr : split_at_dot rest with
      | none => simp [split_at_dot, hc, hr] at h
      | some p =>
        obtain ⟨d, r⟩ := p
        simp only [split_at_dot, hc, if_false, hr, Option.some.injEq, Prod.mk.injEq] at h
        obtain ⟨h1, h2⟩ := h
        subst h1 h2
        have := ih d hr
        refine ⟨?_, ?_⟩
        · simp only [List.mem_cons, not_or]
          exact ⟨hc2, this.1⟩
        · rw [this.2]
          rfl

theorem c_string_eq_self (l : List Char) (h : Char.ofNat 0 ∉ l) : c_string l = l := by
  unfold c_string
  rw [List.takeWhile_eq_self_iff]
  intro x hx
  have : x ≠ Char.ofNat 0 := fun e => h (e ▸ hx)
  simpa using this

theorem c_string_split (l : List Char) :
    ∃ rest, l = c_string l ++ rest ∧ Char.ofNat 0 ∉ c_string l ∧
      (rest = [] ∨ rest.head? = some (Char.ofNat 0)) := by
  induction l with
  | nil => exact ⟨[], rfl, by simp [c_string], Or.inl rfl⟩
  | cons c t ih =>
    by_cases hc : c = Char.ofNat 0
    · exact ⟨c :: t, by simp [c_string, hc], by simp [c_string, hc], Or.inr (by simp [hc])⟩
    · obtain ⟨rest, h1, h2, h3⟩ := ih
      have hcs : c_string (c :: t) = c :: c_string t := by
        simp [c_string, hc]
      refine ⟨rest, ?_, ?_, h3⟩
      · rw [hcs, List.cons_append, ← h1]
      · rw [hcs]
        simp only [List.mem_cons, not_or]
        exact ⟨fun e => hc e.symm, h2⟩

/-- C30: `phongo_split_namespace` succeeds exactly when the namespace, the C
string its argument points to, contains a dot; it then splits at the first
dot: the database name has no dot, the collection name is everything after
that dot, and database, dot and collection put together give the namespace.
Empty parts are accepted. The C string is the part of the buffer before its
first NUL, so for a buffer without NUL all of this holds of the whole buffer,
and a dot that comes after a NUL is not seen. -/
theorem split_namespace_spec (ns : String) :
    ((phongo_split_namespace ns).isSome ↔ '.' ∈ c_string ns.data) ∧
      (∀ db coll : String, phongo_split_namespace ns = some (db, coll) →
        '.' ∉ db.data ∧ c_string ns.data = db.data ++ '.' :: coll.data ∧
          (db ++ "." ++ coll).data = c_string ns.data) ∧
      (∃ rest, ns.data = c_string ns.data ++ rest ∧ Char.ofNat 0 ∉ c_string ns.data ∧
        (rest = [] ∨ rest.head? = some (Char.ofNat 0))) ∧
      (Char.ofNat 0 ∉ ns.data →
        ((phongo_split_namespace ns).isSome ↔ '.' ∈ ns.data) ∧
          ∀ db coll : String, phongo_split_namespace ns = some (db, coll) →
            '.' ∉ db.data ∧ ns.data = db.data ++ '.' :: coll.data ∧ db ++ "." ++ coll = ns) ∧
      phongo_split_namespace "." = some ("", "") ∧
      phongo_split_namespace (String.mk ['a', Char.ofNat 0, '.', 'b']) = none := by
  have hiff : (phongo_split_namespace ns).isSome ↔ '.' ∈ c_string ns.data := by
    unfold phongo_split_namespace
    cases hs : split_at_dot (c_string ns.data) with
    | none =>
      have := (split_at_dot_none (c_string ns.data)).1 hs
      simp [this]
    | some p =>
      have hn : ¬ '.' ∉ c_string ns.data := fun hn => by
        rw [(split_at_dot_none (c_string ns.data)).2 hn] at hs
        exact Option.noConfusion hs
      simpa using hn
  have hsplit : ∀ db coll : String, phongo_split_namespace ns = some (db, coll) →
      '.' ∉ db.data ∧ c_string ns.data = db.data ++ '.' :: coll.data ∧
        (db ++ "." ++ coll).data = c_string ns.data := by
    intro db coll h
    unfold phongo_split_namespace at h
    cases hs : split_at_dot (c_string ns.data) with
    | none => simp [hs] at h
    | some p =>
      obtain ⟨d, r⟩ := p
      simp only [hs, Option.some.injEq, Prod.mk.injEq] at h
      obtain ⟨h1, h2⟩ := h
      subst h1 h2
      have := split_at_dot_some (c_string ns.data) d r hs
      refine ⟨this.1, this.2, ?_⟩
      simp [this.2]
  refine ⟨hiff, hsplit, c_string_split ns.data, ?_, by decide, by decide⟩
  intro hnul
  have hcs := c_string_eq_self ns.data hnul
  rw [hcs] at hiff
  refine ⟨hiff, ?_⟩
  intro db coll h
  obtain ⟨h1, h2, h3⟩ := hsplit db coll h
  rw [hcs] at h2 h3
  exact ⟨h1, h2, String.ext h3⟩

theorem split_namespace_spec_witness :
    '.' ∉ ("db" : String).data ∧
      ("db.coll.sub" : String).data = ("db" : String).data ++ '.' :: ("coll.sub" : String).data ∧
      ("db" : String) ++ "." ++ "coll.sub" = "db.coll.sub" :=
  ((split_namespace_spec "db.coll.sub").2.2.2.1 (by decide)).2 "db" "coll.sub" (by decide)

/-- C28: when `autoEncryption` is an array that names a `keyVaultClient`
Manager, `phongo_manager_set_auto_encryption_opts` fails with an
invalid-argument exception and leaves the Manager as it was whenever the two
`use_persistent_client` flags differ; when it succeeds the flags are equal and
the key vault Manager is the one attached. -/
theorem key_vault_persistence_must_match (build : Build) (steps : InitSteps)
    (manager kv : php_phongo_manager_t) (d opts : zarray)
    (hae : php_array_fetchc d "autoEncryption" = some (zval.array opts))
    (hkv : php_array_fetchc opts "keyVaultClient" = some (zval.manager kv)) :
    (manager.use_persistent_client ≠ kv.use_persistent_client →
        phongo_manager_set_auto_encryption_opts build steps manager (some d) =
          (false, manager,
            [Thrown.domain php_phongo_error_domain_t.PHONGO_ERROR_INVALID_ARGUMENT])) ∧
      (∀ (m1 : php_phongo_manager_t) (t : List Thrown),
        phongo_manager_set_auto_encryption_opts build steps manager (some d) = (true, m1, t) →
          manager.use_persistent_client = kv.use_persistent_client ∧
            m1 = manager.set_key_vault_client_manager (some kv) ∧
            m1.use_persistent_client = kv.use_persistent_client) := by
  constructor
  · intro hne
    by_cases hb : build.MONGOC_ENABLE_CLIENT_SIDE_ENCRYPTION = true
    · simp [phongo_manager_set_auto_encryption_opts, hae, hkv, hb, hne]
    · simp [phongo_manager_set_auto_encryption_opts, hae, hb]
  · intro m1 t h
    by_cases hb : build.MONGOC_ENABLE_CLIENT_SIDE_ENCRYPTION = true
    · by_cases hne : manager.use_persistent_client = kv.use_persistent_client
      · by_cases hs : steps.auto_encryption_options = true
        · simp [phongo_manager_set_auto_encryption_opts, hae, hkv, hb, hne, hs] at h
          refine ⟨hne, h.1.symm, ?_⟩
          rw [← h.1]
          simpa using hne
        · simp [phongo_manager_set_auto_encryption_opts, hae, hkv, hb, hne, hs] at h
      · simp [phongo_manager_set_auto_encryption_opts, hae, hkv, hb, hne] at h
    · simp [phongo_manager_set_auto_encryption_opts, hae, hb] at h

theorem key_vault_persistence_must_match_witness :
    phongo_manager_set_auto_encryption_opts sample_build (sample_steps 7)
        (php_phongo_manager_t.mk 7 "h" false none)
        (some [(array_key.str "autoEncryption",
          zval.array [(array_key.str "keyVaultClient",
            zval.manager (php_phongo_manager_t.mk 2 "K" true none))])]) =
      (false, php_phongo_manager_t.mk 7 "h" false none,
        [Thrown.domain php_phongo_error_domain_t.PHONGO_ERROR_INVALID_ARGUMENT]) :=
  (key_vault_persistence_must_match sample_build (sample_steps 7)
    (php_phongo_manager_t.mk 7 "h" false none) (php_phongo_manager_t.mk 2 "K" true none)
    [(array_key.str "autoEncryption",
      zval.array [(array_key.str "keyVaultClient",
        zval.manager (php_phongo_manager_t.mk 2 "K" true none))])]
    [(array_key.str "keyVaultClient", zval.manager (php_phongo_manager_t.mk 2 "K" true none))]
    rfl rfl).1 (by decide)

theorem foreach_manager_isSome (l : List (Nat × Nat)) (manager : Nat) :
    (foreach_manager l manager).isSome = true ↔ manager ∈ l.map Prod.snd := by
  induction l with
  | nil => simp [foreach_manager]
  | cons e rest ih =>
    obtain ⟨k, v⟩ := e
    by_cases hv : v = manager
    · simp [foreach_manager, hv]
    · have hv2 : ¬ manager = v := fun e => hv e.symm
      simp [foreach_manager, hv, hv2, ih]

theorem manager_exists_isSome (s : State) (ht : HashTable Nat) (manager : Nat)
    (hs : s.managers = some ht) :
    (php_phongo_manager_exists s manager).isSome = true ↔ manager ∈ ht.arData.map Prod.snd := by
  unfold php_phongo_manager_exists
  rw [hs]
  by_cases he : zend_hash_num_elements ht = 0
  · have : ht.arData = [] := by
      simpa [zend_hash_num_elements] using he
    simp [he, this]
  · simp only [he, if_false]
    exact foreach_manager_isSome _ _

theorem insert_arData {α : Type} (ht ht1 : HashTable α) (p : α)
    (h : zend_hash_next_index_insert_ptr ht p = some ht1) :
    ht1.arData = ht.arData ++ [(ht.nNextFreeElement, p)] := by
  simp only [zend_hash_next_index_insert_ptr] at h
  split_ifs at h
  all_goals
    simp only [Option.some.injEq] at h
    rw [← h]

theorem init_persistent_success_record (build : Build) (serialize : zval → Option String)
    (pid : Int) (steps : InitSteps) (m : php_phongo_manager_t) (uri : String)
    (options driverOptions : Option zarray) (s : State) (r : InitResult)
    (hp : use_persistent_client_option driverOptions = true)
    (h : phongo_manager_init build serialize pid steps m uri options driverOptions s = some r)
    (hok : r.thrown = []) :
    ∃ hash pclient,
      php_phongo_manager_make_client_hash serialize pid uri options driverOptions
        = some hash ∧
      r.manager.client_hash = hash ∧ r.manager.client ≠ 0 ∧
      zend_hash_str_find_ptr r.state.persistent_clients hash = some pclient ∧
      pclient.client = r.manager.client := by
  obtain ⟨hash, hh, hhash, hc, hup, hcase⟩ :=
    init_success build serialize pid steps m uri options driverOptions s r h hok
  refine ⟨hash, ?_⟩
  rcases hcase with ⟨_, hfind, hs⟩ | ⟨_, _, hreg⟩
  · rw [hs]
    unfold php_phongo_find_persistent_client at hfind
    cases hl : zend_hash_str_find_ptr s.persistent_clients hash with
    | none =>
      rw [hl] at hfind
      exact absurd hfind.symm hc
    | some pclient =>
      rw [hl] at hfind
      exact ⟨pclient, hh, hhash, hc, rfl, hfind⟩
  · have := find_after_persistent_register pid r.manager _ r.state (hup.trans hp) hreg
    rw [hhash] at this
    exact ⟨_, hh, hhash, hc, this, rfl⟩

theorem request_cycle_frame (pid : Int) (s : State) :
    (RINIT (RSHUTDOWN pid s)).persistent_clients = s.persistent_clients ∧
      (RINIT (RSHUTDOWN pid s)).calls = s.calls ++ destroy_calls pid (request_records s) ∧
      (RINIT (RSHUTDOWN pid s)).request_clients = some zend_hash_init ∧
      (RINIT (RSHUTDOWN pid s)).subscribers = some zend_hash_init ∧
      (RINIT (RSHUTDOWN pid s)).managers = some zend_hash_init := by
  cases hr : s.request_clients with
  | none => simp [RINIT, RSHUTDOWN, hr, request_records, destroy_calls]
  | some ht =>
    simp [RINIT, RSHUTDOWN, hr, request_records, zend_hash_destroy, destroy_buckets_eq]

theorem str_update_keys_nodup {α : Type} (l : List (String × α)) (key : String) (p : α)
    (h : (l.map Prod.fst).Nodup) : ((zend_hash_str_update_ptr l key p).map Prod.fst).Nodup := by
  by_cases hk : key ∈ l.map Prod.fst
  · rw [str_update_keys l key p hk]
    exact h
  · rw [str_update_not_mem l key p hk, List.map_append]
    refine List.Nodup.append h (List.nodup_singleton _) ?_
    intro x hx hy
    simp only [List.map_cons, List.map_nil, List.mem_singleton] at hy
    subst hy
    exact hk hx

theorem register_persistent_keys_nodup (pid : Int) (manager : php_phongo_manager_t)
    (s s1 : State) (b : Bool) (hk : (s.persistent_clients.map Prod.fst).Nodup)
    (h : php_phongo_client_register pid manager s = some (b, s1)) :
    (s1.persistent_clients.map Prod.fst).Nodup := by
  unfold php_phongo_client_register at h
  by_cases hp : manager.use_persistent_client = true
  · simp only [hp, if_true, Option.some.injEq, Prod.mk.injEq] at h
    rw [← h.2]
    exact str_update_keys_nodup _ _ _ hk
  · have hp1 : manager.use_persistent_client = false := by simpa using hp
    simp only [hp1, Bool.false_eq_true, if_false] at h
    cases hr : s.request_clients with
    | none => simp [hr] at h
    | some ht =>
      simp only [hr] at h
      cases hi : zend_hash_next_index_insert_ptr ht ⟨manager.client, pid, 0, false⟩ with
      | none =>
        simp only [hi, Option.some.injEq, Prod.mk.injEq] at h
        rw [← h.2]
        exact hk
      | some ht1 =>
        simp only [hi, Option.some.injEq, Prod.mk.injEq] at h
        rw [← h.2]
        exact hk

theorem unregister_persistent_frame (pid : Int) (manager : php_phongo_manager_t) (s : State) :
    (php_phongo_client_unregister pid manager s).2.persistent_clients =
      s.persistent_clients := by
  unfold php_phongo_client_unregister
  repeat' split
  all_goals rfl

theorem rinit_frame (s : State) :
    (RINIT s).persistent_clients = s.persistent_clients ∧ (RINIT s).calls = s.calls ∧
      (RINIT s).request_clients = some (s.request_clients.getD zend_hash_init) := by
  obtain ⟨pc, rc, sub, mg, calls⟩ := s
  cases rc <;> cases sub <;> cases mg <;> exact ⟨rfl, rfl, rfl⟩

theorem rshutdown_frame (pid : Int) (s : State) :
    (RSHUTDOWN pid s).persistent_clients = s.persistent_clients ∧
      (RSHUTDOWN pid s).request_clients = none ∧
      (RSHUTDOWN pid s).calls = s.calls ++ destroy_calls pid (request_records s) := by
  obtain ⟨pc, rc, sub, mg, calls⟩ := s
  cases rc with
  | none => simp [RSHUTDOWN, request_records, destroy_calls]
  | some ht => simp [RSHUTDOWN, request_records, zend_hash_destroy, destroy_buckets_eq]

/-- C24: in every state reached from the empty registries by
`phongo_manager_init`, `php_phongo_client_unregister`, request init and
request shutdown steps, the keys of the persistent registry are pairwise
distinct, so each hash has at most one record. -/
theorem persistent_registry_one_record_per_hash (build : Build)
    (serialize : zval → Option String) (s : State) (hs : Reachable build serialize s) :
    (s.persistent_clients.map Prod.fst).Nodup ∧
      ∀ hash : String, (s.persistent_clients.map Prod.fst).count hash ≤ 1 := by
  have hn : (s.persistent_clients.map Prod.fst).Nodup := by
    induction hs with
    | ginit => simp [GINIT]
    | rinit s _ ih =>
      rw [(rinit_frame s).1]
      exact ih
    | rshutdown pid s _ ih =>
      rw [(rshutdown_frame pid s).1]
      exact ih
    | init pid steps m uri options driverOptions s r _ h ih =>
      rcases init_cleanup_keeps_registries build serialize pid steps m uri options
        driverOptions s r h with hsame | ⟨_, _, _, _, hreg⟩
      · rw [hsame.1]
        exact ih
      · exact register_persistent_keys_nodup pid r.manager
          { s with calls := s.calls ++ [DriverCall.client_new r.manager.client] } r.state true ih
          hreg
    | unregister pid m s _ ih =>
      rw [unregister_persistent_frame]
      exact ih
  exact ⟨hn, fun hash => List.nodup_iff_count_le_one.1 hn hash⟩

theorem persistent_registry_one_record_per_hash_witness :
    (sample_first_init.state.persistent_clients.map Prod.fst).Nodup ∧
      ∀ hash : String, (sample_first_init.state.persistent_clients.map Prod.fst).count hash ≤ 1 :=
  persistent_registry_one_record_per_hash sample_build php_serialize sample_first_init.state
    (Reachable.init 42 (sample_steps 7) php_phongo_manager_t.zero "mongodb://localhost" none
      none sample_request_start sample_first_init (Reachable.rinit GINIT Reachable.ginit) rfl)

theorem read_decimal_char_digit (b : Bool) (a k : Nat) (hk : k < 10) :
    read_decimal_char (false, b, a) (Nat.digitChar k) = (false, b, a * 10 + k) := by
  interval_cases k <;> rfl

theorem read_decimal_ended (l : List Char) (b : Bool) (a : Nat) :
    l.foldl read_decimal_char (true, b, a) = (true, b, a) := by
  induction l with
  | nil => rfl
  | cons c rest ih => simpa [read_decimal_char] using ih

theorem read_toDigitsCore (fuel : Nat) : ∀ (n : Nat) (ds : List Char) (b : Bool), n < fuel →
    (Nat.toDigitsCore 10 fuel n ds).foldl read_decimal_char (false, b, 0) =
      ds.foldl read_decimal_char (false, b, n) := by
  induction fuel with
  | zero => intro n ds b h; omega
  | succ fuel ih =>
    intro n ds b h
    unfold Nat.toDigitsCore
    simp only
    by_cases h0 : n / 10 = 0
    · simp only [h0, if_true, List.foldl_cons]
      rw [read_decimal_char_digit _ _ _ (Nat.mod_lt _ (by decide))]
      have : n % 10 = n := Nat.mod_eq_of_lt (by omega)
      simp [this]
    · simp only [h0, if_false]
      rw [ih (n / 10) _ b (by omega), List.foldl_cons,
        read_decimal_char_digit _ _ _ (Nat.mod_lt _ (by decide))]
      have : n / 10 * 10 + n % 10 = n := by omega
      simp [this]

theorem read_decimal_toString (i : Int) (rest : List Char) :
    read_decimal ((toString i).data ++ ';' :: rest) = i := by
  cases i with
  | ofNat m =>
    show read_decimal (Nat.toDigits 10 m ++ ';' :: rest) = _
    simp only [read_decimal, List.foldl_append, Nat.toDigits]
    rw [read_toDigitsCore _ _ _ _ (by omega)]
    have : read_decimal_char (false, false, m) ';' = (true, false, m) := rfl
    simp [this, read_decimal_ended]
  | negSucc m =>
    show read_decimal (('-' :: Nat.toDigits 10 (m + 1)) ++ ';' :: rest) = _
    simp only [read_decimal, List.cons_append, List.foldl_cons, List.foldl_append, Nat.toDigits]
    have h1 : read_decimal_char (false, false, 0) '-' = (false, true, 0) := rfl
    rw [h1, read_toDigitsCore _ _ _ _ (by omega)]
    have h2 : read_decimal_char (false, true, m + 1) ';' = (true, true, m + 1) := rfl
    simp [h2, read_decimal_ended, Int.negSucc_eq]

theorem php_serialize_pid (p1 p2 : Int) (rest1 rest2 : zarray) (h : String)
    (hl : rest1.length = rest2.length)
    (h1 : php_serialize (zval.array ((array_key.str "pid", zval.long p1) :: rest1)) = some h)
    (h2 : php_serialize (zval.array ((array_key.str "pid", zval.long p2) :: rest2)) = some h) :
    p1 = p2 := by
  simp only [php_serialize, php_serialize_elems] at h1 h2
  cases ht1 : php_serialize_elems rest1 with
  | none => simp [ht1] at h1
  | some t1 =>
    cases ht2 : php_serialize_elems rest2 with
    | none => simp [ht2] at h2
    | some t2 =>
      simp only [ht1, ht2, Option.some.injEq] at h1 h2
      rw [← h2] at h1
      have := congrArg String.data h1
      simp only [String.data_append, List.append_assoc, List.length_cons, hl,
        List.append_cancel_left_eq] at this
      have e := congrArg read_decimal this
      simpa [read_decimal_toString] using e

theorem register_persistent_new (pid : Int) (manager : php_phongo_manager_t) (s s1 : State)
    (hp : manager.use_persistent_client = true)
    (hnew : manager.client_hash ∉ s.persistent_clients.map Prod.fst)
    (h : php_phongo_client_register pid manager s = some (true, s1)) :
    s1 = { s with
      persistent_clients :=
        s.persistent_clients ++ [(manager.client_hash, ⟨manager.client, pid, 0, true⟩)] } := by
  simp only [php_phongo_client_register, hp, if_true, str_find_not_mem _ _ hnew,
    str_update_not_mem _ _ _ hnew, Option.some.injEq, Prod.mk.injEq, true_and] at h
  exact h.symm

/-- C29: the array that is serialized into the client hash has the process id
as its first entry, so with a serializer whose output determines that entry
the hashes computed under two different pids differ, whatever the other
arguments are. When every record of the persistent registry was registered
under the parent's pid, a persistent `phongo_manager_init` that completes
without an exception in a child with another pid finds no record: it takes
the handle libmongoc returns, logs its creation and appends a new record with
the child's pid under the child's hash, leaving the parent's records in
place. -/
theorem fork_child_registers_new_record (build : Build) (serialize : zval → Option String)
    (parent child : Int) (steps : InitSteps) (m : php_phongo_manager_t) (uri : String)
    (options driverOptions : Option zarray) (s : State) (parent_hash : String)
    (r : InitResult)
    (hser : ∀ (p1 p2 : Int) (rest1 rest2 : zarray) (h : String),
      rest1.length = rest2.length →
      serialize (zval.array ((array_key.str "pid", zval.long p1) :: rest1)) = some h →
      serialize (zval.array ((array_key.str "pid", zval.long p2) :: rest2)) = some h →
      p1 = p2)
    (hne : child ≠ parent)
    (hparent : php_phongo_manager_make_client_hash serialize parent uri options driverOptions
      = some parent_hash)
    (hkeys : ∀ key ∈ s.persistent_clients.map Prod.fst, ∃ u o d,
      php_phongo_manager_make_client_hash serialize parent u o d = some key)
    (hp : use_persistent_client_option driverOptions = true)
    (h : phongo_manager_init build serialize child steps m uri options driverOptions s
      = some r)
    (hok : r.thrown = []) :
    (client_hash_args child uri options driverOptions).head? =
        some (array_key.str "pid", zval.long child) ∧
      ∃ child_hash,
        php_phongo_manager_make_client_hash serialize child uri options driverOptions
          = some child_hash ∧
        child_hash ≠ parent_hash ∧
        php_phongo_find_persistent_client s child_hash = 0 ∧
        r.manager.client = steps.mongoc_client_new_from_uri ∧ r.manager.client ≠ 0 ∧
        r.state.calls = s.calls ++ [DriverCall.client_new r.manager.client] ∧
        r.state.persistent_clients =
          s.persistent_clients ++ [(child_hash, ⟨r.manager.client, child, 0, true⟩)] := by
  have hdiff : ∀ (u1 u2 : String) (o1 o2 d1 d2 : Option zarray) (k : String),
      php_phongo_manager_make_client_hash serialize child u1 o1 d1 = some k →
      php_phongo_manager_make_client_hash serialize parent u2 o2 d2 = some k → False := by
    intro u1 u2 o1 o2 d1 d2 k hc hpa
    simp only [php_phongo_manager_make_client_hash, client_hash_args_eq] at hc hpa
    exact hne (hser child parent _ _ k (by simp) hc hpa)
  refine ⟨by simp [client_hash_args_eq], ?_⟩
  obtain ⟨hash, hh, hhash, hc, hup, hcase⟩ :=
    init_success build serialize child steps m uri options driverOptions s r h hok
  have hnew : hash ∉ s.persistent_clients.map Prod.fst := by
    intro hmem
    obtain ⟨u, o, d, hk⟩ := hkeys hash hmem
    exact hdiff _ _ _ _ _ _ hash hh hk
  have hmiss : php_phongo_find_persistent_client s hash = 0 := by
    simp [php_phongo_find_persistent_client, str_find_not_mem _ _ hnew]
  refine ⟨hash, hh, ?_, hmiss, ?_⟩
  · intro he
    subst he
    exact hdiff _ _ _ _ _ _ hash hh hparent
  · rcases hcase with ⟨_, hfind, _⟩ | ⟨hnewc, _, hreg⟩
    · rw [hmiss] at hfind
      exact absurd hfind.symm hc
    · have hs := register_persistent_new child r.manager _ r.state (hup.trans hp)
        (by rw [hhash]; exact hnew) hreg
      rw [hs, hhash]
      exact ⟨hnewc.symm, hc, rfl, rfl⟩

theorem fork_child_registers_new_record_witness :
    ∃ child_hash,
      php_phongo_manager_make_client_hash php_serialize 43 "mongodb://localhost" none none
        = some child_hash ∧
      child_hash ≠ "a:4:\x7bs:3:\"pid\";i:42;s:3:\"uri\";s:19:\"mongodb://localhost\";s:7:\"options\";N;s:13:\"driverOptions\";N;\x7d" ∧
      php_phongo_find_persistent_client sample_first_init.state child_hash = 0 ∧
      sample_child_init.manager.client = 9 ∧
      sample_child_init.state.persistent_clients =
        sample_first_init.state.persistent_clients ++ [(child_hash, ⟨9, 43, 0, true⟩)] := by
  have hkeys : sample_first_init.state.persistent_clients.map Prod.fst =
      ["a:4:\x7bs:3:\"pid\";i:42;s:3:\"uri\";s:19:\"mongodb://localhost\";s:7:\"options\";N;s:13:\"driverOptions\";N;\x7d"] := by
    rfl
  obtain ⟨_, child_hash, h1, h2, h3, h4, _, _, h5⟩ :=
    fork_child_registers_new_record sample_build php_serialize 42 43 (sample_steps 9)
      php_phongo_manager_t.zero "mongodb://localhost" none none sample_first_init.state
      "a:4:\x7bs:3:\"pid\";i:42;s:3:\"uri\";s:19:\"mongodb://localhost\";s:7:\"options\";N;s:13:\"driverOptions\";N;\x7d"
      sample_child_init php_serialize_pid (by decide) (by decide)
      (fun key hk => ⟨"mongodb://localhost", none, none, by
        rw [hkeys, List.mem_singleton] at hk
        rw [hk]; decide⟩)
      rfl rfl rfl
  rw [h4] at h5
  exact ⟨child_hash, h1, h2, h3, h4, h5⟩

theorem destroy_calls_nodup (pid : Int) (records : List php_phongo_pclient_t)
    (h : (records.map (fun r => r.client)).Nodup) : (destroy_calls pid records).Nodup := by
  unfold destroy_calls
  have h1 : ((records.filter (fun r => decide (r.created_by_pid = pid))).map
      (fun r => r.client)).Nodup :=
    List.Nodup.sublist (List.Sublist.map _ (List.filter_sublist _)) h
  have h2 := List.Nodup.map (f := DriverCall.client_destroy)
    (fun a b hab => DriverCall.client_destroy.inj hab) h1
  simpa [List.map_map] using h2

theorem handles_owned_remove (pid : Int) (handles kept : List Nat) (calls : List DriverCall)
    (removed : List php_phongo_pclient_t)
    (hperm : handles.Perm (removed.map (fun r => r.client) ++ kept))
    (h : handles_owned handles calls) :
    handles_owned kept (calls ++ destroy_calls pid removed) := by
  obtain ⟨hnd, h0, hrec, hdn, hcnt⟩ := h
  have hnd2 : (removed.map (fun r => r.client) ++ kept).Nodup := hperm.nodup_iff.1 hnd
  have hparts := List.nodup_append.1 hnd2
  have hmemk : ∀ x ∈ kept, x ∈ handles := fun x hx =>
    hperm.mem_iff.2 (List.mem_append_right _ hx)
  have hmemr : ∀ x ∈ removed.map (fun r => r.client), x ∈ handles := fun x hx =>
    hperm.mem_iff.2 (List.mem_append_left _ hx)
  have hdc : ∀ x, DriverCall.client_destroy x ∈ destroy_calls pid removed →
      x ∈ removed.map (fun r => r.client) := by
    intro x hx
    obtain ⟨r, hr, hc, _⟩ := (mem_destroy_calls pid removed x).1 hx
    exact List.mem_map.2 ⟨r, hr, hc⟩
  refine ⟨hparts.2.1, fun hz => h0 (hmemk 0 hz), ?_, ?_, ?_⟩
  · intro x hx
    refine ⟨List.mem_append_left _ (hrec x (hmemk x hx)).1, ?_⟩
    intro hmem
    rcases List.mem_append.1 hmem with hm | hm
    · exact (hrec x (hmemk x hx)).2 hm
    · exact hparts.2.2 (hdc x hm) hx
  · intro x hx
    rcases List.mem_append.1 hx with hm | hm
    · exact List.mem_append_left _ (hdn x hm)
    · exact List.mem_append_left _ (hrec x (hmemr x (hdc x hm))).1
  · intro x
    rw [List.count_append]
    by_cases hx : DriverCall.client_destroy x ∈ destroy_calls pid removed
    · have hc0 : calls.count (DriverCall.client_destroy x) = 0 :=
        List.count_eq_zero.2 (hrec x (hmemr x (hdc x hx))).2
      have := List.nodup_iff_count_le_one.1 (destroy_calls_nodup pid removed hparts.1)
        (DriverCall.client_destroy x)
      omega
    · have hc0 : (destroy_calls pid removed).count (DriverCall.client_destroy x) = 0 :=
        List.count_eq_zero.2 hx
      have := hcnt x
      omega

theorem handles_owned_create (handles : List Nat) (calls : List DriverCall) (c : Nat)
    (h : handles_owned handles calls) :
    handles_owned handles (calls ++ [DriverCall.client_new c]) := by
  obtain ⟨hnd, h0, hrec, hdn, hcnt⟩ := h
  refine ⟨hnd, h0, ?_, ?_, ?_⟩
  · intro x hx
    exact ⟨List.mem_append_left _ (hrec x hx).1, by simpa using (hrec x hx).2⟩
  · intro x hx
    have : DriverCall.client_destroy x ∈ calls := by simpa using hx
    exact List.mem_append_left _ (hdn x this)
  · intro x
    rw [List.count_append]
    have : [DriverCall.client_new c].count (DriverCall.client_destroy x) = 0 :=
      List.count_eq_zero.2 (by simp)
    have := hcnt x
    omega

theorem handles_owned_register (handles handles1 : List Nat) (calls : List DriverCall) (c : Nat)
    (hc : c ≠ 0) (hfresh : DriverCall.client_new c ∉ calls)
    (hperm : handles1.Perm (c :: handles))
    (h : handles_owned handles calls) :
    handles_owned handles1 (calls ++ [DriverCall.client_new c]) := by
  have hcr := handles_owned_create handles calls c h
  obtain ⟨hnd, h0, hrec, hdn, hcnt⟩ := h
  have hnotin : c ∉ handles := fun hx => hfresh (hrec c hx).1
  refine ⟨hperm.nodup_iff.2 (List.nodup_cons.2 ⟨hnotin, hnd⟩), ?_, ?_, hcr.2.2.2.1, hcr.2.2.2.2⟩
  · intro hz
    rcases List.mem_cons.1 (hperm.mem_iff.1 hz) with hz | hz
    · exact hc hz.symm
    · exact h0 hz
  · intro x hx
    rcases List.mem_cons.1 (hperm.mem_iff.1 hx) with hx | hx
    · subst hx
      refine ⟨by simp, ?_⟩
      intro hmem
      have : DriverCall.client_destroy x ∈ calls := by simpa using hmem
      exact hfresh (hdn x this)
    · exact hcr.2.2.1 x hx

theorem index_find_del_split {α : Type} (l : List (Nat × α)) (index : Nat) (v : α)
    (h : zend_hash_index_find_ptr l index = some v) :
    ∃ pre post, l = pre ++ (index, v) :: post ∧ zend_hash_index_del l index = pre ++ post := by
  induction l with
  | nil => simp [zend_hash_index_find_ptr] at h
  | cons e rest ih =>
    obtain ⟨k, w⟩ := e
    by_cases hk : k = index
    · simp only [zend_hash_index_find_ptr, hk, if_true, Option.some.injEq] at h
      subst h
      exact ⟨[], rest, by simp [hk], by simp [zend_hash_index_del, hk]⟩
    · simp only [zend_hash_index_find_ptr, hk, if_false] at h
      obtain ⟨pre, post, h1, h2⟩ := ih h
      exact ⟨(k, w) :: pre, post, by simp [h1], by simp [zend_hash_index_del, hk, h2]⟩

theorem pclient_destroy_eq (pid : Int) (pclient : php_phongo_pclient_t)
    (calls : List DriverCall) :
    php_phongo_pclient_destroy pid pclient calls = calls ++ destroy_calls pid [pclient] := by
  by_cases h : pclient.created_by_pid = pid <;>
    simp [php_phongo_pclient_destroy, destroy_calls, h]

theorem handles_owned_rinit (s : State) (h : handles_owned (record_handles s) s.calls) :
    handles_owned (record_handles (RINIT s)) (RINIT s).calls := by
  obtain ⟨pc, rc, sub, mg, calls⟩ := s
  cases rc <;> cases sub <;> cases mg <;> exact h

theorem handles_owned_rshutdown (pid : Int) (s : State)
    (h : handles_owned (record_handles s) s.calls) :
    handles_owned (record_handles (RSHUTDOWN pid s)) (RSHUTDOWN pid s).calls := by
  obtain ⟨hp, hr, hc⟩ := rshutdown_frame pid s
  rw [hc]
  refine handles_owned_remove pid _ _ _ (request_records s) ?_ h
  simp only [record_handles, request_records, hp, hr, List.map_nil, List.append_nil]
  exact List.perm_append_comm

theorem handles_owned_gshutdown (pid : Int) (s : State)
    (h : handles_owned (record_handles s) s.calls) :
    handles_owned (record_handles (GSHUTDOWN pid s)) (GSHUTDOWN pid s).calls := by
  have hc : (GSHUTDOWN pid s).calls =
      s.calls ++ destroy_calls pid (s.persistent_clients.reverse.map Prod.snd) := by
    simp [GSHUTDOWN, zend_hash_graceful_reverse_destroy, destroy_buckets_eq]
  rw [hc]
  refine handles_owned_remove pid _ _ _ _ ?_ h
  simp only [record_handles, GSHUTDOWN, request_records, List.map_nil, List.nil_append,
    List.map_map, List.map_reverse]
  exact List.Perm.append_right _ (List.reverse_perm _).symm

theorem handles_owned_unregister (pid : Int) (m : php_phongo_manager_t) (s : State)
    (h : handles_owned (record_handles s) s.calls) :
    handles_owned (record_handles (php_phongo_client_unregister pid m s).2)
      (php_phongo_client_unregister pid m s).2.calls := by
  unfold php_phongo_client_unregister
  by_cases hp : m.use_persistent_client = true
  · simpa [hp] using h
  · simp only [hp, Bool.false_eq_true, if_false]
    cases hr : s.request_clients with
    | none => simpa using h
    | some ht =>
      simp only
      cases hf : foreach_client ht.arData m.client with
      | none => simpa using h
      | some e =>
        obtain ⟨index, p0⟩ := e
        simp only
        cases hv : zend_hash_index_find_ptr ht.arData index with
        | none => simpa using h
        | some victim =>
          simp only
          obtain ⟨pre, post, h1, h2⟩ := index_find_del_split ht.arData index victim hv
          rw [pclient_destroy_eq]
          refine handles_owned_remove pid _ _ _ [victim] ?_ h
          simp only [record_handles, request_records, hr, h2]
          simp only [h1, List.map_append, List.map_cons, List.map_nil, List.singleton_append,
            ← List.append_assoc]
          exact List.perm_middle

theorem init_step (build : Build) (serialize : zval → Option String) (pid : Int)
    (steps : InitSteps) (m : php_phongo_manager_t) (uri : String)
    (options driverOptions : Option zarray) (s : State) (r : InitResult)
    (h : phongo_manager_init build serialize pid steps m uri options driverOptions s = some r) :
    r.state = s ∨
      (steps.mongoc_client_new_from_uri ≠ 0 ∧
        (r.state = { s with
            calls := s.calls ++ [DriverCall.client_new steps.mongoc_client_new_from_uri] } ∨
          (r.manager.client = steps.mongoc_client_new_from_uri ∧
            (r.manager.use_persistent_client = true →
              php_phongo_find_persistent_client s r.manager.client_hash = 0) ∧
            php_phongo_client_register pid r.manager
              { s with
                calls := s.calls ++ [DriverCall.client_new steps.mongoc_client_new_from_uri] }
              = some (true, r.state)))) := by
  cases hh : php_phongo_manager_make_client_hash serialize pid uri options driverOptions with
  | none =>
    simp only [phongo_manager_init, hh, Option.some.injEq] at h
    subst h
    exact Or.inl rfl
  | some hash =>
    by_cases hhit : (use_persistent_client_option driverOptions &&
        php_phongo_find_persistent_client s hash != 0) = true
    · simp only [phongo_manager_init, hh, hhit, if_true, Option.some.injEq] at h
      subst h
      exact Or.inl rfl
    · simp only [phongo_manager_init, hh, hhit, Bool.false_eq_true, if_false] at h
      have hfacts : (if use_persistent_client_option driverOptions = true then
          ((m.set_client_hash hash).set_use_persistent_client
            (use_persistent_client_option driverOptions)).set_client
              (php_phongo_find_persistent_client s hash)
        else (m.set_client_hash hash).set_use_persistent_client
          (use_persistent_client_option driverOptions)).client_hash = hash ∧
        (if use_persistent_client_option driverOptions = true then
          ((m.set_client_hash hash).set_use_persistent_client
            (use_persistent_client_option driverOptions)).set_client
              (php_phongo_find_persistent_client s hash)
        else (m.set_client_hash hash).set_use_persistent_client
          (use_persistent_client_option driverOptions)).use_persistent_client =
            use_persistent_client_option driverOptions := by
        split_ifs <;> simp
      generalize (if use_persistent_client_option driverOptions = true then
          ((m.set_client_hash hash).set_use_persistent_client
            (use_persistent_client_option driverOptions)).set_client
              (php_phongo_find_persistent_client s hash)
        else (m.set_client_hash hash).set_use_persistent_client
          (use_persistent_client_option driverOptions)) = M0 at h hfacts
      cases hu : uri_failure build steps options with
      | some e =>
        simp only [hu, Option.some.injEq] at h
        subst h
        exact Or.inl rfl
      | none =>
        simp only [hu] at h
        by_cases hc : steps.mongoc_client_new_from_uri = 0
        · simp only [hc, if_true] at h
          split at h
          · simp only [Option.some.injEq] at h
            subst h
            exact Or.inl rfl
          · simp at h
        · simp only [hc, if_false] at h
          refine Or.inr ⟨hc, ?_⟩
          split at h
          · simp only [Option.some.injEq] at h
            subst h
            exact Or.inl rfl
          · rename_i m1 t1 hae
            have hf := auto_encryption_result _ _ _ _ _ _ _ hae
            simp only [client_set_client] at hf
            split at h
            · simp at h
            · rename_i s2 hreg
              simp only [Option.some.injEq] at h
              subst h
              have := register_false_state _ _ _ _ hreg
              subst this
              exact Or.inl rfl
            · rename_i s2 hreg
              simp only [Option.some.injEq] at h
              subst h
              refine Or.inr ⟨hf.1, ?_, hreg⟩
              intro hpers
              have h1 : m1.client_hash = hash := by
                rw [hf.2.1]; simpa using hfacts.1
              have h2 : use_persistent_client_option driverOptions = true := by
                rw [← hfacts.2, ← hpers, hf.2.2.1]; simp
              rw [h1]
              simpa [h2] using hhit

theorem str_find_mem {α : Type} (l : List (String × α)) (key : String) (v : α)
    (h : zend_hash_str_find_ptr l key = some v) : (key, v) ∈ l := by
  induction l with
  | nil => simp [zend_hash_str_find_ptr] at h
  | cons e rest ih =>
    obtain ⟨k, w⟩ := e
    by_cases hk : k = key
    · simp only [zend_hash_str_find_ptr, hk, if_true, Option.some.injEq] at h
      simp [hk, h]
    · simp only [zend_hash_str_find_ptr, hk, if_false] at h
      exact List.mem_cons_of_mem _ (ih h)

theorem handles_owned_init (build : Build) (serialize : zval → Option String) (pid : Int)
    (steps : InitSteps) (m : php_phongo_manager_t) (uri : String)
    (options driverOptions : Option zarray) (s : State) (r : InitResult)
    (hfresh : steps.mongoc_client_new_from_uri = 0 ∨
      DriverCall.client_new steps.mongoc_client_new_from_uri ∉ s.calls)
    (h : phongo_manager_init build serialize pid steps m uri options driverOptions s = some r)
    (hs : handles_owned (record_handles s) s.calls) :
    handles_owned (record_handles r.state) r.state.calls := by
  rcases init_step build serialize pid steps m uri options driverOptions s r h with
    he | ⟨hc, he | ⟨hMc, hMp, hreg⟩⟩
  · rw [he]; exact hs
  · rw [he]
    exact handles_owned_create _ _ _ hs
  · have hfr : DriverCall.client_new steps.mongoc_client_new_from_uri ∉ s.calls := by
      rcases hfresh with h0 | h0
      · exact absurd h0 hc
      · exact h0
    by_cases hp : r.manager.use_persistent_client = true
    · have hnew : r.manager.client_hash ∉ s.persistent_clients.map Prod.fst := by
        apply str_find_none_not_mem
        have hz := hMp hp
        unfold php_phongo_find_persistent_client at hz
        cases hl : zend_hash_str_find_ptr s.persistent_clients r.manager.client_hash with
        | none => rfl
        | some pclient =>
          exfalso
          rw [hl] at hz
          simp only at hz
          refine hs.2.1 (List.mem_append_left _ (List.mem_map.2 ⟨(r.manager.client_hash, pclient), ?_, hz⟩))
          exact str_find_mem _ _ _ hl
      have hst := register_persistent_new pid r.manager
        { s with
          calls := s.calls ++ [DriverCall.client_new steps.mongoc_client_new_from_uri] }
        r.state hp hnew hreg
      rw [hst]
      refine handles_owned_register _ _ _ _ hc hfr ?_ hs
      simp only [record_handles, request_records, List.map_append, List.map_cons, List.map_nil,
        hMc]
      rw [List.append_assoc]
      exact List.perm_middle
    · have hp1 : r.manager.use_persistent_client = false := by simpa using hp
      obtain ⟨ht, ht1, hr, hd, hst⟩ := register_request_result pid r.manager _ r.state hp1 hreg
      rw [hst]
      refine handles_owned_register _ _ _ _ hc hfr ?_ hs
      simp only at hr
      simp only [record_handles, request_records, hr, hd, List.map_append, List.map_cons,
        List.map_nil, hMc, ← List.append_assoc]
      exact List.perm_append_singleton _ _

theorem run_handles_owned (build : Build) (serialize : zval → Option String) (pid : Int)
    (s : State) (hrun : Run build serialize pid s) : handles_owned (record_handles s) s.calls := by
  induction hrun with
  | ginit => simp [handles_owned, record_handles, request_records, GINIT]
  | rinit s _ ih => exact handles_owned_rinit s ih
  | init steps m uri options driverOptions s r _ hfresh h ih =>
    exact handles_owned_init build serialize pid steps m uri options driverOptions s r hfresh h ih
  | unregister m s _ ih => exact handles_owned_unregister pid m s ih
  | rshutdown s _ ih => exact handles_owned_rshutdown pid s ih
  | gshutdown s _ ih => exact handles_owned_gshutdown pid s ih

/-- C26: in every state that one process reaches from the state after
`PHP_GINIT_FUNCTION` by request init, `phongo_manager_init`,
`php_phongo_client_unregister`, request shutdown and process shutdown steps,
when libmongoc returns `NULL` or a handle it did not return before for each
connect, `mongoc_client_destroy` was called at most once for each handle, no
handle is held by two records of the persistent and request registries taken
together, and no record holds a destroyed handle. -/
theorem destroy_once_and_single_owner (build : Build) (serialize : zval → Option String)
    (pid : Int) (s : State) (hrun : Run build serialize pid s) :
    (∀ h, s.calls.count (DriverCall.client_destroy h) ≤ 1) ∧ (record_handles s).Nodup ∧
      ∀ h ∈ record_handles s, DriverCall.client_destroy h ∉ s.calls := by
  obtain ⟨hnd, _, hrec, _, hcnt⟩ := run_handles_owned build serialize pid s hrun
  exact ⟨hcnt, hnd, fun h hh => (hrec h hh).2⟩

theorem destroy_once_and_single_owner_witness :
    (∀ h, (GSHUTDOWN 42 (RSHUTDOWN 42 (php_phongo_client_unregister 42
        sample_first_request_init.manager sample_second_request_init.state).2)).calls.count
          (DriverCall.client_destroy h) ≤ 1) ∧
      (record_handles (GSHUTDOWN 42 (RSHUTDOWN 42 (php_phongo_client_unregister 42
        sample_first_request_init.manager sample_second_request_init.state).2))).Nodup ∧
      ∀ h ∈ record_handles (GSHUTDOWN 42 (RSHUTDOWN 42 (php_phongo_client_unregister 42
          sample_first_request_init.manager sample_second_request_init.state).2)),
        DriverCall.client_destroy h ∉ (GSHUTDOWN 42 (RSHUTDOWN 42 (php_phongo_client_unregister 42
          sample_first_request_init.manager sample_second_request_init.state).2)).calls :=
  destroy_once_and_single_owner sample_build php_serialize 42 _
    (Run.gshutdown _ (Run.rshutdown _ (Run.unregister sample_first_request_init.manager _
      (Run.init (sample_steps 9) php_phongo_manager_t.zero "mongodb://localhost" none
        (some sample_no_persistence) sample_first_request_init.state sample_second_request_init
        (Run.init (sample_steps 7) php_phongo_manager_t.zero "mongodb://localhost" none
          (some sample_no_persistence) sample_request_start sample_first_request_init
          (Run.rinit _ Run.ginit) (Or.inr (by decide)) rfl)
        (Or.inr (by decide)) rfl))))

theorem register_request_some (pid : Int) (manager : php_phongo_manager_t) (s : State)
    (ht : HashTable php_phongo_pclient_t) (hr : s.request_clients = some ht) :
    php_phongo_client_register pid manager s ≠ none := by
  unfold php_phongo_client_register
  by_cases hp : manager.use_persistent_client = true
  · simp [hp]
  · simp only [hp, Bool.false_eq_true, if_false, hr]
    cases zend_hash_next_index_insert_ptr ht ⟨manager.client, pid, 0, false⟩ <;> simp

theorem init_total (build : Build) (serialize : zval → Option String) (pid : Int)
    (steps : InitSteps) (m : php_phongo_manager_t) (uri : String)
    (options driverOptions : Option zarray) (s : State) (ht : HashTable php_phongo_pclient_t)
    (hr : s.request_clients = some ht)
    (hapi : steps.mongoc_client_new_from_uri = 0 → steps.mongoc_client_set_error_api = true) :
    ∃ r, phongo_manager_init build serialize pid steps m uri options driverOptions s = some r := by
  cases h : phongo_manager_init build serialize pid steps m uri options driverOptions s with
  | some r => exact ⟨r, rfl⟩
  | none =>
    exfalso
    cases hh : php_phongo_manager_make_client_hash serialize pid uri options driverOptions with
    | none => simp [phongo_manager_init, hh] at h
    | some hash =>
      by_cases hhit : (use_persistent_client_option driverOptions &&
          php_phongo_find_persistent_client s hash != 0) = true
      · simp [phongo_manager_init, hh, hhit] at h
      · simp only [phongo_manager_init, hh, hhit, Bool.false_eq_true, if_false] at h
        generalize (if use_persistent_client_option driverOptions = true then
            ((m.set_client_hash hash).set_use_persistent_client
              (use_persistent_client_option driverOptions)).set_client
                (php_phongo_find_persistent_client s hash)
          else (m.set_client_hash hash).set_use_persistent_client
            (use_persistent_client_option driverOptions)) = M0 at h
        cases hu : uri_failure build steps options with
        | some e => simp [hu] at h
        | none =>
          simp only [hu] at h
          by_cases hc : steps.mongoc_client_new_from_uri = 0
          · simp [hc, hapi hc] at h
          · simp only [hc, if_false] at h
            split at h
            · simp at h
            · split at h
              · rename_i hreg
                exact register_request_some pid _ _ ht (by simpa using hr) hreg
              · simp at h
              · simp at h

theorem first_client_split (l : List (Nat × php_phongo_pclient_t)) (client : Nat)
    (h : ∃ e ∈ l, e.2.client = client) :
    ∃ pre index pclient post, l = pre ++ (index, pclient) :: post ∧ pclient.client = client ∧
      ∀ e ∈ pre, e.2.client ≠ client := by
  induction l with
  | nil => simp at h
  | cons e rest ih =>
    obtain ⟨k, p⟩ := e
    by_cases hc : p.client = client
    · exact ⟨[], k, p, rest, rfl, hc, by simp⟩
    · obtain ⟨e, he, hec⟩ := h
      have he2 : e ∈ rest := by
        rcases List.mem_cons.1 he with he | he
        · subst he; exact absurd hec hc
        · exact he
      obtain ⟨pre, index, pclient, post, h1, h2, h3⟩ := ih ⟨e, he2, hec⟩
      refine ⟨(k, p) :: pre, index, pclient, post, by simp [h1], h2, ?_⟩
      intro x hx
      rcases List.mem_cons.1 hx with hx | hx
      · subst hx; exact hc
      · exact h3 x hx

theorem unregister_noop (pid : Int) (m : php_phongo_manager_t) (s : State)
    (ht : HashTable php_phongo_pclient_t) (hr : s.request_clients = some ht)
    (h : ¬ (m.use_persistent_client = false ∧ ∃ e ∈ ht.arData, e.2.client = m.client)) :
    (php_phongo_client_unregister pid m s).2 = s := by
  unfold php_phongo_client_unregister
  by_cases hp : m.use_persistent_client = true
  · simp [hp]
  · have hp1 : m.use_persistent_client = false := by simpa using hp
    have hnone : foreach_client ht.arData m.client = none :=
      foreach_client_none _ _ (fun e he hc => h ⟨hp1, e, he, hc⟩)
    simp [hp1, hr, hnone]

theorem init_request_effect (build : Build) (serialize : zval → Option String) (pid : Int)
    (steps : InitSteps) (m : php_phongo_manager_t) (uri : String)
    (options driverOptions : Option zarray) (s : State) (r : InitResult)
    (ht : HashTable php_phongo_pclient_t) (hr : s.request_clients = some ht)
    (hk : (ht.arData.map Prod.fst).Nodup)
    (h : phongo_manager_init build serialize pid steps m uri options driverOptions s = some r) :
    (∀ c ∈ s.calls, c ∈ r.state.calls) ∧
      (r.state.request_clients = s.request_clients ∨
        (steps.mongoc_client_new_from_uri ≠ 0 ∧
          DriverCall.client_new steps.mongoc_client_new_from_uri ∈ r.state.calls ∧
          r.manager.client = steps.mongoc_client_new_from_uri ∧
          r.manager.use_persistent_client = false ∧
          ∃ ht1, r.state.request_clients = some ht1 ∧ (ht1.arData.map Prod.fst).Nodup ∧
            ht1.arData = ht.arData ++
              [(ht.nNextFreeElement, ⟨steps.mongoc_client_new_from_uri, pid, 0, false⟩)])) := by
  rcases init_step build serialize pid steps m uri options driverOptions s r h with
    he | ⟨hc, he | ⟨hMc, _, hreg⟩⟩
  · rw [he]; exact ⟨fun c hc => hc, Or.inl rfl⟩
  · rw [he]; exact ⟨fun c hc => List.mem_append_left _ hc, Or.inl rfl⟩
  · by_cases hp : r.manager.use_persistent_client = true
    · simp only [php_phongo_client_register, hp, if_true, Option.some.injEq, Prod.mk.injEq,
        true_and] at hreg
      rw [← hreg]
      refine ⟨?_, Or.inl rfl⟩
      intro c hc
      simp only
      split
      · rw [pclient_destroy_eq]
        exact List.mem_append_left _ (List.mem_append_left _ hc)
      · exact List.mem_append_left _ hc
    · have hp1 : r.manager.use_persistent_client = false := by simpa using hp
      have hkn := register_keys_nodup pid r.manager _ r.state true
        (fun ht0 h0 => by
          have : ht0 = ht := by
            simp only [hr, Option.some.injEq] at h0
            exact h0.symm
          rw [this]; exact hk) hreg
      obtain ⟨ht0, ht1, hr0, hd, hst⟩ := register_request_result pid r.manager _ r.state hp1 hreg
      simp only [hr, Option.some.injEq] at hr0
      subst hr0
      have hrq : r.state.request_clients = some ht1 := by rw [hst]
      have hcalls : r.state.calls =
          s.calls ++ [DriverCall.client_new steps.mongoc_client_new_from_uri] := by rw [hst]
      refine ⟨fun c hc => by rw [hcalls]; exact List.mem_append_left _ hc,
        Or.inr ⟨hc, by rw [hcalls]; simp, hMc, hp1, ht1, hrq, hkn ht1 hrq, ?_⟩⟩
      rw [hd, hMc]

theorem round_trip_records (build : Build) (serialize : zval → Option String) (pid : Int)
    (steps : List RequestStep) :
    ∀ (s : State) (ht : HashTable php_phongo_pclient_t),
      s.request_clients = some ht →
      (ht.arData.map Prod.fst).Nodup →
      (ht.arData.map (fun e => e.2.client)).Nodup →
      (∀ e ∈ ht.arData, DriverCall.client_new e.2.client ∈ s.calls) →
      (∀ e ∈ ht.arData, ∃ m, RequestStep.unregister m ∈ steps ∧
        m.use_persistent_client = false ∧ m.client = e.2.client) →
      released_later build serialize pid steps s →
      ∃ s1, run_request build serialize pid steps s = some s1 ∧ request_records s1 = [] := by
  induction steps with
  | nil =>
    intro s ht hr _ _ _ hd _
    refine ⟨s, rfl, ?_⟩
    have : ht.arData = [] := by
      apply List.eq_nil_iff_forall_not_mem.2
      intro e he
      obtain ⟨m, hm, _⟩ := hd e he
      simp at hm
    simp [request_records, hr, this]
  | cons step rest ih =>
    intro s ht hr hk hn hb hd hrel
    cases step with
    | init st m uri options driverOptions =>
      have hapi := hrel.2.1
      obtain ⟨r, h⟩ := init_total build serialize pid st m uri options driverOptions s ht hr hapi
      simp only [released_later, h] at hrel
      obtain ⟨hfresh, _, hlater, hrest⟩ := hrel
      simp only [run_request, h]
      obtain ⟨hcalls, heff⟩ :=
        init_request_effect build serialize pid st m uri options driverOptions s r ht hr hk h
      have hd2 : ∀ e ∈ ht.arData, ∃ m, RequestStep.unregister m ∈ rest ∧
          m.use_persistent_client = false ∧ m.client = e.2.client := by
        intro e he
        obtain ⟨m1, hm1, hp1, hc1⟩ := hd e he
        simp only [List.mem_cons] at hm1
        rcases hm1 with hm1 | hm1
        · exact RequestStep.noConfusion hm1
        · exact ⟨m1, hm1, hp1, hc1⟩
      rcases heff with hsame | ⟨hc, hnewc, hMc, hMp, ht1, hr1, hk1, hd1⟩
      · exact ih r.state ht (by rw [hsame, hr]) hk hn
          (fun e he => hcalls _ (hb e he)) hd2 hrest
      · have hfr : DriverCall.client_new st.mongoc_client_new_from_uri ∉ s.calls := by
          rcases hfresh with h0 | h0
          · exact absurd h0 hc
          · exact h0
        have hne : r.state.request_clients ≠ s.request_clients := by
          rw [hr1, hr]
          intro heq
          simp only [Option.some.injEq] at heq
          have hlen := congrArg List.length hd1
          rw [heq] at hlen
          simp at hlen
        refine ih r.state ht1 hr1 hk1 ?_ ?_ ?_ hrest
        · rw [hd1]
          simp only [List.map_append, List.map_cons, List.map_nil]
          refine List.Nodup.append hn (List.nodup_singleton _) ?_
          intro a ha hb2
          simp only [List.mem_singleton] at hb2
          subst hb2
          obtain ⟨e, he, hec⟩ := List.mem_map.1 ha
          apply hfr
          have := hb e he
          have hec2 : e.2.client = st.mongoc_client_new_from_uri := hec
          rw [hec2] at this
          exact this
        · intro e he
          rw [hd1] at he
          rcases List.mem_append.1 he with he | he
          · exact hcalls _ (hb e he)
          · simp only [List.mem_singleton] at he
            subst he
            exact hnewc
        · intro e he
          rw [hd1] at he
          rcases List.mem_append.1 he with he | he
          · exact hd2 e he
          · simp only [List.mem_singleton] at he
            subst he
            exact ⟨r.manager, hlater hne, hMp, hMc⟩
    | unregister m =>
      simp only [released_later] at hrel
      simp only [run_request]
      by_cases hcase : m.use_persistent_client = false ∧ ∃ e ∈ ht.arData, e.2.client = m.client
      · obtain ⟨hp, hex⟩ := hcase
        obtain ⟨pre, index, pclient, post, h1, h2, h3⟩ := first_client_split ht.arData m.client hex
        have hu := unregister_split pid m s ht pre post index pclient hp hr hk h1 h2 h3
        rw [hu] at hrel ⊢
        simp only at hrel ⊢
        have hsub : (pre ++ post).Sublist ht.arData := by
          rw [h1]
          exact List.Sublist.append (List.Sublist.refl _) (List.sublist_cons_self _ _)
        have hn2 : (pre.map (fun e => e.2.client) ++
            pclient.client :: post.map (fun e => e.2.client)).Nodup := by
          have := hn
          rw [h1] at this
          simpa using this
        refine ih _ { ht with arData := pre ++ post } rfl
          (List.Nodup.sublist (List.Sublist.map _ hsub) hk)
          (List.Nodup.sublist (List.Sublist.map _ hsub) hn) ?_ ?_ hrel
        · intro e he
          have := hb e (hsub.subset he)
          simp only
          split
          · exact List.mem_append_left _ this
          · exact this
        · intro e he
          obtain ⟨m1, hm1, hp1, hc1⟩ := hd e (hsub.subset he)
          simp only [List.mem_cons] at hm1
          rcases hm1 with hm1 | hm1
          · exfalso
            have hmm : m1 = m := RequestStep.unregister.inj hm1
            subst hmm
            have hparts := List.nodup_append.1 hn2
            have hpc : pclient.client = e.2.client := by rw [h2, hc1]
            simp only at he
            rcases List.mem_append.1 he with he | he
            · exact hparts.2.2 (List.mem_map.2 ⟨e, he, rfl⟩)
                (by rw [← hpc]; exact List.mem_cons_self _ _)
            · have := (List.nodup_cons.1 hparts.2.1).1
              exact this (by rw [hpc]; exact List.mem_map.2 ⟨e, he, rfl⟩)
          · exact ⟨m1, hm1, hp1, hc1⟩
      · have hu := unregister_noop pid m s ht hr hcase
        rw [hu] at hrel ⊢
        refine ih s ht hr hk hn hb ?_ hrel
        intro e he
        obtain ⟨m1, hm1, hp1, hc1⟩ := hd e he
        simp only [List.mem_cons] at hm1
        rcases hm1 with hm1 | hm1
        · exfalso
          have hmm : m1 = m := RequestStep.unregister.inj hm1
          subst hmm
          exact hcase ⟨hp1, e, he, hc1.symm⟩
        · exact ⟨m1, hm1, hp1, hc1⟩

/-- The round trip of registering and unregistering on the request registry:
in a request that starts with an empty request registry, where libmongoc
returns `NULL` or a handle it did not return before for each connect, when
each `phongo_manager_init` that changes the request registry is followed later
by `php_phongo_client_unregister` for the Manager it initialised, every step
returns, the request registry holds no records after the last step, and the
drain of `PHP_RSHUTDOWN_FUNCTION` adds no libmongoc call. -/
theorem request_round_trip (build : Build) (serialize : zval → Option String) (pid : Int)
    (steps : List RequestStep) (s : State)
    (hstart : s.request_clients = some zend_hash_init)
    (hrel : released_later build serialize pid steps s) :
    ∃ s1, run_request build serialize pid steps s = some s1 ∧ request_records s1 = [] ∧
      (RSHUTDOWN pid s1).calls = s1.calls := by
  obtain ⟨s1, h1, h2⟩ := round_trip_records build serialize pid steps s zend_hash_init hstart
    (by simp [zend_hash_init]) (by simp [zend_hash_init]) (by simp [zend_hash_init])
    (by simp [zend_hash_init]) hrel
  refine ⟨s1, h1, h2, ?_⟩
  rw [(rshutdown_frame pid s1).2.2, h2]
  simp [destroy_calls]

theorem request_round_trip_witness :
    ∃ s1, run_request sample_build php_serialize 42 sample_round_trip_steps
        sample_request_start = some s1 ∧
      request_records s1 = [] ∧ (RSHUTDOWN 42 s1).calls = s1.calls := by
  have h : phongo_manager_init sample_build php_serialize 42 (sample_steps 7)
      php_phongo_manager_t.zero "mongodb://localhost" none (some sample_no_persistence)
      sample_request_start = some sample_first_request_init := rfl
  exact request_round_trip sample_build php_serialize 42 sample_round_trip_steps
    sample_request_start rfl (by
      simp only [sample_round_trip_steps, released_later, h]
      exact ⟨Or.inr (by decide), fun h => absurd h (by decide), fun _ => List.mem_cons_self _ _,
        trivial⟩)

theorem reset_first_str_calls (pid : Int) (hash : String)
    (l : List (String × php_phongo_pclient_t)) (calls : List DriverCall) :
    (reset_first (fun k _ => decide (k = hash)) pid l calls).2 =
        calls ++ stale_reset_calls (zend_hash_str_find_ptr l hash) pid ∧
      zend_hash_str_find_ptr (reset_first (fun k _ => decide (k = hash)) pid l calls).1 hash =
        (zend_hash_str_find_ptr l hash).map (fun r => { r with last_reset_by_pid := pid }) := by
  induction l with
  | nil => simp [reset_first, stale_reset_calls, zend_hash_str_find_ptr]
  | cons e rest ih =>
    obtain ⟨k, r⟩ := e
    by_cases hk : k = hash
    · by_cases hs : r.last_reset_by_pid = pid
      · simp [reset_first, stale_reset_calls, zend_hash_str_find_ptr, hk,
          phongo_pclient_reset_once, hs]
        rw [← hs]
      · simp [reset_first, stale_reset_calls, zend_hash_str_find_ptr, hk,
          phongo_pclient_reset_once, hs]
    · simp only [reset_first, hk, decide_False, Bool.false_eq_true, if_false,
        zend_hash_str_find_ptr]
      exact ih

theorem reset_first_foreach_calls (pid : Int) (client : Nat)
    (l : List (Nat × php_phongo_pclient_t)) (calls : List DriverCall) :
    (reset_first (fun _ p => decide (p.client = client)) pid l calls).2 =
        calls ++ stale_reset_calls ((foreach_client l client).map Prod.snd) pid ∧
      (foreach_client (reset_first (fun _ p => decide (p.client = client)) pid l calls).1
          client).map Prod.snd =
        ((foreach_client l client).map Prod.snd).map
          (fun r => { r with last_reset_by_pid := pid }) := by
  induction l with
  | nil => simp [reset_first, stale_reset_calls, foreach_client]
  | cons e rest ih =>
    obtain ⟨k, r⟩ := e
    by_cases hk : r.client = client
    · subst hk
      by_cases hs : r.last_reset_by_pid = pid
      · subst hs
        simp [reset_first, stale_reset_calls, foreach_client, phongo_pclient_reset_once]
      · simp [reset_first, stale_reset_calls, foreach_client, phongo_pclient_reset_once, hs]
    · simp only [reset_first, hk, decide_False, Bool.false_eq_true, if_false, foreach_client]
      exact ih

theorem registered_record_request (m : php_phongo_manager_t) (s : State)
    (ht : HashTable php_phongo_pclient_t) (hm : m.use_persistent_client = false)
    (hs : s.request_clients = some ht) :
    registered_record m s = (foreach_client ht.arData m.client).map Prod.snd := by
  simp only [registered_record, hm, Bool.false_eq_true, if_false, hs]
  cases foreach_client ht.arData m.client <;> rfl

theorem reset_once_own_calls (c : Nat) (h : String) (p : Bool)
    (kv : Option php_phongo_manager_t) (pid : Int) (s1 s2 : State)
    (h2 : php_phongo_client_reset_once (php_phongo_manager_t.mk c h p none) pid s1 = some s2) :
    s2.calls = s1.calls ++
        stale_reset_calls (registered_record (php_phongo_manager_t.mk c h p kv) s1) pid ∧
      registered_record (php_phongo_manager_t.mk c h p kv) s2 =
        (registered_record (php_phongo_manager_t.mk c h p kv) s1).map
          (fun r => { r with last_reset_by_pid := pid }) := by
  cases p with
  | true =>
    simp only [php_phongo_client_reset_once, if_true, Option.some.injEq] at h2
    subst h2
    have := reset_first_str_calls pid h s1.persistent_clients s1.calls
    simp only [registered_record, php_phongo_manager_t.use_persistent_client, if_true,
      php_phongo_manager_t.client_hash]
    exact this
  | false =>
    simp only [php_phongo_client_reset_once, Bool.false_eq_true, if_false] at h2
    cases hr : s1.request_clients with
    | none => simp [hr] at h2
    | some ht =>
      simp only [hr, Option.some.injEq] at h2
      have hreq2 : s2.request_clients = some { ht with
          arData :=
            (reset_first (fun _ q => decide (q.client = c)) pid ht.arData s1.calls).1 } := by
        rw [← h2]
      have hcalls2 : s2.calls =
          (reset_first (fun _ q => decide (q.client = c)) pid ht.arData s1.calls).2 := by
        rw [← h2]
      have := reset_first_foreach_calls pid c ht.arData s1.calls
      rw [registered_record_request (php_phongo_manager_t.mk c h false kv) s2 _ rfl hreq2,
        registered_record_request (php_phongo_manager_t.mk c h false kv) s1 ht rfl hr, hcalls2]
      simp only [php_phongo_manager_t.client]
      exact this

theorem stale_reset_calls_resets (record : Option php_phongo_pclient_t) (pid : Int) :
    ∀ x ∈ stale_reset_calls record pid, ∃ handle, x = DriverCall.client_reset handle := by
  intro x hx
  unfold stale_reset_calls at hx
  split at hx
  · split at hx
    · simp only [List.mem_singleton] at hx
      exact ⟨_, hx⟩
    · simp at hx
  · simp at hx

theorem reset_once_only_resets (pid : Int) :
    ∀ (m : php_phongo_manager_t) (s s2 : State),
      php_phongo_client_reset_once m pid s = some s2 →
      ∃ l, s2.calls = s.calls ++ l ∧ ∀ x ∈ l, ∃ handle, x = DriverCall.client_reset handle
  | php_phongo_manager_t.mk c h p none, s, s2, h2 =>
    ⟨_, (reset_once_own_calls c h p none pid s s2 h2).1, stale_reset_calls_resets _ _⟩
  | php_phongo_manager_t.mk c h p (some kv), s, s2, h2 => by
    rw [reset_once_unfold] at h2
    cases h1 : php_phongo_client_reset_once kv pid s with
    | none => simp [h1] at h2
    | some s1 =>
      rw [h1] at h2
      simp only [Option.some_bind] at h2
      obtain ⟨l1, hl1, hx1⟩ := reset_once_only_resets pid kv s s1 h1
      refine ⟨l1 ++ stale_reset_calls
        (registered_record (php_phongo_manager_t.mk c h p none) s1) pid, ?_, ?_⟩
      · rw [(reset_once_own_calls c h p none pid s1 s2 h2).1, hl1, List.append_assoc]
      · intro x hx
        rcases List.mem_append.1 hx with hx | hx
        · exact hx1 x hx
        · exact stale_reset_calls_resets _ _ x hx

/-- C7: for a Manager with a key vault Manager attached, whenever the request
registry exists or no Manager of the chain needs it,
`php_phongo_client_reset_once` first runs to completion on the key vault
Manager (and so on along the chain) and then applies the reset step to the
Manager's own record. The libmongoc calls it adds are the calls of the key
vault part, all of them `mongoc_client_reset` calls and, for a key vault
Manager without a key vault of its own, the one reset of its record if that
record was stale, followed by one `mongoc_client_reset` on the handle of the
Manager's own record if that record, as the key vault part left it, was
stale. The own record is the one looked up before with `last_reset_by_pid`
set to the pid; afterwards every Manager of the chain that had a registered
record still has one, and that record has `last_reset_by_pid` equal to the
pid. -/
theorem reset_once_key_vault_first (pid : Int) (c : Nat) (h : String) (p : Bool)
    (kv : php_phongo_manager_t) (s : State)
    (hreq : ∀ m ∈ key_vault_chain (php_phongo_manager_t.mk c h p (some kv)),
      m.use_persistent_client = false → s.request_clients.isSome = true) :
    ∃ s1 s2 kv_calls, php_phongo_client_reset_once kv pid s = some s1 ∧
      php_phongo_client_reset_once (php_phongo_manager_t.mk c h p none) pid s1 = some s2 ∧
      php_phongo_client_reset_once (php_phongo_manager_t.mk c h p (some kv)) pid s = some s2 ∧
      (∀ m ∈ key_vault_chain (php_phongo_manager_t.mk c h p (some kv)),
        (registered_record m s2).isSome = (registered_record m s).isSome ∧
          ∀ r, registered_record m s2 = some r → r.last_reset_by_pid = pid) ∧
      s1.calls = s.calls ++ kv_calls ∧
      (∀ x ∈ kv_calls, ∃ handle, x = DriverCall.client_reset handle) ∧
      (kv.key_vault_client_manager = none →
        kv_calls = stale_reset_calls (registered_record kv s) pid) ∧
      s2.calls = s.calls ++ kv_calls ++
        stale_reset_calls (registered_record (php_phongo_manager_t.mk c h p (some kv)) s1) pid ∧
      registered_record (php_phongo_manager_t.mk c h p (some kv)) s2 =
        (registered_record (php_phongo_manager_t.mk c h p (some kv)) s1).map
          (fun r => { r with last_reset_by_pid := pid }) := by
  obtain ⟨s3, h3, _, hall, hsome⟩ :=
    reset_once_chain pid (php_phongo_manager_t.mk c h p (some kv)) s hreq
  rw [reset_once_unfold] at h3
  cases h1 : php_phongo_client_reset_once kv pid s with
  | none => simp [h1] at h3
  | some s1 =>
    rw [h1] at h3
    simp only [Option.some_bind] at h3
    obtain ⟨l1, hl1, hx1⟩ := reset_once_only_resets pid kv s s1 h1
    obtain ⟨hown, hrec⟩ := reset_once_own_calls c h p (some kv) pid s1 s3 h3
    refine ⟨s1, s3, l1, rfl, h3, ?_, fun m hm => ⟨hsome m, hall m hm⟩, hl1, hx1, ?_, ?_, hrec⟩
    · rw [reset_once_unfold, h1]
      simpa using h3
    · intro hkv
      obtain ⟨c1, h1', p1, k1⟩ := kv
      simp only [php_phongo_manager_t.key_vault_client_manager] at hkv
      subst hkv
      have := (reset_once_own_calls c1 h1' p1 none pid s s1 h1).1
      rw [hl1] at this
      exact List.append_cancel_left this
    · rw [hown, hl1]

theorem reset_once_key_vault_first_witness :
    ∃ s1 s2 kv_calls, php_phongo_client_reset_once (php_phongo_manager_t.mk 2 "K" true none) 43
          sample_encrypting_state = some s1 ∧
      php_phongo_client_reset_once (php_phongo_manager_t.mk 1 "A" true none) 43 s1 = some s2 ∧
      php_phongo_client_reset_once sample_encrypting_manager 43 sample_encrypting_state
        = some s2 ∧
      (∀ m ∈ key_vault_chain sample_encrypting_manager,
        (registered_record m s2).isSome = (registered_record m sample_encrypting_state).isSome ∧
          ∀ r, registered_record m s2 = some r → r.last_reset_by_pid = 43) ∧
      s1.calls = sample_encrypting_state.calls ++ kv_calls ∧
      (∀ x ∈ kv_calls, ∃ handle, x = DriverCall.client_reset handle) ∧
      ((php_phongo_manager_t.mk 2 "K" true none).key_vault_client_manager = none →
        kv_calls = stale_reset_calls
          (registered_record (php_phongo_manager_t.mk 2 "K" true none) sample_encrypting_state)
          43) ∧
      s2.calls = sample_encrypting_state.calls ++ kv_calls ++
        stale_reset_calls (registered_record sample_encrypting_manager s1) 43 ∧
      registered_record sample_encrypting_manager s2 =
        (registered_record sample_encrypting_manager s1).map
          (fun r => { r with last_reset_by_pid := 43 }) :=
  reset_once_key_vault_first 43 1 "A" true (php_phongo_manager_t.mk 2 "K" true none)
    sample_encrypting_state (fun _ _ _ => rfl)

theorem register_calls_subset (pid : Int) (m : php_phongo_manager_t) (s s1 : State) (b : Bool)
    (h : php_phongo_client_register pid m s = some (b, s1)) :
    ∀ c ∈ s.calls, c ∈ s1.calls := by
  intro c hc
  unfold php_phongo_client_register at h
  by_cases hp : m.use_persistent_client = true
  · simp only [hp, if_true, Option.some.injEq, Prod.mk.injEq] at h
    rw [← h.2]
    simp only
    split
    · rw [pclient_destroy_eq]
      exact List.mem_append_left _ hc
    · exact hc
  · have hp1 : m.use_persistent_client = false := by simpa using hp
    simp only [hp1, Bool.false_eq_true, if_false] at h
    cases hr : s.request_clients with
    | none => simp [hr] at h
    | some ht =>
      simp only [hr] at h
      cases hi : zend_hash_next_index_insert_ptr ht ⟨m.client, pid, 0, false⟩ with
      | none =>
        simp only [hi, Option.some.injEq, Prod.mk.injEq] at h
        rw [← h.2]
        exact hc
      | some ht1 =>
        simp only [hi, Option.some.injEq, Prod.mk.injEq] at h
        rw [← h.2]
        exact hc

/-- C21: request shutdown followed by request init leaves the persistent
registry as it was and adds destroy calls for records of the request registry
only; the three request-scoped tables are destroyed and created anew. So when
a persistent `phongo_manager_init` completed without an exception in one
request, the same call in the next request of the process finds the record
that is still stored under the hash and gives its Manager the handle that
record holds, which is the handle of the first Manager, whatever handle
libmongoc would return now; it creates nothing, so the libmongoc calls are
those of the first request followed by the destroy calls of its request
records. When the first call found no client under the hash, that handle is
the one libmongoc returned to it, and its creation is on record. -/
theorem persistent_records_survive_requests (build : Build)
    (serialize : zval → Option String) (pid : Int) (steps1 steps2 : InitSteps)
    (m1 m2 : php_phongo_manager_t) (uri : String) (options driverOptions : Option zarray)
    (s : State) (r1 : InitResult)
    (hp : use_persistent_client_option driverOptions = true)
    (h1 : phongo_manager_init build serialize pid steps1 m1 uri options driverOptions s
      = some r1)
    (hok : r1.thrown = []) :
    (∀ s0 : State,
      (RINIT (RSHUTDOWN pid s0)).persistent_clients = s0.persistent_clients ∧
        (RINIT (RSHUTDOWN pid s0)).calls =
          s0.calls ++ destroy_calls pid (request_records s0) ∧
        (RINIT (RSHUTDOWN pid s0)).request_clients = some zend_hash_init ∧
        (RINIT (RSHUTDOWN pid s0)).subscribers = some zend_hash_init ∧
        (RINIT (RSHUTDOWN pid s0)).managers = some zend_hash_init) ∧
      ∃ r2, phongo_manager_init build serialize pid steps2 m2 uri options driverOptions
          (RINIT (RSHUTDOWN pid r1.state)) = some r2 ∧
        r2.manager.client = r1.manager.client ∧ r1.manager.client ≠ 0 ∧ r2.thrown = [] ∧
        r2.state = RINIT (RSHUTDOWN pid r1.state) ∧
        (∃ pclient,
          zend_hash_str_find_ptr r1.state.persistent_clients r1.manager.client_hash
            = some pclient ∧
          zend_hash_str_find_ptr r2.state.persistent_clients r1.manager.client_hash
            = some pclient ∧
          pclient.client = r2.manager.client) ∧
        r2.state.calls = r1.state.calls ++ destroy_calls pid (request_records r1.state) ∧
        (php_phongo_find_persistent_client s r1.manager.client_hash = 0 →
          r1.manager.client = steps1.mongoc_client_new_from_uri ∧
            DriverCall.client_new r1.manager.client ∈ r1.state.calls ∧
            DriverCall.client_new r1.manager.client ∈ r2.state.calls) := by
  refine ⟨request_cycle_frame pid, ?_⟩
  obtain ⟨hash, pclient, hh, hhash, hc, hfind, hpc⟩ :=
    init_persistent_success_record build serialize pid steps1 m1 uri options driverOptions s r1
      hp h1 hok
  have hfr := request_cycle_frame pid r1.state
  have hfound : php_phongo_find_persistent_client (RINIT (RSHUTDOWN pid r1.state)) hash =
      r1.manager.client := by
    simp [php_phongo_find_persistent_client, hfr.1, hfind, hpc]
  have hcreated : php_phongo_find_persistent_client s r1.manager.client_hash = 0 →
      r1.manager.client = steps1.mongoc_client_new_from_uri ∧
        DriverCall.client_new r1.manager.client ∈ r1.state.calls := by
    intro hmiss
    obtain ⟨hash2, _, hhash2, _, _, hcase⟩ :=
      init_success build serialize pid steps1 m1 uri options driverOptions s r1 h1 hok
    rcases hcase with ⟨_, hhit, _⟩ | ⟨hnew, _, hreg⟩
    · rw [← hhash2, hmiss] at hhit
      exact absurd hhit.symm hc
    · exact ⟨hnew.symm, register_calls_subset pid r1.manager _ r1.state true hreg _ (by simp)⟩
  refine ⟨_, init_hit build serialize pid steps2 m2 uri options driverOptions _ hash hh hp
    (by rw [hfound]; exact hc), ?_, hc, rfl, rfl, ⟨pclient, ?_, ?_, ?_⟩, hfr.2.1, ?_⟩
  · simp [hfound]
  · rw [hhash]; exact hfind
  · simp only [hfr.1, hhash]; exact hfind
  · simp [hfound, hpc]
  · intro hmiss
    obtain ⟨ha, hb⟩ := hcreated hmiss
    refine ⟨ha, hb, ?_⟩
    simp only [hfr.2.1]
    exact List.mem_append_left _ hb

theorem persistent_records_survive_requests_witness :
    ∃ r2, phongo_manager_init sample_build php_serialize 42 (sample_steps 9)
          php_phongo_manager_t.zero "mongodb://localhost" none none
          (RINIT (RSHUTDOWN 42 sample_first_init.state)) = some r2 ∧
      r2.manager.client = sample_first_init.manager.client ∧
      sample_first_init.manager.client ≠ 0 ∧ r2.thrown = [] ∧
      r2.state = RINIT (RSHUTDOWN 42 sample_first_init.state) ∧
      (∃ pclient,
        zend_hash_str_find_ptr sample_first_init.state.persistent_clients
          sample_first_init.manager.client_hash = some pclient ∧
        zend_hash_str_find_ptr r2.state.persistent_clients
          sample_first_init.manager.client_hash = some pclient ∧
        pclient.client = r2.manager.client) ∧
      r2.state.calls = sample_first_init.state.calls ++
        destroy_calls 42 (request_records sample_first_init.state) ∧
      (php_phongo_find_persistent_client sample_request_start
          sample_first_init.manager.client_hash = 0 →
        sample_first_init.manager.client = (sample_steps 7).mongoc_client_new_from_uri ∧
          DriverCall.client_new sample_first_init.manager.client ∈
            sample_first_init.state.calls ∧
          DriverCall.client_new sample_first_init.manager.client ∈ r2.state.calls) :=
  (persistent_records_survive_requests sample_build php_serialize 42 (sample_steps 7)
    (sample_steps 9) php_phongo_manager_t.zero php_phongo_manager_t.zero "mongodb://localhost"
    none none sample_request_start sample_first_init rfl rfl rfl).2

/-- C22: `php_phongo_manager_register` returns true exactly when the Manager
registry is initialised, the Manager is not in it, and the insertion succeeds;
the result is then the state with the Manager appended to the registry. In
every other case, among them a Manager that is already in the registry, it
returns false and the state is unchanged. A registry without repeated Managers
stays without repeated Managers. -/
theorem manager_register_spec (manager : Nat) (s : State) :
    ((php_phongo_manager_register manager s).1 = true ↔
        ∃ ht, s.managers = some ht ∧ manager ∉ ht.arData.map Prod.snd ∧
          (zend_hash_next_index_insert_ptr ht manager).isSome = true) ∧
      (∀ ht ht1, s.managers = some ht → manager ∉ ht.arData.map Prod.snd →
        zend_hash_next_index_insert_ptr ht manager = some ht1 →
        php_phongo_manager_register manager s = (true, { s with managers := some ht1 }) ∧
          ht1.arData = ht.arData ++ [(ht.nNextFreeElement, manager)]) ∧
      (s.managers = none → php_phongo_manager_register manager s = (false, s)) ∧
      (∀ ht, s.managers = some ht → manager ∈ ht.arData.map Prod.snd →
        php_phongo_manager_register manager s = (false, s)) ∧
      (∀ ht, s.managers = some ht → zend_hash_next_index_insert_ptr ht manager = none →
        php_phongo_manager_register manager s = (false, s)) ∧
      ((php_phongo_manager_register manager s).1 = false →
        (php_phongo_manager_register manager s).2 = s) ∧
      (∀ ht ht1, s.managers = some ht →
        (php_phongo_manager_register manager s).2.managers = some ht1 →
        (ht.arData.map Prod.snd).Nodup → (ht1.arData.map Prod.snd).Nodup) := by
  cases hm : s.managers with
  | none => simp [php_phongo_manager_register, hm]
  | some ht =>
    have hex := manager_exists_isSome s ht manager hm
    by_cases hin : manager ∈ ht.arData.map Prod.snd
    · have h1 : (php_phongo_manager_exists s manager).isSome = true := hex.2 hin
      have hreg : php_phongo_manager_register manager s = (false, s) := by
        simp [php_phongo_manager_register, hm, h1]
      rw [hreg]
      refine ⟨?_, ?_, fun h => Option.noConfusion h, fun _ _ _ => rfl, fun _ _ _ => rfl,
        fun _ => rfl, ?_⟩
      · simp only [Bool.false_eq_true, false_iff, not_exists, not_and]
        intro a ha hb
        simp only [Option.some.injEq] at ha
        subst ha
        exact absurd hin hb
      · intro a b ha hb
        simp only [Option.some.injEq] at ha
        subst ha
        exact absurd hin hb
      · intro a b ha hb hn
        simp only [Option.some.injEq] at ha
        subst ha
        simp only [hm, Option.some.injEq] at hb
        subst hb
        exact hn
    · have h1 : (php_phongo_manager_exists s manager).isSome = false := by
        cases h : (php_phongo_manager_exists s manager).isSome with
        | false => rfl
        | true => exact absurd (hex.1 h) hin
      cases hi : zend_hash_next_index_insert_ptr ht manager with
      | none =>
        have hreg : php_phongo_manager_register manager s = (false, s) := by
          simp [php_phongo_manager_register, hm, h1, hi]
        rw [hreg]
        refine ⟨?_, ?_, fun h => Option.noConfusion h, fun _ _ _ => rfl, fun _ _ _ => rfl,
          fun _ => rfl, ?_⟩
        · simp only [Bool.false_eq_true, false_iff, not_exists, not_and]
          intro a ha _
          simp only [Option.some.injEq] at ha
          subst ha
          simp [hi]
        · intro a b ha _ hb
          simp only [Option.some.injEq] at ha
          subst ha
          rw [hi] at hb
          exact Option.noConfusion hb
        · intro a b ha hb hn
          simp only [Option.some.injEq] at ha
          subst ha
          simp only [hm, Option.some.injEq] at hb
          subst hb
          exact hn
      | some ht1 =>
        have hreg : php_phongo_manager_register manager s =
            (true, { s with managers := some ht1 }) := by
          simp [php_phongo_manager_register, hm, h1, hi]
        have hd := insert_arData ht ht1 manager hi
        rw [hreg]
        refine ⟨?_, ?_, fun h => Option.noConfusion h, ?_, ?_, fun h => Bool.noConfusion h, ?_⟩
        · simp only [true_iff]
          exact ⟨ht, rfl, hin, by simp [hi]⟩
        · intro a b ha _ hb
          simp only [Option.some.injEq] at ha
          subst ha
          rw [hi] at hb
          simp only [Option.some.injEq] at hb
          subst hb
          exact ⟨rfl, hd⟩
        · intro a ha hb
          simp only [Option.some.injEq] at ha
          subst ha
          exact absurd hb hin
        · intro a ha hb
          simp only [Option.some.injEq] at ha
          subst ha
          rw [hi] at hb
          exact Option.noConfusion hb
        · intro a b ha hb hn
          simp only [Option.some.injEq] at ha hb
          subst ha hb
          rw [hd, List.map_append]
          refine List.Nodup.append hn (List.nodup_singleton _) ?_
          intro x hx hy
          simp only [List.map_cons, List.map_nil, List.mem_singleton] at hy
          subst hy
          exact hin hx

end Phongo
